import Mathlib

/-! EDR file monitor: scanner, fingerprint, snapshot diff, key watcher and report.

A shallow embedding of `src/file_monitor/EDR/main.cpp` and
`src/file_monitor/EDR/registry_utils.cpp`:

* `std::string` comparison, `std::set<std::string>` and `std::map<std::string, V>` as
  ascending lists driven by the comparator only;
* `get_file_info` over what the operating system calls observe for one path;
* `get_directory_files` over a directory tree as `FindFirstFileA` / `FindNextFileA` deliver it;
* the per-folder body of the polling loop of `main` (new/modified pass, deleted pass),
  the initialisation loop and one full poll cycle over all folders;
* `is_folder_accessible`, `get_system_folders` and `get_registry_monitors`, and the loop of
  `main` that reads the registry values and starts the watcher threads;
* `read_registry_value` and `monitor_registry_changes` over what their registry calls
  observe, the loop of the watcher with a bound on the number of its iterations;
* the `nlohmann::json` value that `main` builds as its report.

Of the console and log lines, the `[ALERT]` lines of the polling loop, the lines of
start-up discovery and the lines of the watcher are part of the model.
-/

namespace EDR

/-! ## Strings, sets and maps of the C++ standard library -/

/-- Lexicographic comparison of character sequences, the order of `std::string::compare`:
the first differing character decides, and a proper prefix is smaller. -/
def ltChars : List Char → List Char → Bool
  | [], [] => false
  | [], _ :: _ => true
  | _ :: _, [] => false
  | a :: as, b :: bs =>
    if a < b then true
    else if b < a then false
    else ltChars as bs

/-- The `operator<` of `std::string`. -/
def str_lt (a b : String) : Bool := ltChars a.data b.data

/-- A `std::set<std::string>`: its elements in iteration (ascending) order. -/
abbrev StdSet := List String

/-- The call `s.insert(x)`: the position is found with the comparator alone, and nothing is
inserted when an equivalent element (neither smaller nor larger) is already there. -/
def set_insert (x : String) : StdSet → StdSet
  | [] => [x]
  | y :: ys =>
    if str_lt x y then x :: y :: ys
    else if str_lt y x then y :: set_insert x ys
    else y :: ys

/-- The range insertion `dst.insert(src.begin(), src.end())`. -/
def set_insert_range (src : StdSet) (dst : StdSet) : StdSet :=
  src.foldl (fun acc p => set_insert p acc) dst

/-- The test `s.find(x) != s.end()`. -/
def set_contains (s : StdSet) (x : String) : Bool := decide (x ∈ s)

/-- A `std::map<std::string, V>`: its entries in iteration (ascending key) order. -/
abbrev StdMap (V : Type) := List (String × V)

/-- The lookup `m.find(k)`: the mapped value, or `none` for `m.end()`. -/
def map_find {V : Type} : StdMap V → String → Option V
  | [], _ => none
  | (k', v) :: rest, k => if k' = k then some v else map_find rest k

/-- The assignment `m[k] = v`: overwrites the entry of `k`, or inserts one at its place in
the key order. -/
def map_assign {V : Type} (k : String) (v : V) : StdMap V → StdMap V
  | [] => [(k, v)]
  | (k', v') :: rest =>
    if str_lt k k' then (k, v) :: (k', v') :: rest
    else if str_lt k' k then (k', v') :: map_assign k v rest
    else (k', v) :: rest

/-- The call `m.erase(k)`. -/
def map_erase {V : Type} (k : String) (m : StdMap V) : StdMap V :=
  m.filter (fun e => decide (e.1 ≠ k))

/-- The keys of a map, in iteration order. -/
def map_keys {V : Type} (m : StdMap V) : List String := m.map Prod.fst

/-! ## File records -/

/-- The struct `FileInfo` of main.cpp. -/
structure FileInfo where
  lastModified : String
  exists_ : Bool
  filename : String
  hash : String
deriving DecidableEq, Repr

/-- What the calls made by `get_file_info` observe for one path at one moment. -/
structure StatObs where
  /-- Whether `FindFirstFileA(path)` returned a valid handle. -/
  found : Bool
  /-- The result of `get_file_timestamp(path)` (file_utils, not part of the sources at hand):
  the timestamp string, or the `what()` of a `std::exception` it threw. -/
  timestamp : Except String String
  /-- Whether `std::ifstream file(path, std::ios::binary)` is in a good state. -/
  opens : Bool

/-- The text `ss << std::hex << n` leaves in the stream: lower-case hexadecimal digits. -/
def hex (n : Nat) : String := String.mk (Nat.toDigits 16 n)

/-- The function `get_file_info` of main.cpp. `strHash` is `std::hash<std::string>`, whose
values the language leaves to the implementation. -/
def get_file_info (strHash : String → Nat) (stat : String → StatObs) (path : String) :
    FileInfo :=
  if (stat path).found then
    match (stat path).timestamp with
    | .ok ts =>
      { filename := path
        lastModified := ts
        exists_ := true
        hash := if (stat path).opens then hex (strHash (path ++ ts)) else "" }
    | .error what =>
      { filename := path
        lastModified := "Error: " ++ what
        exists_ := false
        hash := "" }
  else
    { filename := path
      lastModified := "File not found"
      exists_ := false
      hash := "" }

/-! ## Directory scan -/

/-- One `WIN32_FIND_DATAA` record of an enumeration. A record with
`FILE_ATTRIBUTE_DIRECTORY` carries what enumerating that directory yields in turn:
`error = some code` when `FindFirstFileA` on it fails with `GetLastError() = code`
(its entries are then on disk but cannot be listed), `error = none` when it succeeds. -/
inductive DirEntry where
  | file (cFileName : String) : DirEntry
  | directory (cFileName : String) (error : Option Nat) (entries : List DirEntry) : DirEntry

mutual
/-- One iteration of the `do ... while (FindNextFileA(...))` loop of `get_directory_files`,
for the record `e`, with `files` the set built so far. For a directory, `subFiles` is the
result of the recursive call `get_directory_files(filePath)`: empty when enumerating
`filePath` fails, the scan of its records otherwise. -/
def scan_entry (folder : String) (files : StdSet) : DirEntry → StdSet
  | .file filename =>
    if filename ≠ "." ∧ filename ≠ ".." then
      set_insert (folder ++ "\\" ++ filename) files
    else files
  | .directory filename error entries =>
    if filename ≠ "." ∧ filename ≠ ".." then
      let subFiles : StdSet :=
        match error with
        | some _ => []
        | none => scan_entries (folder ++ "\\" ++ filename) [] entries
      set_insert_range subFiles files
    else files
/-- The enumeration loop of `get_directory_files` over the records of one directory. -/
def scan_entries (folder : String) (files : StdSet) : List DirEntry → StdSet
  | [] => files
  | e :: rest => scan_entries folder (scan_entry folder files e) rest
end

/-- The function `get_directory_files` of main.cpp, for a folder whose enumeration fails
with `error = some code` or yields `entries`. Every error code takes the same branch
(it only chooses the debug line) and leaves the set empty. -/
def get_directory_files (folder : String) (error : Option Nat) (entries : List DirEntry) :
    StdSet :=
  match error with
  | some _ => []
  | none => scan_entries folder [] entries

/-! ## Alerts -/

/-- The three kinds of `[ALERT]` line written by the polling loop. -/
inductive ChangeKind where
  | New
  | Modified
  | Deleted
deriving DecidableEq, Repr

/-- One alert of the polling loop: the `[ALERT]` log line together with the call
`show_alert(message, folder.path)`. -/
structure Alert where
  kind : ChangeKind
  path : String
  folder : String
deriving DecidableEq, Repr

/-- The message passed to `show_alert` and written after `[ALERT] `. -/
def Alert.message (a : Alert) : String :=
  match a.kind with
  | .New => "New file detected: " ++ a.path
  | .Modified => "File modified: " ++ a.path
  | .Deleted => "File deleted: " ++ a.path

/-! ## The polling loop -/

/-- The per-target snapshot `previousFileStates[folder.path]`. -/
abbrev Snapshot := StdMap FileInfo

/-- The body of the loop `for (const auto& path : currentFiles)` (main.cpp 346-361):
the alerts it writes and the snapshot after `previousFileStates[folder.path][path] =
currentInfo`. -/
def check_path (strHash : String → Nat) (stat : String → StatObs) (folder : String)
    (prev : Snapshot) (path : String) : List Alert × Snapshot :=
  let currentInfo := get_file_info strHash stat path
  let alerts :=
    match map_find prev path with
    | none => [{ kind := .New, path := path, folder := folder : Alert }]
    | some prevInfo =>
      if currentInfo.lastModified ≠ prevInfo.lastModified ∨ currentInfo.hash ≠ prevInfo.hash
      then [{ kind := .Modified, path := path, folder := folder : Alert }]
      else []
  (alerts, map_assign path currentInfo prev)

/-- The loop `for (const auto& path : currentFiles)` of main.cpp 346-361. -/
def new_modified_pass (strHash : String → Nat) (stat : String → StatObs) (folder : String) :
    List String → Snapshot → List Alert × Snapshot
  | [], prev => ([], prev)
  | path :: rest, prev =>
    let step := check_path strHash stat folder prev path
    let tail := new_modified_pass strHash stat folder rest step.2
    (step.1 ++ tail.1, tail.2)

/-- How a run of a loop of `main` ends: it runs to its end and leaves `s`, or it leaves
defined behaviour (it advances an iterator that `erase` has invalidated) at a moment when
the data is `s`; from there on the language promises nothing. -/
inductive Outcome (σ : Type) where
  | completed (s : σ) : Outcome σ
  | undefined (s : σ) : Outcome σ
deriving DecidableEq, Repr

/-- The state a run leaves when it ends within defined behaviour. -/
def Outcome.final {σ : Type} : Outcome σ → Option σ
  | .completed s => some s
  | .undefined _ => none

/-- The outcome with `f` applied to the data. -/
def Outcome.map {σ τ : Type} (f : σ → τ) : Outcome σ → Outcome τ
  | .completed s => .completed (f s)
  | .undefined s => .undefined (f s)

/-- The alerts a run has written, in order, and how it ends. -/
structure Run (σ : Type) where
  alerts : List Alert
  outcome : Outcome σ
deriving DecidableEq, Repr

/-- The loop `for (const auto& prevFile : previousFileStates[folder.path])` of
main.cpp 363-370, from the iterator position whose remaining entries are `pending`;
`snapshot` is the whole map. When the key of the current entry is not in `currentFiles`
the body writes the alert and calls `erase(prevFile.first)` on the map being iterated.
`std::map::erase` invalidates the iterators to the erased element, and the element erased
is the one the iterator of the range-for refers to; the next thing the loop does is
increment that iterator, which has no defined behaviour. -/
def deleted_pass (folder : String) (currentFiles : StdSet) (snapshot : Snapshot) :
    List (String × FileInfo) → Run Snapshot
  | [] => { alerts := [], outcome := .completed snapshot }
  | prevFile :: pending =>
    if set_contains currentFiles prevFile.1 then
      deleted_pass folder currentFiles snapshot pending
    else
      { alerts := [{ kind := .Deleted, path := prevFile.1, folder := folder }]
        outcome := .undefined (map_erase prevFile.1 snapshot) }

/-- The body of `for (const auto& folder : folders)` for one active folder
(main.cpp 342-370), given the set `currentFiles` that `get_directory_files(folder.path)`
returned and the prior snapshot of the folder. -/
def diff_folder (strHash : String → Nat) (stat : String → StatObs) (folder : String)
    (currentFiles : StdSet) (prev : Snapshot) : Run Snapshot :=
  let first := new_modified_pass strHash stat folder currentFiles prev
  let second := deleted_pass folder currentFiles first.2 first.2
  { alerts := first.1 ++ second.alerts, outcome := second.outcome }

/-- The struct `MonitorFolder` of main.cpp. -/
structure MonitorFolder where
  path : String
  description : String
  isActive : Bool
deriving DecidableEq, Repr

/-- What the file system shows during one pass of `main` over the folders: for the path of
a monitored folder the result of enumerating it (`error`, `entries`, as the arguments of
`get_directory_files`), and for a file path what `get_file_info` observes. -/
structure FileSystem where
  error : String → Option Nat
  entries : String → List DirEntry
  stat : String → StatObs

/-- The map `previousFileStates` of `main`: folder path to snapshot. -/
abbrev Store := StdMap Snapshot

/-- The reference `previousFileStates[folder]`. The `operator[]` of `std::map` creates an
empty snapshot for an absent folder; as `main` reaches the outer map through `operator[]`
only, an absent entry and an empty one cannot be told apart. -/
def store_at (store : Store) (folder : String) : Snapshot :=
  (map_find store folder).getD []

/-- The set `get_directory_files(folder)` under the observation `fs`. -/
def scan (fs : FileSystem) (folder : String) : StdSet :=
  get_directory_files folder (fs.error folder) (fs.entries folder)

/-- The loop `for (const auto& path : initialFiles)` of main.cpp 293-295, each iteration
being `previousFileStates[folder.path][path] = get_file_info(path)`. -/
def initialize_folder (strHash : String → Nat) (fs : FileSystem) (folder : String) :
    List String → Store → Store
  | [], store => store
  | path :: rest, store =>
    initialize_folder strHash fs folder rest
      (map_assign folder
        (map_assign path (get_file_info strHash fs.stat path) (store_at store folder)) store)

/-- The loop "Initialize previous states" of main.cpp 285-297. -/
def initialize_states (strHash : String → Nat) (fs : FileSystem) :
    List MonitorFolder → Store → Store
  | [], store => store
  | folder :: rest, store =>
    if folder.isActive then
      initialize_states strHash fs rest
        (initialize_folder strHash fs folder.path (scan fs folder.path) store)
    else
      initialize_states strHash fs rest store

/-- One iteration of `for (const auto& folder : folders)` of the polling loop for an active
folder (main.cpp 341-370) on the whole store. -/
def poll_folder (strHash : String → Nat) (fs : FileSystem) (folder : String)
    (store : Store) : Run Store :=
  let r := diff_folder strHash fs.stat folder (scan fs folder) (store_at store folder)
  { alerts := r.alerts
    outcome := r.outcome.map (fun snapshot => map_assign folder snapshot store) }

/-- The loop "Monitor folders" of one poll cycle (main.cpp 335-371). -/
def poll_cycle (strHash : String → Nat) (fs : FileSystem) :
    List MonitorFolder → Store → Run Store
  | [], store => { alerts := [], outcome := .completed store }
  | folder :: rest, store =>
    if folder.isActive then
      let r := poll_folder strHash fs folder.path store
      match r.outcome with
      | .completed store1 =>
        let t := poll_cycle strHash fs rest store1
        { alerts := r.alerts ++ t.alerts, outcome := t.outcome }
      | .undefined store1 => { alerts := r.alerts, outcome := .undefined store1 }
    else
      poll_cycle strHash fs rest store

/-- The number of alerts of kind `kind` for `path` in a list of alerts. -/
def count_alerts (kind : ChangeKind) (path : String) (alerts : List Alert) : Nat :=
  alerts.countP (fun a => decide (a.kind = kind ∧ a.path = path))

/-- The class invariant of `std::set<std::string>`: strictly ascending elements. -/
def SetOrdered (s : StdSet) : Prop := s.Pairwise (fun a b => str_lt a b = true)

/-- The observation of every active folder of `folders` is the same under `fs1` as under
`fs0`: the same scanned path set, and for each scanned path the same `get_file_info`
result. -/
def SameObservation (strHash : String → Nat) (fs0 fs1 : FileSystem)
    (folders : List MonitorFolder) : Prop :=
  ∀ m ∈ folders, m.isActive = true →
    scan fs1 m.path = scan fs0 m.path
      ∧ ∀ p ∈ scan fs0 m.path,
          get_file_info strHash fs1.stat p = get_file_info strHash fs0.stat p

/-! ## The directory tree as the spec speaks of it -/

/-- An entry at some depth below a scanned root, as the spec's words describe it: its path
(the root followed by its components joined with a backslash), its name, whether it is a
directory, whether every directory above it up to the root can be enumerated, and, for a
directory, whether it can be enumerated itself. -/
structure Located where
  path : String
  name : String
  isDirectory : Bool
  reachable : Bool
  enumerable : Bool
deriving DecidableEq, Repr

mutual
/-- The entries of the tree at and below the record `e` of the directory `folder`. The
records `.` and `..` are links to the directory itself and to its parent, not entries. -/
def locate_entry (folder : String) (reachable : Bool) : DirEntry → List Located
  | .file name =>
    if name ≠ "." ∧ name ≠ ".." then
      [{ path := folder ++ "\\" ++ name, name := name, isDirectory := false,
         reachable := reachable, enumerable := true }]
    else []
  | .directory name error entries =>
    if name ≠ "." ∧ name ≠ ".." then
      { path := folder ++ "\\" ++ name, name := name, isDirectory := true,
        reachable := reachable, enumerable := error.isNone }
        :: locate_entries (folder ++ "\\" ++ name) (reachable && error.isNone) entries
    else []
/-- The entries of the tree at any depth below the directory `folder`, whose records are
given. -/
def locate_entries (folder : String) (reachable : Bool) : List DirEntry → List Located
  | [] => []
  | e :: rest => locate_entry folder reachable e ++ locate_entries folder reachable rest
end

/-- The entries at any depth below a root folder whose own enumeration succeeds. -/
def entries_below (folder : String) (entries : List DirEntry) : List Located :=
  locate_entries folder true entries

/-- Every directory below the root can be enumerated. -/
def AllEnumerable (folder : String) (entries : List DirEntry) : Prop :=
  ∀ l ∈ entries_below folder entries, l.enumerable = true

/-- The name of a record. -/
def DirEntry.cFileName : DirEntry → String
  | .file name => name
  | .directory name _ _ => name

mutual
/-- Well-formedness of a record of a directory tree, see `tree_ok`. -/
def entry_ok : DirEntry → Bool
  | .file name => decide ('\\' ∉ name.data)
  | .directory name _ entries =>
    decide ('\\' ∉ name.data) && (decide (name = "." ∨ name = "..") || tree_ok entries)
/-- Well-formedness of the records of one directory, as every file system guarantees it:
no name holds a backslash, no two records of a directory have the same name, and the same
holds in every directory below. -/
def tree_ok : List DirEntry → Bool
  | [] => true
  | e :: rest =>
    entry_ok e && decide (∀ e1 ∈ rest, e1.cFileName ≠ e.cFileName) && tree_ok rest
end

/-- The located entry `l` is a file with path `p` that a scan can reach: every directory
above it can be enumerated. -/
def IsReachableFile (p : String) (l : Located) : Prop :=
  l.path = p ∧ l.isDirectory = false ∧ l.reachable = true

/-- A rest of a path after one of its components: nothing, or a backslash and more. -/
def IsPathTail (t : List Char) : Prop := t = [] ∨ ∃ u, t = '\\' :: u

/-! ## A small file system used in the concrete checks -/

/-- The folder `C:\t` holding `a.txt` and a subfolder `d` with `z.txt`; every file has the
same timestamp and can be opened. -/
def demo_fs : FileSystem where
  error := fun _ => none
  entries := fun _ =>
    [.directory "." none [], .directory ".." none [], .file "a.txt",
     .directory "d" none [.directory "." none [], .directory ".." none [], .file "z.txt"]]
  stat := fun _ => { found := true, timestamp := .ok "2024-01-01 10:00:00", opens := true }

/-- The file system `demo_fs` after `b.txt` has been added to the folder. -/
def demo_fs_added : FileSystem where
  error := fun _ => none
  entries := fun _ =>
    [.directory "." none [], .directory ".." none [], .file "a.txt", .file "b.txt",
     .directory "d" none [.directory "." none [], .directory ".." none [], .file "z.txt"]]
  stat := fun _ => { found := true, timestamp := .ok "2024-01-01 10:00:00", opens := true }

/-- A file system on which no folder can be enumerated (`ERROR_ACCESS_DENIED`). -/
def demo_fs_denied : FileSystem where
  error := fun _ => some 5
  entries := fun _ => []
  stat := fun _ => { found := false, timestamp := .ok "", opens := false }

/-- The records of a folder holding `a.txt`, a subfolder `locked` that cannot be enumerated
(access denied) although it holds `s.txt`, a subfolder `d` with `z.txt`, and `y.txt`. -/
def demo_entries_locked : List DirEntry :=
  [.directory "." none [], .directory ".." none [], .file "a.txt",
   .directory "locked" (some 5) [.file "s.txt"],
   .directory "d" none [.directory "." none [], .directory ".." none [], .file "z.txt"],
   .file "y.txt"]

/-- One active monitored folder, `C:\t`. -/
def demo_folders : List MonitorFolder :=
  [{ path := "C:\\t", description := "Desktop", isActive := true }]

/-! ## Start-up discovery of the folders -/

/-- What the calls of `get_system_folders` and `is_folder_accessible` observe at start-up:
the paths `SHGetFolderPathA` delivers for the desktop, the documents and the profile folder
(`none` when the call does not succeed), and for a path the value of
`GetFileAttributesA(path)` and of `GetLastError()` after it. -/
structure StartupObs where
  desktop : Option String
  documents : Option String
  profile : Option String
  attributes : String → Nat
  lastError : String → Nat

/-- The constant `INVALID_FILE_ATTRIBUTES` of the Windows headers. -/
def INVALID_FILE_ATTRIBUTES : Nat := 0xFFFFFFFF

/-- The constant `FILE_ATTRIBUTE_DIRECTORY` of the Windows headers. -/
def FILE_ATTRIBUTE_DIRECTORY : Nat := 0x10

/-- A line written to `std::cout` during start-up discovery. -/
inductive ConsoleLine where
  | debug (text : String) : ConsoleLine
  | added (description : String) (path : String) : ConsoleLine
  | warning (description : String) (path : String) : ConsoleLine
deriving DecidableEq, Repr

/-- The text of a console line. The lines for the system folders write `system` in lower
case. -/
def ConsoleLine.text : ConsoleLine → String
  | .debug text => "[DEBUG] " ++ text
  | .added description path =>
    "[*] Added " ++ (if description = "System" then "system" else description)
      ++ " folder: " ++ path
  | .warning description path =>
    "[!] Warning: Cannot access "
      ++ (if description = "System" then "system" else description) ++ " folder: " ++ path

/-- The value returned by `is_folder_accessible` of main.cpp. -/
def is_folder_accessible (obs : StartupObs) (path : String) : Bool :=
  if obs.attributes path = INVALID_FILE_ATTRIBUTES then false
  else decide (obs.attributes path &&& FILE_ATTRIBUTE_DIRECTORY ≠ 0)

/-- The lines `is_folder_accessible` writes: two debug lines when the attributes cannot be
read, the second chosen by the error code, none otherwise. -/
def is_folder_accessible_lines (obs : StartupObs) (path : String) : List ConsoleLine :=
  if obs.attributes path = INVALID_FILE_ATTRIBUTES then
    [.debug ("Cannot access folder: " ++ path ++ " (Error: "
        ++ toString (obs.lastError path) ++ ")"),
     .debug
      (if obs.lastError path = 5 then "Access denied to folder: " ++ path
       else if obs.lastError path = 3 then "Path not found: " ++ path
       else if obs.lastError path = 8 then "Not enough memory to access folder: " ++ path
       else "Unknown error accessing folder: " ++ path)]
  else []

/-- The folders collected so far by `get_system_folders` and the lines written so far. -/
structure Discovery where
  folders : List MonitorFolder
  console : List ConsoleLine
deriving DecidableEq, Repr

/-- One block `if (is_folder_accessible(path)) { folders.push_back({path, description,
true}); ... } else { ... }` of `get_system_folders`. The blocks for the desktop and for the
system folders write a warning in the `else` branch (`warns`); the blocks for the documents
and the downloads folder have no `else` branch. -/
def probe_and_add (obs : StartupObs) (path description : String) (warns : Bool)
    (d : Discovery) : Discovery :=
  if is_folder_accessible obs path then
    { folders := d.folders ++ [{ path := path, description := description, isActive := true }]
      console := d.console ++ is_folder_accessible_lines obs path
        ++ [.added description path] }
  else
    { folders := d.folders
      console := d.console ++ is_folder_accessible_lines obs path
        ++ (if warns then [.warning description path] else []) }

/-- The vector `systemFolders` of `get_system_folders`. -/
def system_folders : List String :=
  ["C:\\Windows\\System32", "C:\\Windows\\System", "C:\\Program Files",
   "C:\\Program Files (x86)", "C:\\Users\\Public"]

/-- The part of `get_system_folders` before the system folders: desktop, documents and
downloads (main.cpp 173-201). -/
def get_user_folders (obs : StartupObs) : Discovery :=
  let d0 : Discovery := { folders := [], console := [] }
  let d1 :=
    match obs.desktop with
    | some desktopPath => probe_and_add obs desktopPath "Desktop" true d0
    | none => d0
  let d2 :=
    match obs.documents with
    | some documentsPath => probe_and_add obs documentsPath "Documents" false d1
    | none => d1
  match obs.profile with
  | some userProfile => probe_and_add obs (userProfile ++ "\\Downloads") "Downloads" false d2
  | none => d2

/-- The function `get_system_folders` of main.cpp: the vector it returns and the lines it
writes. -/
def get_system_folders (obs : StartupObs) : Discovery :=
  system_folders.foldl (fun d folder => probe_and_add obs folder "System" true d)
    (get_user_folders obs)

/-- The targets of a discovery that carry the description `System`. -/
def system_targets (d : Discovery) : List MonitorFolder :=
  d.folders.filter (fun t => decide (t.description = "System"))

/-- The warnings of a discovery written for system folders. -/
def system_warnings (d : Discovery) : List ConsoleLine :=
  d.console.filter (fun line =>
    match line with
    | .warning description _ => decide (description = "System")
    | _ => false)

/-- A start-up at which every folder is a directory except `C:\Windows\System`, which does
not exist (`ERROR_PATH_NOT_FOUND`). -/
def demo_startup : StartupObs where
  desktop := some "C:\\Users\\u\\Desktop"
  documents := some "C:\\Users\\u\\Documents"
  profile := some "C:\\Users\\u"
  attributes := fun path => if path = "C:\\Windows\\System" then 0xFFFFFFFF else 0x10
  lastError := fun _ => 3

/-! ## Registry targets -/

/-- The predefined registry roots that `get_registry_monitors` names. -/
inductive HKEY where
  | HKEY_CURRENT_USER
  | HKEY_LOCAL_MACHINE
deriving DecidableEq, Repr

/-- The struct `RegistryMonitor` of main.cpp. -/
structure RegistryMonitor where
  root : HKEY
  subkey : String
  values : List String
  isActive : Bool
deriving DecidableEq, Repr

/-- The function `get_registry_monitors` of main.cpp. -/
def get_registry_monitors : List RegistryMonitor :=
  [{ root := .HKEY_CURRENT_USER, subkey := "Software\\EDRTest", values := ["TestValue"],
     isActive := true },
   { root := .HKEY_LOCAL_MACHINE,
     subkey := "SOFTWARE\\Microsoft\\Windows NT\\CurrentVersion\\Windows",
     values := ["loadappinit_dlls", "appinit_dlls", "iconservicelib"], isActive := true },
   { root := .HKEY_LOCAL_MACHINE,
     subkey := "SOFTWARE\\Microsoft\\Windows\\CurrentVersion\\Explorer\\Shell Folders",
     values := ["common startup", "startup"], isActive := true },
   { root := .HKEY_LOCAL_MACHINE,
     subkey := "SOFTWARE\\Microsoft\\Windows\\CurrentVersion\\Run", values := [],
     isActive := true },
   { root := .HKEY_LOCAL_MACHINE,
     subkey := "SOFTWARE\\Microsoft\\Windows\\CurrentVersion\\RunOnce", values := [],
     isActive := true }]

/-- What the registry calls of one `read_registry_value` observe: the results of
`RegOpenKeyExA` and of the two `RegQueryValueExA` calls (`0` is `ERROR_SUCCESS`), the type
of the value, the bytes the second query stores in the buffer (`value_length` of them), and
whether an exception is thrown inside the `try` block. The buffer has 1024 bytes; a stored
value longer than that is not an observation of this model. -/
structure RegQuery where
  open_result : Nat
  info_result : Nat
  read_result : Nat
  type : Nat
  data : List Nat
  throws : Bool

/-- The registry as `read_registry_value` sees it at one moment. -/
abbrev Registry := HKEY → String → String → RegQuery

/-- The unsigned integer that the bytes hold in little-endian order. -/
def little_endian : List Nat → Nat
  | [] => 0
  | b :: bs => b + 256 * little_endian bs

/-- The pieces of a byte sequence between its NUL bytes, `current` being the bytes of the
piece at hand in reverse; the zero-initialised rest of the buffer ends the last piece. -/
def nul_segments : List Nat → List Nat → List (List Nat)
  | [], current => [current.reverse]
  | b :: bs, current =>
    if b = 0 then current.reverse :: nul_segments bs []
    else nul_segments bs (b :: current)

/-- The text of a byte sequence, one `char` per byte. -/
def bytes_to_string (bs : List Nat) : String := String.mk (bs.map Char.ofNat)

/-- The conversion of the buffer by the `switch (type)` of `read_registry_value`:
`REG_SZ` (1) and `REG_EXPAND_SZ` (2) give the `value_length` bytes as they are, `REG_DWORD`
(4) and `REG_QWORD` (11) the decimal text of the first four or eight bytes, `REG_MULTI_SZ`
(7) the strings up to the first empty one joined with a comma and a blank; any other type
is unsupported. -/
def decode_registry_value (type : Nat) (data : List Nat) : Option String :=
  if type = 1 ∨ type = 2 then some (bytes_to_string data)
  else if type = 4 then some (toString (little_endian (data.take 4)))
  else if type = 11 then some (toString (little_endian (data.take 8)))
  else if type = 7 then
    some (", ".intercalate
      (((nul_segments data []).takeWhile (fun s => !s.isEmpty)).map bytes_to_string))
  else none

/-- The function `read_registry_value` of registry_utils.cpp on what its calls observe. -/
def read_registry_value (q : RegQuery) : String :=
  if q.throws then "N/A"
  else if q.open_result ≠ 0 then "N/A"
  else if q.info_result ≠ 0 then "N/A"
  else if q.read_result ≠ 0 then "N/A"
  else
    match decode_registry_value q.type q.data with
    | some result_str => result_str
    | none => "N/A"

/-- The arguments with which a thread running `monitor_registry_changes` is started. -/
structure WatcherArgs where
  root : HKEY
  subKey : String
  valueName : String
deriving DecidableEq, Repr

/-- The map `previousRegistryStates` of `main`: subkey to value name to value. -/
abbrev RegistryStates := StdMap (StdMap String)

/-- The reference `previousRegistryStates[subkey]`, an empty map for an absent subkey. -/
def registry_states_at (states : RegistryStates) (subkey : String) : StdMap String :=
  (map_find states subkey).getD []

/-- What the loop "Initialize registry states and start monitoring threads" has built: the
map `previousRegistryStates` and the vector `registry_threads`. -/
structure RegistryStartup where
  previousRegistryStates : RegistryStates
  registry_threads : List WatcherArgs

/-- The inner loop `for (const auto& value : monitor.values)` of main.cpp 303-309. -/
def start_value_watchers (reg : Registry) (monitor : RegistryMonitor) :
    List String → RegistryStartup → RegistryStartup
  | [], s => s
  | value :: rest, s =>
    let currentValue := read_registry_value (reg monitor.root monitor.subkey value)
    start_value_watchers reg monitor rest
      { previousRegistryStates :=
          map_assign monitor.subkey
            (map_assign value currentValue
              (registry_states_at s.previousRegistryStates monitor.subkey))
            s.previousRegistryStates
        registry_threads :=
          s.registry_threads
            ++ [{ root := monitor.root, subKey := monitor.subkey, valueName := value }] }

/-- The loop `for (const auto& monitor : registryMonitors)` of main.cpp 301-311. -/
def start_registry_monitoring (reg : Registry) :
    List RegistryMonitor → RegistryStartup → RegistryStartup
  | [], s => s
  | monitor :: rest, s =>
    if monitor.isActive then
      start_registry_monitoring reg rest (start_value_watchers reg monitor monitor.values s)
    else
      start_registry_monitoring reg rest s

/-- The watcher arguments of the active targets: one per target and configured value. -/
def watcher_triples (monitors : List RegistryMonitor) : List WatcherArgs :=
  (monitors.filter (fun m => m.isActive)).flatMap
    (fun m => m.values.map (fun v => { root := m.root, subKey := m.subkey, valueName := v }))

/-- A registry in which every value is the string `v1` (stored with its NUL byte). -/
def demo_registry : Registry :=
  fun _ _ _ =>
    { open_result := 0, info_result := 0, read_result := 0, type := 1,
      data := [118, 49, 0], throws := false }

/-- A registry in which no key can be opened (`ERROR_FILE_NOT_FOUND`). -/
def demo_registry_absent : Registry :=
  fun _ _ _ =>
    { open_result := 2, info_result := 0, read_result := 0, type := 0, data := [],
      throws := false }

/-! ## The key watcher -/

/-- A line written to the log file by `monitor_registry_changes`. -/
inductive WatcherLog where
  | open_failed (subKey : String) (result : Nat) : WatcherLog
  | event_failed : WatcherLog
  | notify_failed (result : Nat) : WatcherLog
  | change_detected (subKey valueName currentValue : String) : WatcherLog
deriving DecidableEq, Repr

/-- The text of a log line of the watcher. -/
def WatcherLog.text : WatcherLog → String
  | .open_failed subKey result =>
    "[ERROR] Failed to open registry key for monitoring: " ++ subKey ++ " (Error: "
      ++ toString result ++ ")"
  | .event_failed => "[ERROR] Failed to create event for registry monitoring"
  | .notify_failed result => "[ERROR] Failed to set registry notification: " ++ toString result
  | .change_detected subKey valueName currentValue =>
    "[DEBUG] Registry change detected for: " ++ subKey ++ "\\" ++ valueName
      ++ " - New value: " ++ currentValue

/-- What a thread of the program does to the outside, in the order of execution: a line
written to the log file, the call `RegNotifyChangeKeyValue` of loop iteration `iteration`
with its result, the return of `WaitForSingleObject(hEvent, 1000)` with its result, a call
of `read_registry_value` with the string it returns, `ResetEvent(hEvent)`,
`CloseHandle(hEvent)`, `RegCloseKey(hKey)`, and a call `show_alert(message, folder)` to the
alert dispatcher of main.cpp. -/
inductive WatcherEvent where
  | log (line : WatcherLog) : WatcherEvent
  | notify (iteration : Nat) (result : Nat) : WatcherEvent
  | wait (iteration : Nat) (waitResult : Nat) : WatcherEvent
  | read (currentValue : String) : WatcherEvent
  | reset_event : WatcherEvent
  | close_event : WatcherEvent
  | close_key : WatcherEvent
  | show_alert (message folder : String) : WatcherEvent
deriving DecidableEq, Repr

/-- The constant `WAIT_OBJECT_0` of the Windows headers: the wait returned signaled. -/
def WAIT_OBJECT_0 : Nat := 0

/-- The constant `WAIT_TIMEOUT` of the Windows headers. -/
def WAIT_TIMEOUT : Nat := 258

/-- What one thread running `monitor_registry_changes` observes: the result of
`RegOpenKeyExA` (`0` is `ERROR_SUCCESS`), whether `CreateEventA` returned a handle, and for
the loop iteration `i` the value of `g_monitoring_active` read at its head, the result of
`RegNotifyChangeKeyValue`, the result of the wait, and the registry as `read_registry_value`
sees it then. -/
structure WatcherEnv where
  open_result : Nat
  event_created : Bool
  active : Nat → Bool
  notify_result : Nat → Nat
  wait_result : Nat → Nat
  registry : Nat → Registry

/-- The events of loop iteration `i` of `monitor_registry_changes` once the flag was read
as set and the notification was requested with success: the wait, and after a signaled wait
the re-read of the value, the log line and the reset of the event. -/
def watcher_iteration (env : WatcherEnv) (args : WatcherArgs) (i : Nat) :
    List WatcherEvent :=
  [.notify i 0, .wait i (env.wait_result i)]
    ++ (if env.wait_result i = WAIT_OBJECT_0 then
          [.read (read_registry_value (env.registry i args.root args.subKey args.valueName)),
           .log (.change_detected args.subKey args.valueName
              (read_registry_value (env.registry i args.root args.subKey args.valueName))),
           .reset_event]
        else [])

/-- The loop `while (g_monitoring_active)` of `monitor_registry_changes` from iteration
`i`, run for at most `fuel` iterations: its events, and whether the loop has been left
(the flag was read as cleared, or the `break` after a failed notification request). -/
def watcher_loop (env : WatcherEnv) (args : WatcherArgs) : Nat → Nat → List WatcherEvent × Bool
  | 0, _ => ([], false)
  | fuel + 1, i =>
    if env.active i then
      if env.notify_result i ≠ 0 then
        ([.notify i (env.notify_result i), .log (.notify_failed (env.notify_result i))], true)
      else
        let rest := watcher_loop env args fuel (i + 1)
        (watcher_iteration env args i ++ rest.1, rest.2)
    else ([], true)

/-- The events of a thread running `monitor_registry_changes` and whether it has returned
within `fuel` loop iterations. -/
structure WatcherRun where
  events : List WatcherEvent
  returned : Bool
deriving DecidableEq, Repr

/-- The function `monitor_registry_changes` of registry_utils.cpp, its loop run for at most
`fuel` iterations. -/
def monitor_registry_changes (env : WatcherEnv) (args : WatcherArgs) (fuel : Nat) :
    WatcherRun :=
  if env.open_result ≠ 0 then
    { events := [.log (.open_failed args.subKey env.open_result)], returned := true }
  else if env.event_created = false then
    { events := [.log .event_failed, .close_key], returned := true }
  else
    let loop := watcher_loop env args fuel 0
    { events := loop.1 ++ (if loop.2 then [.close_event, .close_key] else [])
      returned := loop.2 }

/-- The number of waits of a run that returned signaled. -/
def signaled_waits (events : List WatcherEvent) : Nat :=
  events.countP (fun e =>
    match e with
    | .wait _ waitResult => decide (waitResult = WAIT_OBJECT_0)
    | _ => false)

/-- The number of change lines (`Registry change detected`) a run wrote to the log. -/
def change_records (events : List WatcherEvent) : Nat :=
  events.countP (fun e =>
    match e with
    | .log (.change_detected _ _ _) => true
    | _ => false)

/-- The number of calls of `show_alert` in a run. -/
def alert_calls (events : List WatcherEvent) : Nat :=
  events.countP (fun e =>
    match e with
    | .show_alert _ _ => true
    | _ => false)

/-- The number of waits of a run performed in loop iteration `j` or later. -/
def waits_from (j : Nat) (events : List WatcherEvent) : Nat :=
  events.countP (fun e =>
    match e with
    | .wait i _ => decide (j ≤ i)
    | _ => false)

/-- A watcher whose key opens, whose first wait times out, whose second wait is signaled,
and which finds the monitoring flag cleared at the head of its third iteration. -/
def demo_watcher : WatcherEnv where
  open_result := 0
  event_created := true
  active := fun i => decide (i < 2)
  notify_result := fun _ => 0
  wait_result := fun i => if i = 1 then 0 else 258
  registry := fun _ => demo_registry

/-- A watcher as `demo_watcher` all of whose waits time out. -/
def demo_watcher_idle : WatcherEnv where
  open_result := 0
  event_created := true
  active := fun i => decide (i < 2)
  notify_result := fun _ => 0
  wait_result := fun _ => 258
  registry := fun _ => demo_registry

/-- The arguments of the watcher of `Software\EDRTest`, value `TestValue`. -/
def demo_watcher_args : WatcherArgs :=
  { root := .HKEY_CURRENT_USER, subKey := "Software\\EDRTest", valueName := "TestValue" }

/-! ## The report -/

/-- The values of `nlohmann::json` that the report is made of. An object keeps its members
in a `std::map`, in ascending key order. -/
inductive Json where
  | null : Json
  | boolean (b : Bool) : Json
  | string (s : String) : Json
  | object (members : List (String × Json)) : Json

/-- The members of an object; a value that is no object has none. -/
def Json.members : Json → StdMap Json
  | .object members => members
  | _ => []

/-- The member `key` of a value as a reader of the document finds it, `null` when there is
none. -/
def Json.get (j : Json) (key : String) : Json :=
  (map_find j.members key).getD .null

/-- The assignment `j[key] = v`. The `operator[]` turns a `null` into an empty object
first; on a value that is neither `null` nor an object it throws `type_error` 305. -/
def json_assign (key : String) (v : Json) : Json → Except String Json
  | .null => .ok (.object [(key, v)])
  | .object members => .ok (.object (map_assign key v members))
  | _ => .error "type_error.305"

/-- The reference `j[key]` on a value that is being built: the member, or the `null` that
`operator[]` creates for an absent key; `type_error` 305 as for `json_assign`. -/
def json_member (key : String) : Json → Except String Json
  | .null => .ok .null
  | .object members => .ok ((map_find members key).getD .null)
  | _ => .error "type_error.305"

/-- The assignment `j[outer][inner] = v`. -/
def json_assign_nested (outer inner : String) (v : Json) (j : Json) : Except String Json :=
  match json_member outer j with
  | .ok child =>
    match json_assign inner v child with
    | .ok child1 => json_assign outer child1 j
    | .error e => .error e
  | .error e => .error e

/-- A loop that performs `data[key] = value` for each pair of a list, in order. -/
def json_assign_all : List (String × Json) → Json → Except String Json
  | [], data => .ok data
  | (key, value) :: rest, data =>
    match json_assign key value data with
    | .ok data1 => json_assign_all rest data1
    | .error e => .error e

/-- The state of `main` that is in scope where the report is generated. -/
structure MainState where
  folders : List MonitorFolder
  registryMonitors : List RegistryMonitor
  previousFileStates : Store
  previousRegistryStates : RegistryStates

/-- The object `{{"last_modified", ...}, {"exists", ...}, {"hash", ...}}` that main.cpp
390-394 builds for one file: the three members are inserted in this order. -/
def file_record_json (info : FileInfo) : Json :=
  .object
    (map_assign "hash" (.string info.hash)
      (map_assign "exists" (.boolean info.exists_)
        (map_assign "last_modified" (.string info.lastModified) [])))

/-- The value `folderData` of main.cpp 388-395 for a snapshot: it starts as `null` and
receives one member per entry of the snapshot. -/
def folder_data (snapshot : Snapshot) : Except String Json :=
  json_assign_all (snapshot.map (fun file => (file.1, file_record_json file.2))) .null

/-- The loop "Add file information" of main.cpp 382-397. -/
def add_file_information (store : Store) : List MonitorFolder → Json → Except String Json
  | [], report => .ok report
  | folder :: rest, report =>
    if folder.isActive then
      match folder_data (store_at store folder.path) with
      | .ok folderData =>
        match json_assign_nested "files" folder.path folderData report with
        | .ok report1 => add_file_information store rest report1
        | .error e => .error e
      | .error e => .error e
    else add_file_information store rest report

/-- The value `regData` of main.cpp 407-411 for one registry target: one member per
configured value, holding what `read_registry_value` returns now. -/
def registry_data (reg : Registry) (monitor : RegistryMonitor) : Except String Json :=
  json_assign_all
    (monitor.values.map (fun value =>
      (value, Json.string (read_registry_value (reg monitor.root monitor.subkey value)))))
    .null

/-- The loop "Add registry information" of main.cpp 401-413. -/
def add_registry_information (reg : Registry) :
    List RegistryMonitor → Json → Except String Json
  | [], report => .ok report
  | monitor :: rest, report =>
    if monitor.isActive then
      match registry_data reg monitor with
      | .ok regData =>
        match json_assign_nested "registry" monitor.subkey regData report with
        | .ok report1 => add_registry_information reg rest report1
        | .error e => .error e
      | .error e => .error e
    else add_registry_information reg rest report

/-- The value `report` that main.cpp 376-413 builds in one poll cycle, before it is
written: `timestamp` is what `get_current_timestamp()` returns (file_utils, not part of the
sources at hand) and `reg` the registry as it is read now. An error is an exception, which
the `catch` of main.cpp 427 logs instead of a report. Strings are sequences of Unicode
characters here, so the failure of `dump` on a path that is not UTF-8 is not in the
model. -/
def generate_report (timestamp : String) (reg : Registry) (state : MainState) :
    Except String Json :=
  match json_assign "timestamp" (.string timestamp) .null with
  | .ok report1 =>
    match json_assign "monitor_status" (.string "active") report1 with
    | .ok report2 =>
      match add_file_information state.previousFileStates state.folders report2 with
      | .ok report3 => add_registry_information reg state.registryMonitors report3
      | .error e => .error e
    | .error e => .error e
  | .error e => .error e

/-- A value on which `operator[]` with a key can be used: `null` or an object. -/
def JsonContainer (j : Json) : Prop := j = .null ∨ ∃ members, j = .object members

/-- The class invariant of `std::map<std::string, V>`: strictly ascending keys. -/
def MapOrdered {V : Type} (m : StdMap V) : Prop := SetOrdered (map_keys m)

/-- The state of `main` after start-up and a first cycle on `demo_fs`, with the registry
values of start-up read from `demo_registry_absent`. -/
def demo_state : MainState where
  folders := demo_folders
  registryMonitors := get_registry_monitors
  previousFileStates := initialize_states String.length demo_fs demo_folders []
  previousRegistryStates :=
    (start_registry_monitoring demo_registry_absent get_registry_monitors
      { previousRegistryStates := [], registry_threads := [] }).previousRegistryStates

/-! ## Lemmas -/

/-! ## Order lemmas -/

theorem ltChars_irrefl (l : List Char) : ltChars l l = false := by
  induction l with
  | nil => rfl
  | cons a as ih => simp [ltChars, ih]

theorem ltChars_trans : ∀ (a b c : List Char),
    ltChars a b = true → ltChars b c = true → ltChars a c = true
  | [], [], _, h, _ => by simp [ltChars] at h
  | [], _ :: _, [], _, h => by simp [ltChars] at h
  | [], _ :: _, _ :: _, _, _ => by simp [ltChars]
  | _ :: _, [], _, h, _ => by simp [ltChars] at h
  | _ :: _, _ :: _, [], _, h => by simp [ltChars] at h
  | x :: xs, y :: ys, z :: zs, h1, h2 => by
    simp only [ltChars] at h1 h2 ⊢
    by_cases hxy : x < y
    · by_cases hyz : y < z
      · simp [lt_trans hxy hyz]
      · simp only [hyz, if_false] at h2
        by_cases hzy : z < y
        · simp [hzy] at h2
        · have : y = z := le_antisymm (not_lt.mp hzy) (not_lt.mp hyz)
          subst this
          simp [hxy]
    · simp only [hxy, if_false] at h1
      by_cases hyx : y < x
      · simp [hyx] at h1
      · simp only [hyx, if_false] at h1
        have : x = y := le_antisymm (not_lt.mp hyx) (not_lt.mp hxy)
        subst this
        by_cases hxz : x < z
        · simp [hxz]
        · simp only [hxz, if_false] at h2 ⊢
          by_cases hzx : z < x
          · simp [hzx] at h2
          · simp only [hzx, if_false] at h2 ⊢
            exact ltChars_trans xs ys zs h1 h2

theorem ltChars_connected : ∀ (a b : List Char),
    ltChars a b = false → ltChars b a = false → a = b
  | [], [], _, _ => rfl
  | [], _ :: _, h, _ => by simp [ltChars] at h
  | _ :: _, [], _, h => by simp [ltChars] at h
  | x :: xs, y :: ys, h1, h2 => by
    simp only [ltChars] at h1 h2
    by_cases hxy : x < y
    · simp [hxy] at h1
    · by_cases hyx : y < x
      · simp [hyx] at h2
      · simp only [hxy, hyx, if_false] at h1 h2
        have : x = y := le_antisymm (not_lt.mp hyx) (not_lt.mp hxy)
        rw [this, ltChars_connected xs ys h1 h2]

theorem str_lt_irrefl (a : String) : str_lt a a = false := ltChars_irrefl a.data

theorem str_lt_trans {a b c : String} (h1 : str_lt a b = true) (h2 : str_lt b c = true) :
    str_lt a c = true := ltChars_trans _ _ _ h1 h2

theorem str_lt_connected {a b : String} (h1 : str_lt a b = false) (h2 : str_lt b a = false) :
    a = b := by
  cases a; cases b
  simp only [str_lt] at h1 h2
  simp [ltChars_connected _ _ h1 h2]

theorem str_lt_ne {a b : String} (h : str_lt a b = true) : a ≠ b := by
  intro hab
  rw [hab, str_lt_irrefl] at h
  exact Bool.false_ne_true h

theorem SetOrdered.nodup {s : StdSet} (h : SetOrdered s) : s.Nodup :=
  List.Pairwise.imp (fun hab => str_lt_ne hab) h

theorem mem_set_insert {x p : String} {s : StdSet} :
    p ∈ set_insert x s ↔ p = x ∨ p ∈ s := by
  induction s with
  | nil => simp [set_insert]
  | cons y ys ih =>
    simp only [set_insert]
    by_cases h1 : str_lt x y = true
    · rw [if_pos h1]
      simp
    · by_cases h2 : str_lt y x = true
      · rw [if_neg h1, if_pos h2]
        simp only [List.mem_cons, ih]
        tauto
      · have hxy : x = y := str_lt_connected (by simpa using h1) (by simpa using h2)
        rw [if_neg h1, if_neg h2]
        simp only [List.mem_cons, hxy]
        tauto

theorem setOrdered_set_insert {x : String} {s : StdSet} (h : SetOrdered s) :
    SetOrdered (set_insert x s) := by
  induction s with
  | nil => simp [set_insert, SetOrdered]
  | cons y ys ih =>
    have hy := List.pairwise_cons.mp h
    simp only [set_insert]
    by_cases h1 : str_lt x y = true
    · rw [if_pos h1]
      refine List.pairwise_cons.mpr ⟨?_, h⟩
      intro z hz
      rcases List.mem_cons.mp hz with rfl | hz
      · exact h1
      · exact str_lt_trans h1 (hy.1 z hz)
    · by_cases h2 : str_lt y x = true
      · rw [if_neg h1, if_pos h2]
        refine List.pairwise_cons.mpr ⟨?_, ih hy.2⟩
        intro z hz
        rcases mem_set_insert.mp hz with rfl | hz
        · exact h2
        · exact hy.1 z hz
      · rw [if_neg h1, if_neg h2]
        exact h

theorem mem_set_insert_range {p : String} (src : StdSet) {dst : StdSet} :
    p ∈ set_insert_range src dst ↔ p ∈ src ∨ p ∈ dst := by
  induction src generalizing dst with
  | nil => simp [set_insert_range]
  | cons a as ih =>
    have := @ih (set_insert a dst)
    simp only [set_insert_range, List.foldl_cons] at this ⊢
    rw [this, mem_set_insert, List.mem_cons]
    tauto

theorem setOrdered_set_insert_range (src : StdSet) {dst : StdSet} (h : SetOrdered dst) :
    SetOrdered (set_insert_range src dst) := by
  induction src generalizing dst with
  | nil => simpa [set_insert_range] using h
  | cons a as ih =>
    have := @ih (set_insert a dst) (setOrdered_set_insert h)
    simpa only [set_insert_range, List.foldl_cons] using this


/-! ## Map lemmas -/

theorem map_find_assign {V : Type} (k j : String) (v : V) (m : StdMap V) :
    map_find (map_assign k v m) j = if j = k then some v else map_find m j := by
  induction m with
  | nil =>
    by_cases hj : j = k
    · simp [map_assign, map_find, hj]
    · have : ¬ k = j := fun h => hj h.symm
      simp [map_assign, map_find, hj, this]
  | cons e rest ih =>
    obtain ⟨k', v'⟩ := e
    simp only [map_assign]
    by_cases h1 : str_lt k k' = true
    · rw [if_pos h1]
      by_cases hj : j = k
      · simp [map_find, hj]
      · have : ¬ k = j := fun h => hj h.symm
        simp [map_find, hj, this]
    · by_cases h2 : str_lt k' k = true
      · rw [if_neg h1, if_pos h2]
        simp only [map_find, ih]
        by_cases hj : j = k
        · have : ¬ k' = k := str_lt_ne h2
          simp [hj, this]
        · simp [hj]
      · have hkk : k = k' := str_lt_connected (by simpa using h1) (by simpa using h2)
        rw [if_neg h1, if_neg h2]
        subst hkk
        by_cases hj : j = k
        · simp [map_find, hj]
        · have : ¬ k = j := fun h => hj h.symm
          simp [map_find, hj, this]

theorem map_find_eq_none {V : Type} (m : StdMap V) (k : String) :
    map_find m k = none ↔ k ∉ map_keys m := by
  induction m with
  | nil => simp [map_find, map_keys]
  | cons e rest ih =>
    obtain ⟨k', v'⟩ := e
    simp only [map_find, map_keys, List.map_cons, List.mem_cons, not_or] at ih ⊢
    by_cases h : k' = k
    · simp [h]
    · have : ¬ k = k' := fun h' => h h'.symm
      simp [h, this, ih, map_keys]

theorem mem_map_keys_iff_find {V : Type} (m : StdMap V) (k : String) :
    k ∈ map_keys m ↔ ∃ v, map_find m k = some v := by
  rw [← not_iff_not, ← map_find_eq_none]
  cases map_find m k <;> simp

theorem mem_map_keys_assign {V : Type} (k j : String) (v : V) (m : StdMap V) :
    j ∈ map_keys (map_assign k v m) ↔ j = k ∨ j ∈ map_keys m := by
  rw [mem_map_keys_iff_find, mem_map_keys_iff_find, map_find_assign]
  by_cases hj : j = k <;> simp [hj]

theorem map_find_erase {V : Type} (k j : String) (m : StdMap V) :
    map_find (map_erase k m) j = if j = k then none else map_find m j := by
  induction m with
  | nil => simp [map_erase, map_find]
  | cons e rest ih =>
    obtain ⟨k', v'⟩ := e
    simp only [map_erase] at ih ⊢
    by_cases hk : k' = k
    · subst hk
      simp only [List.filter_cons, ne_eq, not_true_eq_false, decide_False, Bool.false_eq_true,
        if_false, ih, map_find]
      by_cases hj : j = k'
      · simp [hj]
      · have : ¬ k' = j := fun h => hj h.symm
        simp [hj, this]
    · simp only [List.filter_cons, ne_eq, hk, not_false_eq_true, decide_True, if_true, map_find,
        ih]
      by_cases hj : j = k
      · simp [hj, hk]
      · simp [hj]


/-! ## The new/modified pass -/

theorem check_path_alerts_of_find_eq (strHash : String → Nat) (stat : String → StatObs)
    (folder : String) (prev prev1 : Snapshot) (q : String)
    (h : map_find prev1 q = map_find prev q) :
    (check_path strHash stat folder prev1 q).1 = (check_path strHash stat folder prev q).1 := by
  simp only [check_path, h]

theorem check_path_alert_path (strHash : String → Nat) (stat : String → StatObs)
    (folder : String) (prev : Snapshot) (q : String) (a : Alert)
    (ha : a ∈ (check_path strHash stat folder prev q).1) :
    a.path = q ∧ a.folder = folder ∧ a.kind ≠ .Deleted := by
  simp only [check_path] at ha
  cases hf : map_find prev q with
  | none =>
    rw [hf] at ha
    simp only [List.mem_singleton] at ha
    subst ha
    simp
  | some r =>
    rw [hf] at ha
    simp only at ha
    split at ha
    · simp only [List.mem_singleton] at ha
      subst ha
      simp
    · simp at ha

theorem count_alerts_append (kind : ChangeKind) (p : String) (l1 l2 : List Alert) :
    count_alerts kind p (l1 ++ l2) = count_alerts kind p l1 + count_alerts kind p l2 := by
  simp [count_alerts, List.countP_append]

theorem count_alerts_eq_zero (kind : ChangeKind) (p : String) (l : List Alert)
    (h : ∀ a ∈ l, ¬ (a.kind = kind ∧ a.path = p)) : count_alerts kind p l = 0 := by
  simp only [count_alerts, List.countP_eq_zero, decide_eq_true_eq]
  exact h

theorem count_alerts_check_path_other (strHash : String → Nat) (stat : String → StatObs)
    (folder : String) (prev : Snapshot) (kind : ChangeKind) (p q : String) (hpq : q ≠ p) :
    count_alerts kind p (check_path strHash stat folder prev q).1 = 0 := by
  apply count_alerts_eq_zero
  intro a ha hcontra
  have := (check_path_alert_path strHash stat folder prev q a ha).1
  exact hpq (this.symm.trans hcontra.2)

theorem check_path_snd (strHash : String → Nat) (stat : String → StatObs)
    (folder : String) (prev : Snapshot) (q : String) :
    (check_path strHash stat folder prev q).2
      = map_assign q (get_file_info strHash stat q) prev := rfl

theorem new_modified_pass_find (strHash : String → Nat) (stat : String → StatObs)
    (folder : String) (paths : List String) (prev : Snapshot) (p : String) :
    map_find (new_modified_pass strHash stat folder paths prev).2 p
      = if p ∈ paths then some (get_file_info strHash stat p) else map_find prev p := by
  induction paths generalizing prev with
  | nil => simp [new_modified_pass]
  | cons q rest ih =>
    simp only [new_modified_pass, ih, check_path_snd, map_find_assign, List.mem_cons]
    by_cases h1 : p ∈ rest
    · simp [h1]
    · by_cases h2 : p = q
      · simp [h2]
      · simp [h1, h2]

theorem new_modified_pass_keys (strHash : String → Nat) (stat : String → StatObs)
    (folder : String) (paths : List String) (prev : Snapshot) (p : String) :
    p ∈ map_keys (new_modified_pass strHash stat folder paths prev).2
      ↔ p ∈ paths ∨ p ∈ map_keys prev := by
  rw [mem_map_keys_iff_find, mem_map_keys_iff_find, new_modified_pass_find]
  by_cases h : p ∈ paths <;> simp [h]

theorem new_modified_pass_count (strHash : String → Nat) (stat : String → StatObs)
    (folder : String) (kind : ChangeKind) (p : String) (paths : List String)
    (hnd : paths.Nodup) (prev : Snapshot) :
    count_alerts kind p (new_modified_pass strHash stat folder paths prev).1
      = if p ∈ paths then count_alerts kind p (check_path strHash stat folder prev p).1
        else 0 := by
  induction paths generalizing prev with
  | nil => simp [new_modified_pass, count_alerts]
  | cons q rest ih =>
    have hq := List.nodup_cons.mp hnd
    simp only [new_modified_pass, count_alerts_append, ih hq.2, check_path_snd, List.mem_cons]
    by_cases hpq : p = q
    · subst hpq
      simp [hq.1]
    · have hqp : q ≠ p := fun h => hpq h.symm
      rw [count_alerts_check_path_other strHash stat folder prev kind p q hqp]
      have hfind : map_find (map_assign q (get_file_info strHash stat q) prev) p
          = map_find prev p := by
        rw [map_find_assign, if_neg hpq]
      rw [check_path_alerts_of_find_eq strHash stat folder prev _ p hfind]
      simp [hpq]

theorem new_modified_pass_alert (strHash : String → Nat) (stat : String → StatObs)
    (folder : String) (paths : List String) (prev : Snapshot) (a : Alert)
    (ha : a ∈ (new_modified_pass strHash stat folder paths prev).1) :
    a.path ∈ paths ∧ a.folder = folder ∧ a.kind ≠ .Deleted := by
  induction paths generalizing prev with
  | nil => simp [new_modified_pass] at ha
  | cons q rest ih =>
    simp only [new_modified_pass, List.mem_append] at ha
    rcases ha with ha | ha
    · have := check_path_alert_path strHash stat folder prev q a ha
      exact ⟨by simp [this.1], this.2⟩
    · have := ih _ ha
      exact ⟨List.mem_cons_of_mem _ this.1, this.2⟩

/-! ## The deleted pass -/

theorem deleted_pass_alert (folder : String) (currentFiles : StdSet) (snapshot : Snapshot)
    (pending : List (String × FileInfo)) (a : Alert)
    (ha : a ∈ (deleted_pass folder currentFiles snapshot pending).alerts) :
    a.kind = .Deleted ∧ a.folder = folder ∧ a.path ∈ map_keys pending
      ∧ a.path ∉ currentFiles := by
  induction pending with
  | nil => simp [deleted_pass] at ha
  | cons e rest ih =>
    simp only [deleted_pass] at ha
    by_cases hc : set_contains currentFiles e.1 = true
    · rw [if_pos hc] at ha
      have := ih ha
      exact ⟨this.1, this.2.1, by simp [map_keys, List.mem_cons] at this ⊢; exact Or.inr this.2.2.1,
        this.2.2.2⟩
    · rw [if_neg hc] at ha
      simp only [List.mem_singleton] at ha
      subst ha
      refine ⟨rfl, rfl, by simp [map_keys], ?_⟩
      simpa [set_contains] using hc

theorem deleted_pass_length (folder : String) (currentFiles : StdSet) (snapshot : Snapshot)
    (pending : List (String × FileInfo)) :
    (deleted_pass folder currentFiles snapshot pending).alerts.length ≤ 1 := by
  induction pending with
  | nil => simp [deleted_pass]
  | cons e rest ih =>
    simp only [deleted_pass]
    split
    · exact ih
    · simp

theorem deleted_pass_of_subset (folder : String) (currentFiles : StdSet) (snapshot : Snapshot)
    (pending : List (String × FileInfo))
    (h : ∀ k ∈ map_keys pending, k ∈ currentFiles) :
    deleted_pass folder currentFiles snapshot pending
      = { alerts := [], outcome := .completed snapshot } := by
  induction pending with
  | nil => rfl
  | cons e rest ih =>
    have he : set_contains currentFiles e.1 = true := by
      simp only [set_contains, decide_eq_true_eq]
      exact h e.1 (by simp [map_keys])
    simp only [deleted_pass, he, if_true]
    exact ih (fun k hk => h k (by simp only [map_keys, List.map_cons, List.mem_cons] at hk ⊢; exact Or.inr hk))

theorem deleted_pass_completed (folder : String) (currentFiles : StdSet) (snapshot : Snapshot)
    (pending : List (String × FileInfo)) (s : Snapshot)
    (h : (deleted_pass folder currentFiles snapshot pending).outcome = .completed s) :
    s = snapshot ∧ (deleted_pass folder currentFiles snapshot pending).alerts = []
      ∧ ∀ k ∈ map_keys pending, k ∈ currentFiles := by
  induction pending with
  | nil =>
    simp only [deleted_pass, Outcome.completed.injEq] at h
    simp [deleted_pass, h, map_keys]
  | cons e rest ih =>
    simp only [deleted_pass] at h ⊢
    by_cases hc : set_contains currentFiles e.1 = true
    · rw [if_pos hc] at h ⊢
      have := ih h
      refine ⟨this.1, this.2.1, ?_⟩
      intro k hk
      simp only [map_keys, List.map_cons, List.mem_cons] at hk
      rcases hk with rfl | hk
      · simpa [set_contains] using hc
      · exact this.2.2 k hk
    · rw [if_neg hc] at h
      simp at h


/-! ## The scanned set is a well-formed set -/

theorem setOrdered_nil : SetOrdered [] := List.Pairwise.nil

theorem setOrdered_scan_entry (folder : String) (files : StdSet) (h : SetOrdered files)
    (e : DirEntry) : SetOrdered (scan_entry folder files e) := by
  cases e with
  | file filename =>
    simp only [scan_entry]
    split
    · exact setOrdered_set_insert h
    · exact h
  | directory filename error entries =>
    simp only [scan_entry]
    split
    · cases error with
      | some code => exact setOrdered_set_insert_range _ h
      | none => exact setOrdered_set_insert_range _ h
    · exact h

theorem setOrdered_scan_entries (folder : String) (entries : List DirEntry) (files : StdSet)
    (h : SetOrdered files) : SetOrdered (scan_entries folder files entries) := by
  induction entries generalizing files with
  | nil => simpa [scan_entries] using h
  | cons e rest ih =>
    simp only [scan_entries]
    exact ih _ (setOrdered_scan_entry folder files h e)

theorem scan_entry_directory (folder : String) (files : StdSet) (filename : String)
    (error : Option Nat) (entries : List DirEntry)
    (h : filename ≠ "." ∧ filename ≠ "..") :
    scan_entry folder files (.directory filename error entries)
      = set_insert_range
          (get_directory_files (folder ++ "\\" ++ filename) error entries) files := by
  cases error <;> simp [scan_entry, get_directory_files, h]

theorem setOrdered_get_directory_files (folder : String) (error : Option Nat)
    (entries : List DirEntry) : SetOrdered (get_directory_files folder error entries) := by
  cases error with
  | some code => exact setOrdered_nil
  | none => exact setOrdered_scan_entries folder entries [] setOrdered_nil

/-! ## One folder of a poll cycle -/

theorem diff_folder_alerts (strHash : String → Nat) (stat : String → StatObs)
    (folder : String) (S2 : StdSet) (S1 : Snapshot) :
    (diff_folder strHash stat folder S2 S1).alerts
      = (new_modified_pass strHash stat folder S2 S1).1
        ++ (deleted_pass folder S2 (new_modified_pass strHash stat folder S2 S1).2
              (new_modified_pass strHash stat folder S2 S1).2).alerts := rfl

theorem diff_folder_outcome (strHash : String → Nat) (stat : String → StatObs)
    (folder : String) (S2 : StdSet) (S1 : Snapshot) :
    (diff_folder strHash stat folder S2 S1).outcome
      = (deleted_pass folder S2 (new_modified_pass strHash stat folder S2 S1).2
              (new_modified_pass strHash stat folder S2 S1).2).outcome := rfl

theorem diff_folder_count_not_deleted (strHash : String → Nat) (stat : String → StatObs)
    (folder : String) (S2 : StdSet) (hS2 : SetOrdered S2) (S1 : Snapshot)
    (kind : ChangeKind) (hk : kind ≠ .Deleted) (p : String) :
    count_alerts kind p (diff_folder strHash stat folder S2 S1).alerts
      = if p ∈ S2 then count_alerts kind p (check_path strHash stat folder S1 p).1 else 0 := by
  rw [diff_folder_alerts, count_alerts_append,
    new_modified_pass_count strHash stat folder kind p S2 hS2.nodup S1]
  have : count_alerts kind p (deleted_pass folder S2
      (new_modified_pass strHash stat folder S2 S1).2
      (new_modified_pass strHash stat folder S2 S1).2).alerts = 0 := by
    apply count_alerts_eq_zero
    intro a ha hcontra
    exact hk (hcontra.1.symm.trans (deleted_pass_alert folder S2 _ _ a ha).1)
  rw [this, Nat.add_zero]

theorem diff_folder_alert_deleted (strHash : String → Nat) (stat : String → StatObs)
    (folder : String) (S2 : StdSet) (S1 : Snapshot) (a : Alert)
    (ha : a ∈ (diff_folder strHash stat folder S2 S1).alerts) (hk : a.kind = .Deleted) :
    a.path ∉ S2 ∧ a.path ∈ map_keys S1 := by
  rw [diff_folder_alerts, List.mem_append] at ha
  rcases ha with ha | ha
  · exact absurd hk (new_modified_pass_alert strHash stat folder S2 S1 a ha).2.2
  · have := deleted_pass_alert folder S2 _ _ a ha
    refine ⟨this.2.2.2, ?_⟩
    rcases (new_modified_pass_keys strHash stat folder S2 S1 a.path).mp this.2.2.1 with h | h
    · exact absurd h this.2.2.2
    · exact h

/-! ## Claims -/

/-- C1: for every prior snapshot `S1` and every scanned path set `S2` (any well-formed
`std::set`), the alerts one poll cycle writes for the folder contain exactly one
"New file detected" alert for each path of `S2` that is not a key of `S1`, and none for any
other path, in particular none for a key of `S1`. -/
theorem new_alert_once_per_added_path (strHash : String → Nat) (stat : String → StatObs)
    (folder : String) (S2 : StdSet) (hS2 : SetOrdered S2) (S1 : Snapshot) (p : String) :
    count_alerts .New p (diff_folder strHash stat folder S2 S1).alerts
      = if p ∈ S2 ∧ p ∉ map_keys S1 then 1 else 0 := by
  rw [diff_folder_count_not_deleted strHash stat folder S2 hS2 S1 .New (by decide) p]
  by_cases hp : p ∈ S2
  · rw [if_pos hp]
    by_cases hk : p ∈ map_keys S1
    · obtain ⟨r, hr⟩ := (mem_map_keys_iff_find S1 p).mp hk
      have hzero : count_alerts .New p (check_path strHash stat folder S1 p).1 = 0 := by
        apply count_alerts_eq_zero
        intro a ha hcontra
        simp only [check_path, hr] at ha
        split at ha
        · simp only [List.mem_singleton] at ha
          rw [ha] at hcontra
          exact absurd hcontra.1 (by simp)
        · simp at ha
      simp [hzero, hp, hk]
    · have hnone := (map_find_eq_none S1 p).mpr hk
      simp [check_path, hnone, count_alerts, hp, hk]
  · simp [hp]



theorem new_alert_once_per_added_path_witness :
    SetOrdered ["C:\\t\\a.txt", "C:\\t\\b.txt"] ∧
    count_alerts .New "C:\\t\\b.txt"
      (diff_folder String.length (fun _ => ⟨true, .ok "t1", true⟩) "C:\\t"
        ["C:\\t\\a.txt", "C:\\t\\b.txt"]
        [("C:\\t\\a.txt", ⟨"t0", true, "C:\\t\\a.txt", "b"⟩)]).alerts = 1 :=
  ⟨by unfold SetOrdered; decide,
   (new_alert_once_per_added_path String.length (fun _ => ⟨true, .ok "t1", true⟩) "C:\\t"
      ["C:\\t\\a.txt", "C:\\t\\b.txt"] (by unfold SetOrdered; decide)
      [("C:\\t\\a.txt", ⟨"t0", true, "C:\\t\\a.txt", "b"⟩)] "C:\\t\\b.txt").trans (by decide)⟩

/-- C3: for a path `p` of the scanned set `S2` whose prior record in `S1` is `r`: when the
fresh record differs from `r` in `lastModified` or in `hash`, one poll cycle writes exactly
one "File modified" alert for `p` and no alert of another kind for `p`; when both fields are
equal it writes no alert for `p` at all. -/
theorem modified_alert_iff_record_differs (strHash : String → Nat) (stat : String → StatObs)
    (folder : String) (S2 : StdSet) (hS2 : SetOrdered S2) (S1 : Snapshot) (p : String)
    (r : FileInfo) (hp : p ∈ S2) (hr : map_find S1 p = some r) :
    ((get_file_info strHash stat p).lastModified ≠ r.lastModified
        ∨ (get_file_info strHash stat p).hash ≠ r.hash →
      count_alerts .Modified p (diff_folder strHash stat folder S2 S1).alerts = 1
        ∧ ∀ a ∈ (diff_folder strHash stat folder S2 S1).alerts,
            a.path = p → a.kind = .Modified)
    ∧ ((get_file_info strHash stat p).lastModified = r.lastModified
        ∧ (get_file_info strHash stat p).hash = r.hash →
      ∀ a ∈ (diff_folder strHash stat folder S2 S1).alerts, a.path ≠ p) := by
  have hkey : p ∈ map_keys S1 := (mem_map_keys_iff_find S1 p).mpr ⟨r, hr⟩
  have hnew : count_alerts .New p (diff_folder strHash stat folder S2 S1).alerts = 0 := by
    rw [diff_folder_count_not_deleted strHash stat folder S2 hS2 S1 .New (by decide) p,
      if_pos hp]
    apply count_alerts_eq_zero
    intro a ha hcontra
    simp only [check_path, hr] at ha
    split at ha
    · simp only [List.mem_singleton] at ha
      rw [ha] at hcontra
      exact absurd hcontra.1 (by simp)
    · simp at ha
  have hmod := diff_folder_count_not_deleted strHash stat folder S2 hS2 S1 .Modified
    (by decide) p
  rw [if_pos hp] at hmod
  have hkinds : ∀ a ∈ (diff_folder strHash stat folder S2 S1).alerts,
      a.path = p → a.kind = .Modified := by
    intro a ha hap
    cases hk : a.kind with
    | New =>
      exfalso
      have hpos : 0 < count_alerts .New p (diff_folder strHash stat folder S2 S1).alerts := by
        simp only [count_alerts, List.countP_pos_iff, decide_eq_true_eq]
        exact ⟨a, ha, hk, hap⟩
      omega
    | Modified => rfl
    | Deleted =>
      exfalso
      have := (diff_folder_alert_deleted strHash stat folder S2 S1 a ha hk).1
      rw [hap] at this
      exact this hp
  constructor
  · intro hdiff
    constructor
    · rw [hmod]
      simp only [check_path, hr, count_alerts]
      rw [if_pos hdiff]
      simp
    · exact hkinds
  · intro hsame a ha hap
    have hzero : count_alerts .Modified p (diff_folder strHash stat folder S2 S1).alerts
        = 0 := by
      rw [hmod]
      simp only [check_path, hr, count_alerts]
      have : ¬ ((get_file_info strHash stat p).lastModified ≠ r.lastModified
          ∨ (get_file_info strHash stat p).hash ≠ r.hash) := by
        simp [hsame.1, hsame.2]
      rw [if_neg this]
      simp
    have hpos : 0 < count_alerts .Modified p
        (diff_folder strHash stat folder S2 S1).alerts := by
      simp only [count_alerts, List.countP_pos_iff, decide_eq_true_eq]
      exact ⟨a, ha, hkinds a ha hap, hap⟩
    omega

theorem modified_alert_iff_record_differs_witness :
    SetOrdered ["C:\\t\\a.txt"]
    ∧ "C:\\t\\a.txt" ∈ ["C:\\t\\a.txt"]
    ∧ map_find [("C:\\t\\a.txt", (⟨"t0", true, "C:\\t\\a.txt", "b"⟩ : FileInfo))] "C:\\t\\a.txt"
        = some ⟨"t0", true, "C:\\t\\a.txt", "b"⟩
    ∧ count_alerts .Modified "C:\\t\\a.txt"
        (diff_folder String.length (fun _ => ⟨true, .ok "t1", true⟩) "C:\\t"
          ["C:\\t\\a.txt"] [("C:\\t\\a.txt", ⟨"t0", true, "C:\\t\\a.txt", "b"⟩)]).alerts = 1 :=
  ⟨by unfold SetOrdered; decide, by decide, by decide,
   ((modified_alert_iff_record_differs String.length (fun _ => ⟨true, .ok "t1", true⟩) "C:\\t"
      ["C:\\t\\a.txt"] (by unfold SetOrdered; decide)
      [("C:\\t\\a.txt", ⟨"t0", true, "C:\\t\\a.txt", "b"⟩)] "C:\\t\\a.txt"
      ⟨"t0", true, "C:\\t\\a.txt", "b"⟩ (by decide) (by decide)).1 (by decide)).1⟩


/-- C2 (evaluation at the failing input): with prior snapshot `{a.txt, b.txt}` and an empty
scanned set, the deleted pass writes the alert for `a.txt`, erases that entry from the map
it is iterating, and then advances the invalidated iterator: the run is undefined with
`b.txt` still in the map and no "File deleted" alert for `b.txt` written. -/
theorem deleted_pass_two_stale_keys :
    diff_folder String.length (fun _ => ⟨false, .ok "", false⟩) "C:\\t" []
        [("C:\\t\\a.txt", ⟨"t0", true, "C:\\t\\a.txt", "b"⟩),
         ("C:\\t\\b.txt", ⟨"t0", true, "C:\\t\\b.txt", "b"⟩)]
      = { alerts := [⟨.Deleted, "C:\\t\\a.txt", "C:\\t"⟩]
          outcome := .undefined [("C:\\t\\b.txt", ⟨"t0", true, "C:\\t\\b.txt", "b"⟩)] }
    ∧ count_alerts .Deleted "C:\\t\\b.txt"
        (diff_folder String.length (fun _ => ⟨false, .ok "", false⟩) "C:\\t" []
          [("C:\\t\\a.txt", ⟨"t0", true, "C:\\t\\a.txt", "b"⟩),
           ("C:\\t\\b.txt", ⟨"t0", true, "C:\\t\\b.txt", "b"⟩)]).alerts = 0 := by
  constructor <;> decide

/-- C4 (evaluation at the failing input): with prior snapshot `{a.txt, b.txt, c.txt}` and
scanned set `{b.txt}`, the cycle does not end in a defined state: after the alert for
`a.txt` the erase invalidates the loop iterator, at a moment when the stale key `c.txt` is
still in the snapshot. -/
theorem stale_key_leaves_cycle_undefined :
    (diff_folder String.length (fun _ => ⟨true, .ok "t0", false⟩) "C:\\t" ["C:\\t\\b.txt"]
        [("C:\\t\\a.txt", ⟨"t0", true, "C:\\t\\a.txt", ""⟩),
         ("C:\\t\\b.txt", ⟨"t0", true, "C:\\t\\b.txt", ""⟩),
         ("C:\\t\\c.txt", ⟨"t0", true, "C:\\t\\c.txt", ""⟩)]).outcome
      = .undefined [("C:\\t\\b.txt", ⟨"t0", true, "C:\\t\\b.txt", ""⟩),
                    ("C:\\t\\c.txt", ⟨"t0", true, "C:\\t\\c.txt", ""⟩)]
    ∧ (diff_folder String.length (fun _ => ⟨true, .ok "t0", false⟩) "C:\\t" ["C:\\t\\b.txt"]
        [("C:\\t\\a.txt", ⟨"t0", true, "C:\\t\\a.txt", ""⟩),
         ("C:\\t\\b.txt", ⟨"t0", true, "C:\\t\\b.txt", ""⟩),
         ("C:\\t\\c.txt", ⟨"t0", true, "C:\\t\\c.txt", ""⟩)]).outcome.final = none := by
  constructor <;> decide

/-! ## Cycles that run to their end -/

theorem diff_folder_completed_iff (strHash : String → Nat) (stat : String → StatObs)
    (folder : String) (S2 : StdSet) (S1 s : Snapshot) :
    (diff_folder strHash stat folder S2 S1).outcome = .completed s
      ↔ s = (new_modified_pass strHash stat folder S2 S1).2
        ∧ ∀ k ∈ map_keys S1, k ∈ S2 := by
  rw [diff_folder_outcome]
  constructor
  · intro h
    have := deleted_pass_completed folder S2 _ _ s h
    refine ⟨this.1, fun k hk => ?_⟩
    exact this.2.2 k ((new_modified_pass_keys strHash stat folder S2 S1 k).mpr (Or.inr hk))
  · rintro ⟨rfl, hsub⟩
    rw [deleted_pass_of_subset]
    intro k hk
    rcases (new_modified_pass_keys strHash stat folder S2 S1 k).mp hk with h | h
    · exact h
    · exact hsub k h

theorem diff_folder_completed_alerts (strHash : String → Nat) (stat : String → StatObs)
    (folder : String) (S2 : StdSet) (S1 s : Snapshot)
    (h : (diff_folder strHash stat folder S2 S1).outcome = .completed s) :
    (diff_folder strHash stat folder S2 S1).alerts
      = (new_modified_pass strHash stat folder S2 S1).1 := by
  rw [diff_folder_outcome] at h
  rw [diff_folder_alerts, (deleted_pass_completed folder S2 _ _ s h).2.1, List.append_nil]

/-- A key of the prior snapshot that is not in the scanned set makes the run of the folder
end outside defined behaviour. -/
theorem diff_folder_undefined_of_stale_key (strHash : String → Nat) (stat : String → StatObs)
    (folder : String) (S2 : StdSet) (S1 : Snapshot) (k : String) (hk : k ∈ map_keys S1)
    (hstale : k ∉ S2) : (diff_folder strHash stat folder S2 S1).outcome.final = none := by
  cases h : (diff_folder strHash stat folder S2 S1).outcome with
  | completed s =>
    exact absurd (((diff_folder_completed_iff strHash stat folder S2 S1 s).mp h).2 k hk) hstale
  | undefined s => rfl

/-- When no key of the prior snapshot is stale, the cycle runs to its end and leaves a
snapshot whose keys are the scanned set, each mapped to its fresh record. -/
theorem diff_folder_without_stale_key (strHash : String → Nat) (stat : String → StatObs)
    (folder : String) (S2 : StdSet) (S1 : Snapshot) (hsub : ∀ k ∈ map_keys S1, k ∈ S2) :
    ∃ s, (diff_folder strHash stat folder S2 S1).outcome = .completed s
      ∧ (∀ p, p ∈ map_keys s ↔ p ∈ S2)
      ∧ ∀ p ∈ S2, map_find s p = some (get_file_info strHash stat p) := by
  refine ⟨_, (diff_folder_completed_iff strHash stat folder S2 S1 _).mpr ⟨rfl, hsub⟩, ?_, ?_⟩
  · intro p
    rw [new_modified_pass_keys]
    exact ⟨fun h => h.elim id (hsub p), Or.inl⟩
  · intro p hp
    rw [new_modified_pass_find, if_pos hp]

theorem new_modified_pass_quiet (strHash : String → Nat) (stat : String → StatObs)
    (folder : String) (paths : List String) (prev : Snapshot)
    (h : ∀ p ∈ paths, map_find prev p = some (get_file_info strHash stat p)) :
    (new_modified_pass strHash stat folder paths prev).1 = [] := by
  induction paths generalizing prev with
  | nil => rfl
  | cons q rest ih =>
    have hq := h q (List.mem_cons_self q rest)
    have hstep : (check_path strHash stat folder prev q).1 = [] := by
      simp [check_path, hq]
    simp only [new_modified_pass, hstep, List.nil_append, check_path_snd]
    apply ih
    intro p hp
    rw [map_find_assign]
    by_cases hpq : p = q
    · simp [hpq]
    · rw [if_neg hpq]
      exact h p (List.mem_cons_of_mem _ hp)

/-- A folder whose snapshot already holds, for exactly the scanned paths, the records that
`get_file_info` returns now: the cycle writes no alert, runs to its end, and the snapshot it
leaves answers every lookup as before. -/
theorem diff_folder_quiet (strHash : String → Nat) (stat : String → StatObs)
    (folder : String) (S2 : StdSet) (S1 : Snapshot)
    (h : ∀ p, map_find S1 p = if p ∈ S2 then some (get_file_info strHash stat p) else none) :
    (diff_folder strHash stat folder S2 S1).alerts = []
      ∧ ∃ s, (diff_folder strHash stat folder S2 S1).outcome = .completed s
          ∧ ∀ p, map_find s p = map_find S1 p := by
  have hsub : ∀ k ∈ map_keys S1, k ∈ S2 := by
    intro k hk
    by_contra hk2
    have := h k
    rw [if_neg hk2, map_find_eq_none] at this
    exact this hk
  have hc := (diff_folder_completed_iff strHash stat folder S2 S1 _).mpr ⟨rfl, hsub⟩
  refine ⟨?_, _, hc, ?_⟩
  · rw [diff_folder_completed_alerts strHash stat folder S2 S1 _ hc]
    apply new_modified_pass_quiet
    intro p hp
    rw [h p, if_pos hp]
  · intro p
    rw [new_modified_pass_find, h p]
    by_cases hp : p ∈ S2 <;> simp [hp]

/-- The part of idempotence the code has. For every prior snapshot `S1`, scanned set `S2`
and per-path observation `stat`: when a first run of the folder's diff ends (in the state
`s1`), a second run against the same `S2` and `stat` writes no alert at all, ends as well,
and leaves a snapshot that answers every lookup as `s1` does. A first run ends exactly when
no key of `S1` is missing from `S2` (`diff_folder_completed_iff`). -/
theorem second_run_writes_no_alert (strHash : String → Nat) (stat : String → StatObs)
    (folder : String) (S2 : StdSet) (S1 s1 : Snapshot)
    (h : (diff_folder strHash stat folder S2 S1).outcome = .completed s1) :
    (diff_folder strHash stat folder S2 s1).alerts = []
      ∧ ∃ s2, (diff_folder strHash stat folder S2 s1).outcome = .completed s2
          ∧ ∀ p, map_find s2 p = map_find s1 p := by
  obtain ⟨hs1, hsub⟩ := (diff_folder_completed_iff strHash stat folder S2 S1 s1).mp h
  apply diff_folder_quiet
  intro p
  rw [hs1, new_modified_pass_find]
  by_cases hp : p ∈ S2
  · simp [hp]
  · rw [if_neg hp, if_neg hp, map_find_eq_none]
    exact fun hk => hp (hsub p hk)

theorem second_run_writes_no_alert_witness :
    (diff_folder String.length (fun _ => ⟨true, .ok "t1", true⟩) "C:\\t"
        ["C:\\t\\a.txt", "C:\\t\\b.txt"]
        [("C:\\t\\a.txt", ⟨"t0", true, "C:\\t\\a.txt", "b"⟩)]).outcome
      = .completed [("C:\\t\\a.txt", ⟨"t1", true, "C:\\t\\a.txt", "c"⟩),
                    ("C:\\t\\b.txt", ⟨"t1", true, "C:\\t\\b.txt", "c"⟩)]
    ∧ (diff_folder String.length (fun _ => ⟨true, .ok "t1", true⟩) "C:\\t"
        ["C:\\t\\a.txt", "C:\\t\\b.txt"]
        [("C:\\t\\a.txt", ⟨"t1", true, "C:\\t\\a.txt", "c"⟩),
         ("C:\\t\\b.txt", ⟨"t1", true, "C:\\t\\b.txt", "c"⟩)]).alerts = [] :=
  ⟨by decide,
   (second_run_writes_no_alert String.length (fun _ => ⟨true, .ok "t1", true⟩) "C:\\t"
      ["C:\\t\\a.txt", "C:\\t\\b.txt"]
      [("C:\\t\\a.txt", ⟨"t0", true, "C:\\t\\a.txt", "b"⟩)]
      [("C:\\t\\a.txt", ⟨"t1", true, "C:\\t\\a.txt", "c"⟩),
       ("C:\\t\\b.txt", ⟨"t1", true, "C:\\t\\b.txt", "c"⟩)] (by decide)).1⟩

/-- C5 (evaluation at the failing input, and the general split): with prior snapshot
`{a.txt, b.txt}`, `a.txt` deleted and `b.txt` unchanged, so that the scanned set is
`{b.txt}`, the first run of the diff writes "File deleted" for `a.txt`, erases that entry
from the map it is iterating and advances the invalidated iterator: it ends outside defined
behaviour and leaves no state from which a second run against the same observation could
start, so no second run without events is guaranteed. For every prior snapshot, scanned set
and observation there are exactly these two cases: either no key of the prior snapshot is
missing from the scanned set, the first run ends in a state `s1` and the second run from
`s1` writes no alert; or some key of the prior snapshot is missing from the scanned set and
the first run leaves no defined state. -/
theorem first_run_with_deletion_leaves_no_second_run :
    (diff_folder String.length
        (fun p => if p = "C:\\t\\b.txt" then ⟨true, .ok "t0", false⟩
                  else ⟨false, .ok "", false⟩)
        "C:\\t" ["C:\\t\\b.txt"]
        [("C:\\t\\a.txt", ⟨"t0", true, "C:\\t\\a.txt", ""⟩),
         ("C:\\t\\b.txt", ⟨"t0", true, "C:\\t\\b.txt", ""⟩)]
      = { alerts := [⟨.Deleted, "C:\\t\\a.txt", "C:\\t"⟩]
          outcome := .undefined [("C:\\t\\b.txt", ⟨"t0", true, "C:\\t\\b.txt", ""⟩)] })
    ∧ (diff_folder String.length
        (fun p => if p = "C:\\t\\b.txt" then ⟨true, .ok "t0", false⟩
                  else ⟨false, .ok "", false⟩)
        "C:\\t" ["C:\\t\\b.txt"]
        [("C:\\t\\a.txt", ⟨"t0", true, "C:\\t\\a.txt", ""⟩),
         ("C:\\t\\b.txt", ⟨"t0", true, "C:\\t\\b.txt", ""⟩)]).outcome.final = none
    ∧ ∀ (strHash : String → Nat) (stat : String → StatObs) (folder : String) (S2 : StdSet)
        (S1 : Snapshot),
        ((¬ ∃ k, k ∈ map_keys S1 ∧ k ∉ S2)
          ∧ ∃ s1, (diff_folder strHash stat folder S2 S1).outcome = .completed s1
              ∧ (diff_folder strHash stat folder S2 s1).alerts = []
              ∧ ∃ s2, (diff_folder strHash stat folder S2 s1).outcome = .completed s2)
        ∨ ((∃ k, k ∈ map_keys S1 ∧ k ∉ S2)
          ∧ (diff_folder strHash stat folder S2 S1).outcome.final = none
          ∧ ∀ s1, (diff_folder strHash stat folder S2 S1).outcome ≠ .completed s1) := by
  refine ⟨by decide, by decide, ?_⟩
  intro strHash stat folder S2 S1
  by_cases hstale : ∃ k, k ∈ map_keys S1 ∧ k ∉ S2
  · right
    obtain ⟨k, hk, hk2⟩ := hstale
    refine ⟨⟨k, hk, hk2⟩, diff_folder_undefined_of_stale_key strHash stat folder S2 S1 k hk hk2,
      ?_⟩
    intro s1 h
    exact hk2 (((diff_folder_completed_iff strHash stat folder S2 S1 s1).mp h).2 k hk)
  · left
    have hsub : ∀ k ∈ map_keys S1, k ∈ S2 := by
      intro k hk
      by_contra hk2
      exact hstale ⟨k, hk, hk2⟩
    obtain ⟨s1, hs1, _, _⟩ := diff_folder_without_stale_key strHash stat folder S2 S1 hsub
    obtain ⟨hq, s2, hs2, _⟩ := second_run_writes_no_alert strHash stat folder S2 S1 s1 hs1
    exact ⟨hstale, s1, hs1, hq, s2, hs2⟩


/-! ## The store of all folders -/

theorem store_at_assign (g f : String) (snapshot : Snapshot) (store : Store) :
    store_at (map_assign g snapshot store) f
      = if f = g then snapshot else store_at store f := by
  simp only [store_at, map_find_assign]
  by_cases h : f = g <;> simp [h]

theorem initialize_folder_find (strHash : String → Nat) (fs : FileSystem) (g : String)
    (paths : List String) (store : Store) (f p : String) :
    map_find (store_at (initialize_folder strHash fs g paths store) f) p
      = if f = g ∧ p ∈ paths then some (get_file_info strHash fs.stat p)
        else map_find (store_at store f) p := by
  induction paths generalizing store with
  | nil => simp [initialize_folder]
  | cons q rest ih =>
    simp only [initialize_folder, ih, store_at_assign, List.mem_cons]
    by_cases hf : f = g
    · subst hf
      by_cases hr : p ∈ rest
      · simp [hr]
      · by_cases hq : p = q
        · simp [hq, map_find_assign]
        · simp [hr, hq, map_find_assign]
    · simp [hf]

theorem initialize_states_find (strHash : String → Nat) (fs : FileSystem)
    (folders : List MonitorFolder) (store : Store) (f p : String) :
    map_find (store_at (initialize_states strHash fs folders store) f) p
      = if (∃ m ∈ folders, m.isActive = true ∧ m.path = f) ∧ p ∈ scan fs f
        then some (get_file_info strHash fs.stat p)
        else map_find (store_at store f) p := by
  induction folders generalizing store with
  | nil => simp [initialize_states]
  | cons m rest ih =>
    simp only [initialize_states]
    by_cases hact : m.isActive = true
    · rw [if_pos hact, ih, initialize_folder_find]
      by_cases hrest : (∃ m1 ∈ rest, m1.isActive = true ∧ m1.path = f) ∧ p ∈ scan fs f
      · have : (∃ m1 ∈ m :: rest, m1.isActive = true ∧ m1.path = f) ∧ p ∈ scan fs f := by
          obtain ⟨⟨m1, hm1, h1⟩, h2⟩ := hrest
          exact ⟨⟨m1, List.mem_cons_of_mem _ hm1, h1⟩, h2⟩
        rw [if_pos hrest, if_pos this]
      · rw [if_neg hrest]
        by_cases hm : f = m.path ∧ p ∈ scan fs m.path
        · have : (∃ m1 ∈ m :: rest, m1.isActive = true ∧ m1.path = f) ∧ p ∈ scan fs f := by
            refine ⟨⟨m, List.mem_cons_self _ _, hact, hm.1.symm⟩, ?_⟩
            rw [hm.1]
            exact hm.2
          rw [if_pos hm, if_pos this]
        · have : ¬ ((∃ m1 ∈ m :: rest, m1.isActive = true ∧ m1.path = f) ∧ p ∈ scan fs f) := by
            rintro ⟨⟨m1, hm1, h1, h2⟩, h3⟩
            rcases List.mem_cons.mp hm1 with rfl | hm1
            · apply hm
              refine ⟨h2.symm, ?_⟩
              rw [h2]
              exact h3
            · exact hrest ⟨⟨m1, hm1, h1, h2⟩, h3⟩
          rw [if_neg hm, if_neg this]
    · rw [if_neg hact, ih]
      have : (∃ m1 ∈ m :: rest, m1.isActive = true ∧ m1.path = f)
          ↔ (∃ m1 ∈ rest, m1.isActive = true ∧ m1.path = f) := by
        constructor
        · rintro ⟨m1, hm1, h1, h2⟩
          rcases List.mem_cons.mp hm1 with rfl | hm1
          · exact absurd h1 hact
          · exact ⟨m1, hm1, h1, h2⟩
        · rintro ⟨m1, hm1, h1⟩
          exact ⟨m1, List.mem_cons_of_mem _ hm1, h1⟩
      simp only [this]

theorem poll_folder_alerts (strHash : String → Nat) (fs : FileSystem) (folder : String)
    (store : Store) :
    (poll_folder strHash fs folder store).alerts
      = (diff_folder strHash fs.stat folder (scan fs folder) (store_at store folder)).alerts :=
  rfl

theorem poll_folder_completed (strHash : String → Nat) (fs : FileSystem) (folder : String)
    (store store1 : Store)
    (h : (poll_folder strHash fs folder store).outcome = .completed store1) :
    ∃ s, (diff_folder strHash fs.stat folder (scan fs folder) (store_at store folder)).outcome
          = .completed s
      ∧ store1 = map_assign folder s store := by
  simp only [poll_folder] at h
  cases hd : (diff_folder strHash fs.stat folder (scan fs folder)
      (store_at store folder)).outcome with
  | completed s =>
    rw [hd] at h
    simp only [Outcome.map, Outcome.completed.injEq] at h
    exact ⟨s, rfl, h.symm⟩
  | undefined s =>
    rw [hd] at h
    simp [Outcome.map] at h

theorem poll_folder_of_completed (strHash : String → Nat) (fs : FileSystem) (folder : String)
    (store : Store) (s : Snapshot)
    (h : (diff_folder strHash fs.stat folder (scan fs folder) (store_at store folder)).outcome
          = .completed s) :
    (poll_folder strHash fs folder store).outcome = .completed (map_assign folder s store) := by
  simp only [poll_folder, h, Outcome.map]

theorem new_modified_pass_new_alert (strHash : String → Nat) (stat : String → StatObs)
    (folder : String) (paths : List String) (prev : Snapshot) (a : Alert)
    (ha : a ∈ (new_modified_pass strHash stat folder paths prev).1) (hk : a.kind = .New) :
    a.path ∉ map_keys prev := by
  induction paths generalizing prev with
  | nil => simp [new_modified_pass] at ha
  | cons q rest ih =>
    simp only [new_modified_pass, List.mem_append] at ha
    rcases ha with ha | ha
    · simp only [check_path] at ha
      cases hf : map_find prev q with
      | none =>
        rw [hf] at ha
        simp only [List.mem_singleton] at ha
        rw [ha]
        exact (map_find_eq_none prev q).mp hf
      | some r =>
        rw [hf] at ha
        simp only at ha
        split at ha
        · simp only [List.mem_singleton] at ha
          rw [ha] at hk
          simp at hk
        · simp at ha
    · have := ih _ ha
      rw [check_path_snd] at this
      intro hmem
      exact this ((mem_map_keys_assign q a.path _ prev).mpr (Or.inr hmem))

theorem diff_folder_new_alert (strHash : String → Nat) (stat : String → StatObs)
    (folder : String) (S2 : StdSet) (S1 : Snapshot) (a : Alert)
    (ha : a ∈ (diff_folder strHash stat folder S2 S1).alerts) (hk : a.kind = .New) :
    a.folder = folder ∧ a.path ∉ map_keys S1 := by
  rw [diff_folder_alerts, List.mem_append] at ha
  rcases ha with ha | ha
  · exact ⟨(new_modified_pass_alert strHash stat folder S2 S1 a ha).2.1,
      new_modified_pass_new_alert strHash stat folder S2 S1 a ha hk⟩
  · have := (deleted_pass_alert folder S2 _ _ a ha).1
    rw [hk] at this
    simp at this


/-! ## The first cycle after start-up -/

theorem poll_cycle_cons_active (strHash : String → Nat) (fs : FileSystem) (m : MonitorFolder)
    (rest : List MonitorFolder) (store store1 : Store) (hact : m.isActive = true)
    (h : (poll_folder strHash fs m.path store).outcome = .completed store1) :
    poll_cycle strHash fs (m :: rest) store
      = { alerts := (poll_folder strHash fs m.path store).alerts
            ++ (poll_cycle strHash fs rest store1).alerts
          outcome := (poll_cycle strHash fs rest store1).outcome } := by
  simp only [poll_cycle, if_pos hact, h]

theorem poll_cycle_cons_undefined (strHash : String → Nat) (fs : FileSystem)
    (m : MonitorFolder) (rest : List MonitorFolder) (store store1 : Store)
    (hact : m.isActive = true)
    (h : (poll_folder strHash fs m.path store).outcome = .undefined store1) :
    poll_cycle strHash fs (m :: rest) store
      = { alerts := (poll_folder strHash fs m.path store).alerts
          outcome := .undefined store1 } := by
  simp only [poll_cycle, if_pos hact, h]

theorem poll_cycle_cons_inactive (strHash : String → Nat) (fs : FileSystem)
    (m : MonitorFolder) (rest : List MonitorFolder) (store : Store)
    (hact : ¬ m.isActive = true) :
    poll_cycle strHash fs (m :: rest) store = poll_cycle strHash fs rest store := by
  simp only [poll_cycle, if_neg hact]

theorem poll_cycle_quiet (strHash : String → Nat) (fs0 fs1 : FileSystem)
    (fl : List MonitorFolder) (store : Store)
    (hobs : SameObservation strHash fs0 fs1 fl)
    (hseed : ∀ m ∈ fl, m.isActive = true → ∀ p,
      map_find (store_at store m.path) p
        = if p ∈ scan fs0 m.path then some (get_file_info strHash fs0.stat p) else none) :
    (poll_cycle strHash fs1 fl store).alerts = []
      ∧ ∃ st, (poll_cycle strHash fs1 fl store).outcome = .completed st := by
  induction fl generalizing store with
  | nil => exact ⟨rfl, store, rfl⟩
  | cons m rest ih =>
    have hobs_rest : SameObservation strHash fs0 fs1 rest :=
      fun m1 hm1 h1 => hobs m1 (List.mem_cons_of_mem _ hm1) h1
    by_cases hact : m.isActive = true
    · obtain ⟨hscan, hinfo⟩ := hobs m (List.mem_cons_self _ _) hact
      have hm := hseed m (List.mem_cons_self _ _) hact
      have hq := diff_folder_quiet strHash fs1.stat m.path (scan fs1 m.path)
        (store_at store m.path) (by
          intro p
          rw [hm p, hscan]
          by_cases hp : p ∈ scan fs0 m.path
          · rw [if_pos hp, if_pos hp, hinfo p hp]
          · rw [if_neg hp, if_neg hp])
      obtain ⟨halerts, s, hs, hfind⟩ := hq
      have hout := poll_folder_of_completed strHash fs1 m.path store s hs
      rw [poll_cycle_cons_active strHash fs1 m rest store _ hact hout]
      have hrest := ih (map_assign m.path s store) hobs_rest (by
        intro m1 hm1 h1 p
        rw [store_at_assign]
        by_cases heq : m1.path = m.path
        · rw [if_pos heq, hfind p, heq]
          exact hm p
        · rw [if_neg heq]
          exact hseed m1 (List.mem_cons_of_mem _ hm1) h1 p)
      refine ⟨?_, hrest.2⟩
      simp only [poll_folder_alerts, halerts, hrest.1, List.append_nil]
    · rw [poll_cycle_cons_inactive strHash fs1 m rest store hact]
      exact ih store hobs_rest (fun m1 hm1 h1 => hseed m1 (List.mem_cons_of_mem _ hm1) h1)

theorem poll_cycle_new_alert (strHash : String → Nat) (fs0 fs1 : FileSystem)
    (fl : List MonitorFolder) (store : Store)
    (hseed : ∀ m ∈ fl, m.isActive = true → ∀ p ∈ scan fs0 m.path,
      p ∈ map_keys (store_at store m.path))
    (a : Alert) (ha : a ∈ (poll_cycle strHash fs1 fl store).alerts) (hk : a.kind = .New) :
    a.path ∉ scan fs0 a.folder := by
  induction fl generalizing store with
  | nil => simp [poll_cycle] at ha
  | cons m rest ih =>
    by_cases hact : m.isActive = true
    · have hfirst : a ∈ (poll_folder strHash fs1 m.path store).alerts →
          a.path ∉ scan fs0 a.folder := by
        intro ha1
        rw [poll_folder_alerts] at ha1
        obtain ⟨hf, hp⟩ := diff_folder_new_alert strHash fs1.stat m.path _ _ a ha1 hk
        rw [hf]
        exact fun hmem => hp (hseed m (List.mem_cons_self _ _) hact a.path hmem)
      cases hout : (poll_folder strHash fs1 m.path store).outcome with
      | completed store1 =>
        rw [poll_cycle_cons_active strHash fs1 m rest store store1 hact hout] at ha
        rcases List.mem_append.mp ha with ha1 | ha2
        · exact hfirst ha1
        · obtain ⟨s, hs, hstore1⟩ := poll_folder_completed strHash fs1 m.path store store1 hout
          have hs2 := ((diff_folder_completed_iff strHash fs1.stat m.path _ _ s).mp hs).1
          apply ih store1 _ ha2
          intro m1 hm1 h1 p hp
          rw [hstore1, store_at_assign]
          by_cases heq : m1.path = m.path
          · rw [if_pos heq, hs2, new_modified_pass_keys]
            right
            rw [← heq]
            exact hseed m1 (List.mem_cons_of_mem _ hm1) h1 p hp
          · rw [if_neg heq]
            exact hseed m1 (List.mem_cons_of_mem _ hm1) h1 p hp
      | undefined store1 =>
        rw [poll_cycle_cons_undefined strHash fs1 m rest store store1 hact hout] at ha
        exact hfirst ha
    · rw [poll_cycle_cons_inactive strHash fs1 m rest store hact] at ha
      exact ih store (fun m1 hm1 h1 => hseed m1 (List.mem_cons_of_mem _ hm1) h1) ha

/-- C6: start-up seeding. With `previousFileStates` filled by the initialisation loop under
the observation `fs0`, the first poll cycle under `fs1` (a) writes no alert and runs to its
end when every active folder shows the same observation under `fs1` as under `fs0`, and
(b) in general writes a "New file detected" alert only for a path that the initial scan of
its folder did not return. -/
theorem first_cycle_after_seeding (strHash : String → Nat) (fs0 fs1 : FileSystem)
    (folders : List MonitorFolder) :
    (SameObservation strHash fs0 fs1 folders →
      (poll_cycle strHash fs1 folders (initialize_states strHash fs0 folders [])).alerts = []
        ∧ ∃ st, (poll_cycle strHash fs1 folders
            (initialize_states strHash fs0 folders [])).outcome = .completed st)
    ∧ ∀ a ∈ (poll_cycle strHash fs1 folders
          (initialize_states strHash fs0 folders [])).alerts,
        a.kind = .New → a.path ∉ scan fs0 a.folder := by
  have hseed : ∀ m ∈ folders, m.isActive = true → ∀ p,
      map_find (store_at (initialize_states strHash fs0 folders []) m.path) p
        = if p ∈ scan fs0 m.path then some (get_file_info strHash fs0.stat p) else none := by
    intro m hm hact p
    rw [initialize_states_find]
    have : ∃ m1 ∈ folders, m1.isActive = true ∧ m1.path = m.path := ⟨m, hm, hact, rfl⟩
    by_cases hp : p ∈ scan fs0 m.path
    · rw [if_pos ⟨this, hp⟩, if_pos hp]
    · rw [if_neg (fun h => hp h.2), if_neg hp]
      rfl
  constructor
  · intro hobs
    exact poll_cycle_quiet strHash fs0 fs1 folders _ hobs hseed
  · intro a ha hk
    apply poll_cycle_new_alert strHash fs0 fs1 folders _ _ a ha hk
    intro m hm hact p hp
    rw [mem_map_keys_iff_find, hseed m hm hact p, if_pos hp]
    exact ⟨_, rfl⟩


theorem first_cycle_after_seeding_witness :
    SameObservation String.length demo_fs demo_fs demo_folders
    ∧ (poll_cycle String.length demo_fs demo_folders
        (initialize_states String.length demo_fs demo_folders [])).alerts = [] :=
  ⟨fun _ _ _ => ⟨rfl, fun _ _ => rfl⟩,
   ((first_cycle_after_seeding String.length demo_fs demo_fs demo_folders).1
      (fun _ _ _ => ⟨rfl, fun _ _ => rfl⟩)).1⟩


/-! ## A root folder that cannot be enumerated -/

theorem scan_of_error (fs : FileSystem) (folder : String) (code : Nat)
    (h : fs.error folder = some code) : scan fs folder = [] := by
  simp [scan, get_directory_files, h]

/-- C10 (counterexample): the root of the active folder `C:\t` cannot be enumerated
(access denied) while its snapshot holds `a.txt` and `d\z.txt`. The folder is not skipped:
the cycle writes a "File deleted" alert, so it is false that it writes no alert and leaves
the snapshot as it was. -/
theorem unreadable_root_is_not_skipped :
    (poll_folder String.length demo_fs_denied "C:\\t"
        (initialize_states String.length demo_fs demo_folders [])).alerts
      = [{ kind := .Deleted, path := "C:\\t\\a.txt", folder := "C:\\t" }]
    ∧ ¬ ((poll_folder String.length demo_fs_denied "C:\\t"
          (initialize_states String.length demo_fs demo_folders [])).alerts = []
        ∧ (poll_folder String.length demo_fs_denied "C:\\t"
          (initialize_states String.length demo_fs demo_folders [])).outcome
            = .completed (initialize_states String.length demo_fs demo_folders [])) := by
  constructor <;> decide

/-- C10 (amended): when the root of an active folder cannot be enumerated, the scanned set
is empty and the cycle handles the folder as one without files. It writes no New and no
Modified alert. With an empty prior snapshot it writes no alert at all, runs to its end and
leaves every snapshot as it was. With a non-empty prior snapshot the folder is not skipped:
the deleted pass writes a "File deleted" alert for the first path of the snapshot. -/
theorem unreadable_root_cycle (strHash : String → Nat) (fs : FileSystem) (folder : String)
    (code : Nat) (store : Store) (herr : fs.error folder = some code) :
    (∀ a ∈ (poll_folder strHash fs folder store).alerts, a.kind = .Deleted)
    ∧ (store_at store folder = [] →
        (poll_folder strHash fs folder store).alerts = []
        ∧ ∃ st, (poll_folder strHash fs folder store).outcome = .completed st
            ∧ ∀ g, store_at st g = store_at store g)
    ∧ (∀ e rest, store_at store folder = e :: rest →
        ({ kind := .Deleted, path := e.1, folder := folder } : Alert)
          ∈ (poll_folder strHash fs folder store).alerts) := by
  have hscan := scan_of_error fs folder code herr
  refine ⟨?_, ?_, ?_⟩
  · intro a ha
    rw [poll_folder_alerts, hscan, diff_folder_alerts] at ha
    simp only [new_modified_pass, List.nil_append] at ha
    exact (deleted_pass_alert folder [] _ _ a ha).1
  · intro hempty
    have hrun : diff_folder strHash fs.stat folder (scan fs folder) (store_at store folder)
        = { alerts := [], outcome := .completed [] } := by
      rw [hscan, hempty]
      rfl
    refine ⟨by rw [poll_folder_alerts, hrun], map_assign folder [] store, ?_, ?_⟩
    · simp only [poll_folder, hrun, Outcome.map]
    · intro g
      rw [store_at_assign]
      by_cases hg : g = folder
      · rw [if_pos hg, hg, hempty]
      · rw [if_neg hg]
  · intro e rest hstore
    rw [poll_folder_alerts, hscan, hstore, diff_folder_alerts]
    simp [new_modified_pass, deleted_pass, set_contains]

theorem unreadable_root_cycle_witness :
    demo_fs_denied.error "C:\\t" = some 5
    ∧ ∀ a ∈ (poll_folder String.length demo_fs_denied "C:\\t"
        (initialize_states String.length demo_fs demo_folders [])).alerts, a.kind = .Deleted :=
  ⟨rfl, (unreadable_root_cycle String.length demo_fs_denied "C:\\t" 5
      (initialize_states String.length demo_fs demo_folders []) rfl).1⟩


/-! ## The fingerprint -/

theorem get_file_info_filename (strHash : String → Nat) (stat : String → StatObs)
    (path : String) : (get_file_info strHash stat path).filename = path := by
  unfold get_file_info
  split
  · split <;> rfl
  · rfl

theorem get_file_info_hash_of_exists (strHash : String → Nat) (stat : String → StatObs)
    (path : String) (h : (get_file_info strHash stat path).exists_ = true) :
    (get_file_info strHash stat path).hash
      = if (stat path).opens = true
        then hex (strHash (path ++ (get_file_info strHash stat path).lastModified))
        else "" := by
  unfold get_file_info at h ⊢
  by_cases hf : (stat path).found = true
  · rw [if_pos hf] at h ⊢
    cases hts : (stat path).timestamp with
    | ok ts => simp only [hts]
    | error what =>
      rw [hts] at h
      simp at h
  · rw [if_neg hf] at h
    simp at h

/-- C9 (counterexample): two observations of `C:\t\a.txt` with the same timestamp, both
with `exists = true`; in the first the file can be opened, in the second it cannot. The two
records have equal path and equal `lastModified` and different hashes. -/
theorem equal_timestamp_different_hash :
    (get_file_info String.length
        (fun _ => { found := true, timestamp := .ok "2024-01-01 10:00:00", opens := true })
        "C:\\t\\a.txt").exists_ = true
    ∧ (get_file_info String.length
        (fun _ => { found := true, timestamp := .ok "2024-01-01 10:00:00", opens := false })
        "C:\\t\\a.txt").exists_ = true
    ∧ (get_file_info String.length
        (fun _ => { found := true, timestamp := .ok "2024-01-01 10:00:00", opens := true })
        "C:\\t\\a.txt").filename
      = (get_file_info String.length
        (fun _ => { found := true, timestamp := .ok "2024-01-01 10:00:00", opens := false })
        "C:\\t\\a.txt").filename
    ∧ (get_file_info String.length
        (fun _ => { found := true, timestamp := .ok "2024-01-01 10:00:00", opens := true })
        "C:\\t\\a.txt").lastModified
      = (get_file_info String.length
        (fun _ => { found := true, timestamp := .ok "2024-01-01 10:00:00", opens := false })
        "C:\\t\\a.txt").lastModified
    ∧ (get_file_info String.length
        (fun _ => { found := true, timestamp := .ok "2024-01-01 10:00:00", opens := true })
        "C:\\t\\a.txt").hash
      ≠ (get_file_info String.length
        (fun _ => { found := true, timestamp := .ok "2024-01-01 10:00:00", opens := false })
        "C:\\t\\a.txt").hash := by
  decide

/-- C9 (amended): the fingerprint is a function of the path, its modification timestamp and
whether the file could be opened. For two records returned by `get_file_info` with
`exists = true` whose files were both opened or both not opened, equal path and equal
`lastModified` give equal hash; the hash of such a record is the hexadecimal text of
`std::hash` of path and timestamp when the file was opened, and empty otherwise. -/
theorem hash_function_of_path_timestamp_readability (strHash : String → Nat)
    (stat1 stat2 : String → StatObs) (p1 p2 : String)
    (h1 : (get_file_info strHash stat1 p1).exists_ = true)
    (h2 : (get_file_info strHash stat2 p2).exists_ = true)
    (hpath : (get_file_info strHash stat1 p1).filename
      = (get_file_info strHash stat2 p2).filename)
    (htime : (get_file_info strHash stat1 p1).lastModified
      = (get_file_info strHash stat2 p2).lastModified)
    (hopen : (stat1 p1).opens = (stat2 p2).opens) :
    (get_file_info strHash stat1 p1).hash = (get_file_info strHash stat2 p2).hash
    ∧ (get_file_info strHash stat1 p1).hash
        = if (stat1 p1).opens = true
          then hex (strHash (p1 ++ (get_file_info strHash stat1 p1).lastModified))
          else "" := by
  rw [get_file_info_filename, get_file_info_filename] at hpath
  refine ⟨?_, get_file_info_hash_of_exists strHash stat1 p1 h1⟩
  rw [get_file_info_hash_of_exists strHash stat1 p1 h1,
    get_file_info_hash_of_exists strHash stat2 p2 h2, htime, hopen, hpath]

theorem hash_function_of_path_timestamp_readability_witness :
    (get_file_info String.length demo_fs.stat "C:\\t\\a.txt").exists_ = true
    ∧ (get_file_info String.length demo_fs_added.stat "C:\\t\\a.txt").exists_ = true
    ∧ (get_file_info String.length demo_fs.stat "C:\\t\\a.txt").hash
        = (get_file_info String.length demo_fs_added.stat "C:\\t\\a.txt").hash :=
  ⟨by decide, by decide,
   (hash_function_of_path_timestamp_readability String.length demo_fs.stat
      demo_fs_added.stat "C:\\t\\a.txt" "C:\\t\\a.txt" (by decide) (by decide) (by decide)
      (by decide) (by decide)).1⟩


/-! ## The scan and the tree -/

mutual
theorem locate_entry_unreachable (folder : String) (e : DirEntry) :
    ∀ l ∈ locate_entry folder false e, l.reachable = false := by
  cases e with
  | file name =>
    intro l hl
    simp only [locate_entry] at hl
    split at hl
    · simp only [List.mem_singleton] at hl
      rw [hl]
    · simp at hl
  | directory name error entries =>
    intro l hl
    simp only [locate_entry] at hl
    split at hl
    · rcases List.mem_cons.mp hl with h | h
      · rw [h]
      · exact locate_entries_unreachable (folder ++ "\\" ++ name) entries l
          (by simpa using h)
    · simp at hl
theorem locate_entries_unreachable (folder : String) (entries : List DirEntry) :
    ∀ l ∈ locate_entries folder false entries, l.reachable = false := by
  cases entries with
  | nil =>
    intro l hl
    simp [locate_entries] at hl
  | cons e rest =>
    intro l hl
    simp only [locate_entries, List.mem_append] at hl
    rcases hl with h | h
    · exact locate_entry_unreachable folder e l h
    · exact locate_entries_unreachable folder rest l h
end

mutual
theorem mem_scan_entry (folder : String) (files : StdSet) (p : String) (e : DirEntry) :
    p ∈ scan_entry folder files e
      ↔ p ∈ files ∨ ∃ l ∈ locate_entry folder true e, IsReachableFile p l := by
  cases e with
  | file name =>
    simp only [scan_entry, locate_entry]
    by_cases hdot : name ≠ "." ∧ name ≠ ".."
    · rw [if_pos hdot, if_pos hdot, mem_set_insert]
      simp only [List.mem_singleton, exists_eq_left, IsReachableFile, and_true]
      constructor
      · rintro (h | h)
        · exact Or.inr h.symm
        · exact Or.inl h
      · rintro (h | h)
        · exact Or.inr h
        · exact Or.inl h.symm
    · rw [if_neg hdot, if_neg hdot]
      simp
  | directory name error entries =>
    simp only [scan_entry, locate_entry]
    by_cases hdot : name ≠ "." ∧ name ≠ ".."
    · rw [if_pos hdot, if_pos hdot]
      cases error with
      | some code =>
        simp only [set_insert_range, List.foldl_nil, List.mem_cons, Option.isNone_some,
          Bool.and_false]
        constructor
        · exact Or.inl
        · rintro (h | ⟨l, hl | hl, hr⟩)
          · exact h
          · rw [hl] at hr
            simp [IsReachableFile] at hr
          · have := locate_entries_unreachable _ entries l hl
            rw [hr.2.2] at this
            simp at this
      | none =>
        rw [mem_set_insert_range,
          mem_scan_entries (folder ++ "\\" ++ name) [] p entries]
        simp only [List.not_mem_nil, false_or, List.mem_cons, Option.isNone_none,
          Bool.and_true]
        constructor
        · rintro (⟨l, hl, hr⟩ | h)
          · exact Or.inr ⟨l, Or.inr hl, hr⟩
          · exact Or.inl h
        · rintro (h | ⟨l, hl | hl, hr⟩)
          · exact Or.inr h
          · rw [hl] at hr
            simp [IsReachableFile] at hr
          · exact Or.inl ⟨l, hl, hr⟩
    · rw [if_neg hdot, if_neg hdot]
      simp
theorem mem_scan_entries (folder : String) (files : StdSet) (p : String)
    (entries : List DirEntry) :
    p ∈ scan_entries folder files entries
      ↔ p ∈ files ∨ ∃ l ∈ locate_entries folder true entries, IsReachableFile p l := by
  cases entries with
  | nil => simp [scan_entries, locate_entries]
  | cons e rest =>
    simp only [scan_entries, locate_entries, List.mem_append]
    rw [mem_scan_entries folder (scan_entry folder files e) p rest,
      mem_scan_entry folder files p e]
    constructor
    · rintro ((h | ⟨l, hl, hr⟩) | ⟨l, hl, hr⟩)
      · exact Or.inl h
      · exact Or.inr ⟨l, Or.inl hl, hr⟩
      · exact Or.inr ⟨l, Or.inr hl, hr⟩
    · rintro (h | ⟨l, hl | hl, hr⟩)
      · exact Or.inl (Or.inl h)
      · exact Or.inl (Or.inr ⟨l, hl, hr⟩)
      · exact Or.inr ⟨l, hl, hr⟩
end

theorem mem_get_directory_files (folder : String) (entries : List DirEntry) (p : String) :
    p ∈ get_directory_files folder none entries
      ↔ ∃ l ∈ entries_below folder entries, IsReachableFile p l := by
  simp only [get_directory_files, entries_below, mem_scan_entries, List.not_mem_nil, false_or]


mutual
theorem locate_entry_reachable (folder : String) (e : DirEntry)
    (h : ∀ l ∈ locate_entry folder true e, l.enumerable = true) :
    ∀ l ∈ locate_entry folder true e, l.reachable = true := by
  cases e with
  | file name =>
    intro l hl
    simp only [locate_entry] at hl
    split at hl
    · simp only [List.mem_singleton] at hl
      rw [hl]
    · simp at hl
  | directory name error entries =>
    intro l hl
    simp only [locate_entry] at hl h
    by_cases hdot : name ≠ "." ∧ name ≠ ".."
    · rw [if_pos hdot] at hl h
      have hnone : error.isNone = true := h _ (List.mem_cons_self _ _)
      rw [hnone] at hl h
      rcases List.mem_cons.mp hl with hl | hl
      · rw [hl]
      · exact locate_entries_reachable (folder ++ "\\" ++ name) entries
          (fun l1 hl1 => h l1 (List.mem_cons_of_mem _ hl1)) l hl
    · rw [if_neg hdot] at hl
      simp at hl
theorem locate_entries_reachable (folder : String) (entries : List DirEntry)
    (h : ∀ l ∈ locate_entries folder true entries, l.enumerable = true) :
    ∀ l ∈ locate_entries folder true entries, l.reachable = true := by
  cases entries with
  | nil =>
    intro l hl
    simp [locate_entries] at hl
  | cons e rest =>
    intro l hl
    simp only [locate_entries, List.mem_append] at hl h
    rcases hl with hl | hl
    · exact locate_entry_reachable folder e (fun l1 hl1 => h l1 (Or.inl hl1)) l hl
    · exact locate_entries_reachable folder rest (fun l1 hl1 => h l1 (Or.inr hl1)) l hl
end

/-! ## Paths of distinct entries are distinct -/

theorem data_path (folder name : String) :
    (folder ++ "\\" ++ name).data = folder.data ++ '\\' :: name.data := by
  simp [String.data_append]

mutual
theorem locate_entry_shape (folder : String) (r : Bool) (e : DirEntry) :
    ∀ l ∈ locate_entry folder r e,
      (e.cFileName ≠ "." ∧ e.cFileName ≠ "..")
      ∧ ∃ t, IsPathTail t ∧ l.path.data = folder.data ++ '\\' :: e.cFileName.data ++ t := by
  cases e with
  | file name =>
    intro l hl
    simp only [locate_entry] at hl
    by_cases hdot : name ≠ "." ∧ name ≠ ".."
    · rw [if_pos hdot] at hl
      simp only [List.mem_singleton] at hl
      refine ⟨hdot, [], Or.inl rfl, ?_⟩
      rw [hl]
      simp [DirEntry.cFileName, data_path]
    · rw [if_neg hdot] at hl
      simp at hl
  | directory name error entries =>
    intro l hl
    simp only [locate_entry] at hl
    by_cases hdot : name ≠ "." ∧ name ≠ ".."
    · rw [if_pos hdot] at hl
      refine ⟨hdot, ?_⟩
      rcases List.mem_cons.mp hl with hl | hl
      · refine ⟨[], Or.inl rfl, ?_⟩
        rw [hl]
        simp [DirEntry.cFileName, data_path]
      · obtain ⟨e1, _, _, t, _, hpath⟩ :=
          locate_entries_shape (folder ++ "\\" ++ name) _ entries l hl
        refine ⟨'\\' :: e1.cFileName.data ++ t, Or.inr ⟨_, rfl⟩, ?_⟩
        rw [hpath, data_path]
        simp [DirEntry.cFileName]
    · rw [if_neg hdot] at hl
      simp at hl
theorem locate_entries_shape (folder : String) (r : Bool) (entries : List DirEntry) :
    ∀ l ∈ locate_entries folder r entries,
      ∃ e ∈ entries, (e.cFileName ≠ "." ∧ e.cFileName ≠ "..")
        ∧ ∃ t, IsPathTail t ∧ l.path.data = folder.data ++ '\\' :: e.cFileName.data ++ t := by
  cases entries with
  | nil =>
    intro l hl
    simp [locate_entries] at hl
  | cons e rest =>
    intro l hl
    simp only [locate_entries, List.mem_append] at hl
    rcases hl with hl | hl
    · exact ⟨e, List.mem_cons_self _ _, locate_entry_shape folder r e l hl⟩
    · obtain ⟨e1, he1, h⟩ := locate_entries_shape folder r rest l hl
      exact ⟨e1, List.mem_cons_of_mem _ he1, h⟩
end

theorem first_component_unique : ∀ (n n1 t t1 : List Char),
    '\\' ∉ n → '\\' ∉ n1 → IsPathTail t → IsPathTail t1 → n ++ t = n1 ++ t1 → n = n1
  | [], [], _, _, _, _, _, _, _ => rfl
  | [], c :: cs, t, t1, _, h1, ht, _, heq => by
    exfalso
    rcases ht with ht | ⟨u, ht⟩
    · rw [ht] at heq
      simp at heq
    · rw [ht] at heq
      simp only [List.nil_append, List.cons_append, List.cons.injEq] at heq
      exact h1 (by rw [← heq.1]; exact List.mem_cons_self _ _)
  | c :: cs, [], t, t1, h, _, _, ht1, heq => by
    exfalso
    rcases ht1 with ht1 | ⟨u, ht1⟩
    · rw [ht1] at heq
      simp at heq
    · rw [ht1] at heq
      simp only [List.nil_append, List.cons_append, List.cons.injEq] at heq
      exact h (by rw [heq.1]; exact List.mem_cons_self _ _)
  | c :: cs, c1 :: cs1, t, t1, h, h1, ht, ht1, heq => by
    simp only [List.cons_append, List.cons.injEq] at heq
    rw [heq.1, first_component_unique cs cs1 t t1
      (fun hm => h (List.mem_cons_of_mem _ hm)) (fun hm => h1 (List.mem_cons_of_mem _ hm))
      ht ht1 heq.2]


theorem tree_ok_cons (e : DirEntry) (rest : List DirEntry) :
    tree_ok (e :: rest) = true
      ↔ entry_ok e = true ∧ (∀ e1 ∈ rest, e1.cFileName ≠ e.cFileName)
          ∧ tree_ok rest = true := by
  simp only [tree_ok, Bool.and_eq_true, decide_eq_true_eq, and_assoc]

theorem tree_ok_mem (entries : List DirEntry) (h : tree_ok entries = true) :
    ∀ e ∈ entries, entry_ok e = true := by
  induction entries with
  | nil => simp
  | cons e rest ih =>
    obtain ⟨h1, _, h3⟩ := (tree_ok_cons e rest).mp h
    intro e1 he1
    rcases List.mem_cons.mp he1 with rfl | he1
    · exact h1
    · exact ih h3 e1 he1

theorem entry_ok_name (e : DirEntry) (h : entry_ok e = true) : '\\' ∉ e.cFileName.data := by
  cases e with
  | file name => simpa [entry_ok, DirEntry.cFileName] using h
  | directory name error entries =>
    simp only [entry_ok, Bool.and_eq_true, decide_eq_true_eq] at h
    exact h.1

theorem entry_ok_directory (name : String) (error : Option Nat) (entries : List DirEntry)
    (h : entry_ok (.directory name error entries) = true) (hdot : name ≠ "." ∧ name ≠ "..") :
    tree_ok entries = true := by
  simp only [entry_ok, Bool.and_eq_true, decide_eq_true_eq, Bool.or_eq_true] at h
  rcases h.2 with h2 | h2
  · rcases h2 with h2 | h2
    · exact absurd h2 hdot.1
    · exact absurd h2 hdot.2
  · exact h2

mutual
theorem locate_entry_nodup (folder : String) (r : Bool) (e : DirEntry)
    (h : entry_ok e = true) : ((locate_entry folder r e).map Located.path).Nodup := by
  cases e with
  | file name =>
    simp only [locate_entry]
    split <;> simp
  | directory name error entries =>
    simp only [locate_entry]
    by_cases hdot : name ≠ "." ∧ name ≠ ".."
    · rw [if_pos hdot, List.map_cons, List.nodup_cons]
      refine ⟨?_, locate_entries_nodup (folder ++ "\\" ++ name) _ entries
        (entry_ok_directory name error entries h hdot)⟩
      intro hmem
      obtain ⟨l, hl, hpath⟩ := List.mem_map.mp hmem
      obtain ⟨e1, _, _, t, _, hshape⟩ :=
        locate_entries_shape (folder ++ "\\" ++ name) _ entries l hl
      rw [hpath] at hshape
      have := congrArg List.length hshape
      simp only [List.length_append, List.length_cons] at this
      omega
    · rw [if_neg hdot]
      simp
theorem locate_entries_nodup (folder : String) (r : Bool) (entries : List DirEntry)
    (h : tree_ok entries = true) : ((locate_entries folder r entries).map Located.path).Nodup := by
  cases entries with
  | nil => simp [locate_entries]
  | cons e rest =>
    obtain ⟨h1, h2, h3⟩ := (tree_ok_cons e rest).mp h
    simp only [locate_entries, List.map_append]
    rw [List.nodup_append]
    refine ⟨locate_entry_nodup folder r e h1, locate_entries_nodup folder r rest h3, ?_⟩
    intro p hp1 hp2
    obtain ⟨l1, hl1, hpath1⟩ := List.mem_map.mp hp1
    obtain ⟨l2, hl2, hpath2⟩ := List.mem_map.mp hp2
    obtain ⟨_, t1, ht1, hs1⟩ := locate_entry_shape folder r e l1 hl1
    obtain ⟨e2, he2, _, t2, ht2, hs2⟩ := locate_entries_shape folder r rest l2 hl2
    rw [hpath1] at hs1
    rw [hpath2, hs1] at hs2
    have hcancel : e.cFileName.data ++ t1 = e2.cFileName.data ++ t2 := by
      simpa [List.append_assoc] using hs2
    have hname := first_component_unique _ _ t1 t2 (entry_ok_name e h1)
      (entry_ok_name e2 (tree_ok_mem rest h3 e2 he2)) ht1 ht2 hcancel
    exact h2 e2 he2 (String.ext hname.symm)
end

theorem entries_below_path_inj (folder : String) (entries : List DirEntry)
    (h : tree_ok entries = true) (l1 l2 : Located)
    (h1 : l1 ∈ entries_below folder entries) (h2 : l2 ∈ entries_below folder entries)
    (hpath : l1.path = l2.path) : l1 = l2 :=
  List.inj_on_of_nodup_map (locate_entries_nodup folder true entries h) h1 h2 hpath


theorem last_component_unique : ∀ (a b n m : List Char),
    '\\' ∉ n → '\\' ∉ m → a ++ '\\' :: n = b ++ '\\' :: m → n = m
  | [], [], _, _, _, _, heq => by simpa using heq
  | [], c :: b, n, m, hn, _, heq => by
    exfalso
    simp only [List.nil_append, List.cons_append, List.cons.injEq] at heq
    exact hn (by rw [heq.2]; simp)
  | c :: a, [], n, m, _, hm, heq => by
    exfalso
    simp only [List.nil_append, List.cons_append, List.cons.injEq] at heq
    exact hm (by rw [← heq.2]; simp)
  | c :: a, c1 :: b, n, m, hn, hm, heq => by
    simp only [List.cons_append, List.cons.injEq] at heq
    exact last_component_unique a b n m hn hm heq.2

mutual
theorem locate_entry_name (folder : String) (r : Bool) (e : DirEntry)
    (h : entry_ok e = true) :
    ∀ l ∈ locate_entry folder r e,
      (l.name ≠ "." ∧ l.name ≠ "..") ∧ '\\' ∉ l.name.data
        ∧ ∃ parent : String, l.path = parent ++ "\\" ++ l.name := by
  cases e with
  | file name =>
    intro l hl
    simp only [locate_entry] at hl
    by_cases hdot : name ≠ "." ∧ name ≠ ".."
    · rw [if_pos hdot] at hl
      simp only [List.mem_singleton] at hl
      rw [hl]
      exact ⟨hdot, entry_ok_name _ h, folder, rfl⟩
    · rw [if_neg hdot] at hl
      simp at hl
  | directory name error entries =>
    intro l hl
    simp only [locate_entry] at hl
    by_cases hdot : name ≠ "." ∧ name ≠ ".."
    · rw [if_pos hdot] at hl
      rcases List.mem_cons.mp hl with hl | hl
      · rw [hl]
        exact ⟨hdot, entry_ok_name _ h, folder, rfl⟩
      · exact locate_entries_name (folder ++ "\\" ++ name) _ entries
          (entry_ok_directory name error entries h hdot) l hl
    · rw [if_neg hdot] at hl
      simp at hl
theorem locate_entries_name (folder : String) (r : Bool) (entries : List DirEntry)
    (h : tree_ok entries = true) :
    ∀ l ∈ locate_entries folder r entries,
      (l.name ≠ "." ∧ l.name ≠ "..") ∧ '\\' ∉ l.name.data
        ∧ ∃ parent : String, l.path = parent ++ "\\" ++ l.name := by
  cases entries with
  | nil =>
    intro l hl
    simp [locate_entries] at hl
  | cons e rest =>
    obtain ⟨h1, _, h3⟩ := (tree_ok_cons e rest).mp h
    intro l hl
    simp only [locate_entries, List.mem_append] at hl
    rcases hl with hl | hl
    · exact locate_entry_name folder r e h1 l hl
    · exact locate_entries_name folder r rest h3 l hl
end

theorem path_last_component (parent d name x : String) (hname : '\\' ∉ name.data)
    (hx : '\\' ∉ x.data) (h : parent ++ "\\" ++ name = d ++ "\\" ++ x) : name = x := by
  have hdata := congrArg String.data h
  rw [data_path, data_path] at hdata
  exact String.ext (last_component_unique _ _ _ _ hname hx hdata)

/-- C7: for every directory tree in which every directory can be enumerated,
`get_directory_files` returns exactly the paths of the non-directory entries at any depth
below the root, as a well-formed set; and, the tree being a well-formed directory tree, it
returns the path of no directory and no path whose last component is `.` or `..`. -/
theorem scan_returns_exactly_the_files (folder : String) (entries : List DirEntry)
    (hall : AllEnumerable folder entries) :
    (∀ p, p ∈ get_directory_files folder none entries
        ↔ ∃ l ∈ entries_below folder entries, l.path = p ∧ l.isDirectory = false)
    ∧ SetOrdered (get_directory_files folder none entries)
    ∧ (tree_ok entries = true →
        (∀ l ∈ entries_below folder entries, l.isDirectory = true →
            l.path ∉ get_directory_files folder none entries)
        ∧ ∀ p ∈ get_directory_files folder none entries, ∀ d : String,
            p ≠ d ++ "\\" ++ "." ∧ p ≠ d ++ "\\" ++ "..") := by
  have hreach := locate_entries_reachable folder entries hall
  refine ⟨?_, setOrdered_get_directory_files folder none entries, ?_⟩
  · intro p
    rw [mem_get_directory_files]
    constructor
    · rintro ⟨l, hl, h1, h2, _⟩
      exact ⟨l, hl, h1, h2⟩
    · rintro ⟨l, hl, h1, h2⟩
      exact ⟨l, hl, h1, h2, hreach l hl⟩
  · intro hok
    constructor
    · intro l hl hdir hmem
      obtain ⟨l1, hl1, hpath, hfile, _⟩ := (mem_get_directory_files folder entries _).mp hmem
      have := entries_below_path_inj folder entries hok l1 l hl1 hl hpath
      rw [this, hdir] at hfile
      exact Bool.noConfusion hfile
    · intro p hp d
      obtain ⟨l, hl, hpath, _, _⟩ := (mem_get_directory_files folder entries p).mp hp
      obtain ⟨hdot, hslash, parent, hparent⟩ := locate_entries_name folder true entries hok l hl
      rw [← hpath, hparent]
      constructor
      · intro heq
        exact hdot.1 (path_last_component parent d l.name "." hslash (by decide) heq)
      · intro heq
        exact hdot.2 (path_last_component parent d l.name ".." hslash (by decide) heq)

theorem scan_returns_exactly_the_files_witness :
    AllEnumerable "C:\\t" (demo_fs.entries "C:\\t")
    ∧ tree_ok (demo_fs.entries "C:\\t") = true
    ∧ get_directory_files "C:\\t" none (demo_fs.entries "C:\\t")
        = ["C:\\t\\a.txt", "C:\\t\\d\\z.txt"]
    ∧ "C:\\t\\d" ∉ get_directory_files "C:\\t" none (demo_fs.entries "C:\\t") :=
  ⟨by unfold AllEnumerable; decide, by decide, by decide,
   ((scan_returns_exactly_the_files "C:\\t" (demo_fs.entries "C:\\t")
      (by unfold AllEnumerable; decide)).2.2 (by decide)).1
      { path := "C:\\t\\d", name := "d", isDirectory := true, reachable := true,
        enumerable := true } (by decide) rfl⟩

/-- C8: for every directory tree, also one with subdirectories that cannot be enumerated,
`get_directory_files` returns a well-formed set: it holds the path of every file all of
whose directories above it can be enumerated; a record of a directory that cannot be enumerated
adds nothing, whatever the error code, and the records after it are scanned as without it;
and, the tree being a well-formed directory tree, no path beneath a directory that cannot
be enumerated is returned. -/
theorem scan_skips_unreadable_subtrees (folder : String) (entries : List DirEntry) :
    SetOrdered (get_directory_files folder none entries)
    ∧ (∀ l ∈ entries_below folder entries, l.isDirectory = false → l.reachable = true →
        l.path ∈ get_directory_files folder none entries)
    ∧ (∀ (files : StdSet) (before after : List DirEntry) (name : String) (code : Nat)
        (hidden : List DirEntry),
        scan_entries folder files (before ++ .directory name (some code) hidden :: after)
          = scan_entries folder files (before ++ after))
    ∧ (tree_ok entries = true →
        ∀ l ∈ entries_below folder entries, l.reachable = false →
          l.path ∉ get_directory_files folder none entries) := by
  refine ⟨setOrdered_get_directory_files folder none entries, ?_, ?_, ?_⟩
  · intro l hl hfile hreach
    exact (mem_get_directory_files folder entries l.path).mpr ⟨l, hl, rfl, hfile, hreach⟩
  · intro files before after name code hidden
    induction before generalizing files with
    | nil =>
      simp only [List.nil_append, scan_entries, scan_entry, set_insert_range, List.foldl_nil,
        ite_self]
    | cons e rest ih =>
      simp only [List.cons_append, scan_entries]
      exact ih _
  · intro hok l hl hreach hmem
    obtain ⟨l1, hl1, hpath, _, hr1⟩ := (mem_get_directory_files folder entries _).mp hmem
    have := entries_below_path_inj folder entries hok l1 l hl1 hl hpath
    rw [this, hreach] at hr1
    exact Bool.noConfusion hr1

theorem scan_skips_unreadable_subtrees_witness :
    tree_ok demo_entries_locked = true
    ∧ get_directory_files "C:\\t" none demo_entries_locked
        = ["C:\\t\\a.txt", "C:\\t\\d\\z.txt", "C:\\t\\y.txt"]
    ∧ "C:\\t\\locked\\s.txt" ∉ get_directory_files "C:\\t" none demo_entries_locked :=
  ⟨by decide, by decide,
   (scan_skips_unreadable_subtrees "C:\\t" demo_entries_locked).2.2.2 (by decide)
      { path := "C:\\t\\locked\\s.txt", name := "s.txt", isDirectory := false,
        reachable := false, enumerable := true } (by decide) rfl⟩


/-! ## Records of paths that cannot be found -/

/-- C11 (counterexample): `FindFirstFileA` finds `C:\t\a.txt`, and reading its timestamp
throws a `std::exception`. The `catch` block of `get_file_info` answers with
`exists = false`, although the stat succeeded. -/
theorem stat_success_without_exists :
    (get_file_info String.length
        (fun _ => { found := true, timestamp := .error "bad allocation", opens := true })
        "C:\\t\\a.txt")
      = { lastModified := "Error: bad allocation", exists_ := false,
          filename := "C:\\t\\a.txt", hash := "" } := by
  decide

/-- C11 (amended): `get_file_info` returns a record for every path. When the stat fails the
record has `exists = false`, `lastModified = "File not found"` and the empty hash, the same
for every such path. When the stat succeeds and no exception is thrown while the timestamp
is read, the record has `exists = true`. When the stat succeeds and a `std::exception` is
thrown, the record has `exists = false`, `lastModified` the text `Error: ` followed by the
message of the exception, and the empty hash. -/
theorem get_file_info_cases (strHash : String → Nat) (stat : String → StatObs)
    (path : String) :
    ((stat path).found = false →
      get_file_info strHash stat path
        = { lastModified := "File not found", exists_ := false, filename := path,
            hash := "" })
    ∧ ((stat path).found = true → ∀ ts, (stat path).timestamp = .ok ts →
        (get_file_info strHash stat path).exists_ = true
          ∧ (get_file_info strHash stat path).lastModified = ts)
    ∧ ((stat path).found = true → ∀ what, (stat path).timestamp = .error what →
        get_file_info strHash stat path
          = { lastModified := "Error: " ++ what, exists_ := false, filename := path,
              hash := "" }) := by
  refine ⟨?_, ?_, ?_⟩
  · intro h
    simp [get_file_info, h]
  · intro h ts hts
    simp [get_file_info, h, hts]
  · intro h what hts
    simp [get_file_info, h, hts]

theorem get_file_info_cases_witness :
    ((demo_fs_denied.stat "C:\\t\\a.txt").found = false
      ∧ get_file_info String.length demo_fs_denied.stat "C:\\t\\a.txt"
          = { lastModified := "File not found", exists_ := false,
              filename := "C:\\t\\a.txt", hash := "" })
    ∧ ((demo_fs.stat "C:\\t\\a.txt").found = true
      ∧ (demo_fs.stat "C:\\t\\a.txt").timestamp = .ok "2024-01-01 10:00:00"
      ∧ (get_file_info String.length demo_fs.stat "C:\\t\\a.txt").exists_ = true) :=
  ⟨⟨rfl, (get_file_info_cases String.length demo_fs_denied.stat "C:\\t\\a.txt").1 rfl⟩,
   ⟨rfl, rfl,
    ((get_file_info_cases String.length demo_fs.stat "C:\\t\\a.txt").2.1 rfl
      "2024-01-01 10:00:00" rfl).1⟩⟩

/-! ## What the hash comparison adds to the timestamp comparison -/

theorem toDigitsCore_ne_nil (b : Nat) :
    ∀ (fuel n : Nat) (ds : List Char), ds ≠ [] → Nat.toDigitsCore b fuel n ds ≠ []
  | 0, _, ds, h => by simpa [Nat.toDigitsCore] using h
  | fuel + 1, n, ds, _ => by
    simp only [Nat.toDigitsCore]
    split
    · simp
    · exact toDigitsCore_ne_nil b fuel _ _ (by simp)

theorem hex_ne_empty (n : Nat) : hex n ≠ "" := by
  intro h
  have hdata := congrArg String.data h
  simp only [hex, Nat.toDigits, Nat.toDigitsCore] at hdata
  split at hdata
  · simp at hdata
  · exact toDigitsCore_ne_nil 16 n _ _ (by simp) hdata

theorem count_modified_check_path (strHash : String → Nat) (stat : String → StatObs)
    (folder : String) (S1 : Snapshot) (p : String) (r : FileInfo)
    (hr : map_find S1 p = some r) :
    count_alerts .Modified p (check_path strHash stat folder S1 p).1
      = if (get_file_info strHash stat p).lastModified ≠ r.lastModified
            ∨ (get_file_info strHash stat p).hash ≠ r.hash then 1 else 0 := by
  simp only [check_path, hr, count_alerts]
  split <;> simp

/-- C19: for a path `p` of the scanned set whose prior record was returned by
`get_file_info` under an earlier observation `stat0`, prior and fresh record both with
`exists = true`. When the file could be opened in both observations or in neither, a
"File modified" alert is written exactly when `lastModified` differs. When `lastModified`
is equal, an alert is written exactly when the file could be opened in one observation and
not in the other: only there does the hash comparison decide. -/
theorem hash_comparison_decides_only_on_readability (strHash : String → Nat)
    (stat0 stat1 : String → StatObs) (folder : String) (S2 : StdSet) (hS2 : SetOrdered S2)
    (S1 : Snapshot) (p : String) (hp : p ∈ S2)
    (hprior : map_find S1 p = some (get_file_info strHash stat0 p))
    (h0 : (get_file_info strHash stat0 p).exists_ = true)
    (h1 : (get_file_info strHash stat1 p).exists_ = true) :
    ((stat0 p).opens = (stat1 p).opens →
      (count_alerts .Modified p (diff_folder strHash stat1 folder S2 S1).alerts = 1
        ↔ (get_file_info strHash stat1 p).lastModified
            ≠ (get_file_info strHash stat0 p).lastModified))
    ∧ ((get_file_info strHash stat1 p).lastModified
          = (get_file_info strHash stat0 p).lastModified →
      (count_alerts .Modified p (diff_folder strHash stat1 folder S2 S1).alerts = 1
        ↔ (stat0 p).opens ≠ (stat1 p).opens)) := by
  have hcount : count_alerts .Modified p (diff_folder strHash stat1 folder S2 S1).alerts
      = if (get_file_info strHash stat1 p).lastModified
            ≠ (get_file_info strHash stat0 p).lastModified
          ∨ (get_file_info strHash stat1 p).hash ≠ (get_file_info strHash stat0 p).hash
        then 1 else 0 := by
    rw [diff_folder_count_not_deleted strHash stat1 folder S2 hS2 S1 .Modified (by decide) p,
      if_pos hp, count_modified_check_path strHash stat1 folder S1 p _ hprior]
  have hhash0 := get_file_info_hash_of_exists strHash stat0 p h0
  have hhash1 := get_file_info_hash_of_exists strHash stat1 p h1
  constructor
  · intro hopen
    rw [hcount]
    constructor
    · intro hone
      by_contra hts
      have hsame : (get_file_info strHash stat1 p).hash
          = (get_file_info strHash stat0 p).hash := by
        rw [hhash0, hhash1, hts, hopen]
      rw [if_neg (by simp [hts, hsame])] at hone
      exact absurd hone (by decide)
    · intro hts
      rw [if_pos (Or.inl hts)]
  · intro hts
    rw [hcount]
    constructor
    · intro hone hopen
      have hsame : (get_file_info strHash stat1 p).hash
          = (get_file_info strHash stat0 p).hash := by
        rw [hhash0, hhash1, hts, hopen]
      rw [if_neg (by simp [hts, hsame])] at hone
      exact absurd hone (by decide)
    · intro hopen
      have hdiff : (get_file_info strHash stat1 p).hash
          ≠ (get_file_info strHash stat0 p).hash := by
        rw [hhash0, hhash1, hts]
        cases ha : (stat0 p).opens <;> cases hb : (stat1 p).opens
        · exact absurd (ha.trans hb.symm) hopen
        · simpa using hex_ne_empty _
        · simpa using (hex_ne_empty _).symm
        · exact absurd (ha.trans hb.symm) hopen
      rw [if_pos (Or.inr hdiff)]

theorem hash_comparison_decides_only_on_readability_witness :
    SetOrdered ["C:\\t\\a.txt"]
    ∧ (get_file_info String.length demo_fs.stat "C:\\t\\a.txt").exists_ = true
    ∧ (get_file_info String.length
        (fun _ => { found := true, timestamp := .ok "2024-01-01 10:00:00", opens := false })
        "C:\\t\\a.txt").exists_ = true
    ∧ count_alerts .Modified "C:\\t\\a.txt"
        (diff_folder String.length
          (fun _ => { found := true, timestamp := .ok "2024-01-01 10:00:00", opens := false })
          "C:\\t" ["C:\\t\\a.txt"]
          [("C:\\t\\a.txt", get_file_info String.length demo_fs.stat "C:\\t\\a.txt")]).alerts
        = 1 :=
  ⟨by unfold SetOrdered; decide, by decide, by decide,
   ((hash_comparison_decides_only_on_readability String.length demo_fs.stat
      (fun _ => { found := true, timestamp := .ok "2024-01-01 10:00:00", opens := false })
      "C:\\t" ["C:\\t\\a.txt"] (by unfold SetOrdered; decide)
      [("C:\\t\\a.txt", get_file_info String.length demo_fs.stat "C:\\t\\a.txt")]
      "C:\\t\\a.txt" (by decide) (by decide) (by decide) (by decide)).2 (by decide)).mpr
      (by decide)⟩


/-! ## Start-up discovery -/

theorem probe_and_add_folders (obs : StartupObs) (path description : String) (warns : Bool)
    (d : Discovery) :
    (probe_and_add obs path description warns d).folders
      = d.folders ++ (if is_folder_accessible obs path = true
          then [{ path := path, description := description, isActive := true }] else []) := by
  unfold probe_and_add
  split <;> simp

theorem system_warnings_append_debug (obs : StartupObs) (path : String)
    (console : List ConsoleLine) :
    (console ++ is_folder_accessible_lines obs path).filter (fun line =>
        match line with
        | .warning description _ => decide (description = "System")
        | _ => false)
      = console.filter (fun line =>
        match line with
        | .warning description _ => decide (description = "System")
        | _ => false) := by
  unfold is_folder_accessible_lines
  split <;> simp

theorem probe_and_add_system_warnings (obs : StartupObs) (path description : String)
    (warns : Bool) (d : Discovery) :
    system_warnings (probe_and_add obs path description warns d)
      = system_warnings d
        ++ (if is_folder_accessible obs path = false ∧ warns = true ∧ description = "System"
            then [.warning description path] else []) := by
  unfold probe_and_add system_warnings
  by_cases hacc : is_folder_accessible obs path = true
  · rw [if_pos hacc]
    simp only [List.filter_append, system_warnings_append_debug]
    rw [← List.filter_append, system_warnings_append_debug]
    simp [hacc]
  · rw [if_neg hacc]
    simp only [List.filter_append]
    rw [← List.filter_append, system_warnings_append_debug]
    have hfalse : is_folder_accessible obs path = false := by simpa using hacc
    cases warns
    · simp [hfalse]
    · by_cases hd : description = "System"
      · simp [hfalse, hd]
      · simp [hfalse, hd]

theorem fold_system_folders (obs : StartupObs) (l : List String) (d : Discovery) :
    (l.foldl (fun d folder => probe_and_add obs folder "System" true d) d).folders
        = d.folders ++ (l.filter (fun p => is_folder_accessible obs p)).map
            (fun p => { path := p, description := "System", isActive := true })
    ∧ system_warnings (l.foldl (fun d folder => probe_and_add obs folder "System" true d) d)
        = system_warnings d ++ (l.filter (fun p => !is_folder_accessible obs p)).map
            (fun p => ConsoleLine.warning "System" p) := by
  induction l generalizing d with
  | nil => simp
  | cons a rest ih =>
    simp only [List.foldl_cons]
    obtain ⟨h1, h2⟩ := ih (probe_and_add obs a "System" true d)
    rw [h1, h2, probe_and_add_folders, probe_and_add_system_warnings]
    by_cases hacc : is_folder_accessible obs a = true
    · simp [hacc, List.filter_cons]
    · have hfalse : is_folder_accessible obs a = false := by simpa using hacc
      simp [hfalse, List.filter_cons]

theorem get_user_folders_spec (obs : StartupObs) :
    (∀ t ∈ (get_user_folders obs).folders,
        is_folder_accessible obs t.path = true ∧ t.isActive = true
          ∧ t.description ≠ "System")
    ∧ system_warnings (get_user_folders obs) = [] := by
  have hstep : ∀ (path description : String) (warns : Bool) (d : Discovery),
      description ≠ "System" →
      ((∀ t ∈ d.folders, is_folder_accessible obs t.path = true ∧ t.isActive = true
          ∧ t.description ≠ "System") ∧ system_warnings d = []) →
      ((∀ t ∈ (probe_and_add obs path description warns d).folders,
          is_folder_accessible obs t.path = true ∧ t.isActive = true
            ∧ t.description ≠ "System")
        ∧ system_warnings (probe_and_add obs path description warns d) = []) := by
    intro path description warns d hdesc hd
    constructor
    · intro t ht
      rw [probe_and_add_folders, List.mem_append] at ht
      rcases ht with ht | ht
      · exact hd.1 t ht
      · by_cases hacc : is_folder_accessible obs path = true
        · rw [if_pos hacc, List.mem_singleton] at ht
          rw [ht]
          exact ⟨hacc, rfl, hdesc⟩
        · rw [if_neg hacc] at ht
          simp at ht
    · rw [probe_and_add_system_warnings, hd.2]
      simp [hdesc]
  have h0 : (∀ t ∈ ({ folders := [], console := [] } : Discovery).folders,
      is_folder_accessible obs t.path = true ∧ t.isActive = true
        ∧ t.description ≠ "System")
      ∧ system_warnings ({ folders := [], console := [] } : Discovery) = [] := by
    simp [system_warnings]
  unfold get_user_folders
  cases obs.desktop <;> cases obs.documents <;> cases obs.profile <;>
    simp only <;>
    first
      | exact h0
      | exact hstep _ _ _ _ (by decide) h0
      | exact hstep _ _ _ _ (by decide) (hstep _ _ _ _ (by decide) h0)
      | exact hstep _ _ _ _ (by decide)
          (hstep _ _ _ _ (by decide) (hstep _ _ _ _ (by decide) h0))


theorem filter_length_split (obs : StartupObs) (l : List String) :
    (l.filter (fun p => is_folder_accessible obs p)).length
      + (l.filter (fun p => !is_folder_accessible obs p)).length = l.length := by
  induction l with
  | nil => rfl
  | cons a rest ih =>
    cases h : is_folder_accessible obs a <;> simp [List.filter_cons, h] <;> omega

/-- C16: for every outcome of the probes, every folder returned by `get_system_folders`
passed `is_folder_accessible` and is active; the folders with the description `System` are
exactly the configured system paths that pass the probe, in the configured order and each
once; and when exactly one of the five configured system paths fails the probe, four
`System` folders are returned and exactly one warning about a system folder is written. -/
theorem discovery_keeps_accessible_folders (obs : StartupObs) :
    (∀ t ∈ (get_system_folders obs).folders,
        is_folder_accessible obs t.path = true ∧ t.isActive = true)
    ∧ (system_targets (get_system_folders obs)).map MonitorFolder.path
        = system_folders.filter (fun p => is_folder_accessible obs p)
    ∧ ((system_targets (get_system_folders obs)).map MonitorFolder.path).Nodup
    ∧ ((system_folders.filter (fun p => !is_folder_accessible obs p)).length = 1 →
        (system_targets (get_system_folders obs)).length = 4
          ∧ (system_warnings (get_system_folders obs)).length = 1) := by
  obtain ⟨huser, hwarn⟩ := get_user_folders_spec obs
  obtain ⟨hfold, hfoldw⟩ := fold_system_folders obs system_folders (get_user_folders obs)
  have htargets : (system_targets (get_system_folders obs)).map MonitorFolder.path
      = system_folders.filter (fun p => is_folder_accessible obs p) := by
    unfold system_targets get_system_folders
    rw [hfold, List.filter_append]
    have h1 : (get_user_folders obs).folders.filter
        (fun t => decide (t.description = "System")) = [] := by
      rw [List.filter_eq_nil_iff]
      intro t ht
      simpa using (huser t ht).2.2
    rw [h1, List.nil_append, List.filter_map]
    simp [Function.comp_def]
  refine ⟨?_, htargets, ?_, ?_⟩
  · intro t ht
    unfold get_system_folders at ht
    rw [hfold, List.mem_append] at ht
    rcases ht with ht | ht
    · exact ⟨(huser t ht).1, (huser t ht).2.1⟩
    · obtain ⟨p, hp, rfl⟩ := List.mem_map.mp ht
      exact ⟨by simpa using (List.mem_filter.mp hp).2, rfl⟩
  · rw [htargets]
    exact List.Nodup.filter _ (by decide)
  · intro hone
    have hsplit := filter_length_split obs system_folders
    have hlen : system_folders.length = 5 := rfl
    constructor
    · have := congrArg List.length htargets
      rw [List.length_map] at this
      omega
    · unfold get_system_folders
      rw [hfoldw, hwarn, List.nil_append, List.length_map]
      exact hone

theorem discovery_keeps_accessible_folders_witness :
    (system_folders.filter (fun p => !is_folder_accessible demo_startup p)).length = 1
    ∧ (system_targets (get_system_folders demo_startup)).length = 4
    ∧ system_warnings (get_system_folders demo_startup)
        = [.warning "System" "C:\\Windows\\System"] :=
  ⟨by decide,
   ((discovery_keeps_accessible_folders demo_startup).2.2.2 (by decide)).1,
   by decide⟩


/-! ## The watchers started at start-up -/

theorem start_value_watchers_threads (reg : Registry) (m : RegistryMonitor)
    (values : List String) (s : RegistryStartup) :
    (start_value_watchers reg m values s).registry_threads
      = s.registry_threads
        ++ values.map (fun v => { root := m.root, subKey := m.subkey, valueName := v }) := by
  induction values generalizing s with
  | nil => simp [start_value_watchers]
  | cons v rest ih => simp [start_value_watchers, ih]

theorem start_value_watchers_keys (reg : Registry) (m : RegistryMonitor)
    (values : List String) (s : RegistryStartup) (k : String) :
    k ∈ map_keys (start_value_watchers reg m values s).previousRegistryStates
      ↔ k ∈ map_keys s.previousRegistryStates ∨ (k = m.subkey ∧ values ≠ []) := by
  induction values generalizing s with
  | nil => simp [start_value_watchers]
  | cons v rest ih =>
    simp only [start_value_watchers, ih, mem_map_keys_assign]
    constructor
    · rintro ((h | h) | h)
      · exact Or.inr ⟨h, by simp⟩
      · exact Or.inl h
      · exact Or.inr ⟨h.1, by simp⟩
    · rintro (h | h)
      · exact Or.inl (Or.inr h)
      · exact Or.inl (Or.inl h.1)

theorem watcher_triples_cons (m : RegistryMonitor) (rest : List RegistryMonitor) :
    watcher_triples (m :: rest)
      = (if m.isActive = true
          then m.values.map (fun v => { root := m.root, subKey := m.subkey, valueName := v })
          else [])
        ++ watcher_triples rest := by
  unfold watcher_triples
  by_cases h : m.isActive = true
  · simp [List.filter_cons, h]
  · simp [List.filter_cons, h]

theorem start_registry_monitoring_threads (reg : Registry) (monitors : List RegistryMonitor)
    (s : RegistryStartup) :
    (start_registry_monitoring reg monitors s).registry_threads
      = s.registry_threads ++ watcher_triples monitors := by
  induction monitors generalizing s with
  | nil => simp [start_registry_monitoring, watcher_triples]
  | cons m rest ih =>
    simp only [start_registry_monitoring, watcher_triples_cons]
    by_cases h : m.isActive = true
    · rw [if_pos h, if_pos h, ih, start_value_watchers_threads, List.append_assoc]
    · rw [if_neg h, if_neg h, ih, List.nil_append]

theorem start_registry_monitoring_keys (reg : Registry) (monitors : List RegistryMonitor)
    (s : RegistryStartup) (k : String) :
    k ∈ map_keys (start_registry_monitoring reg monitors s).previousRegistryStates
      ↔ k ∈ map_keys s.previousRegistryStates
        ∨ ∃ m ∈ monitors, m.isActive = true ∧ m.subkey = k ∧ m.values ≠ [] := by
  induction monitors generalizing s with
  | nil => simp [start_registry_monitoring]
  | cons m rest ih =>
    simp only [start_registry_monitoring]
    by_cases h : m.isActive = true
    · rw [if_pos h, ih, start_value_watchers_keys]
      constructor
      · rintro ((h1 | h1) | ⟨m1, hm1, h1⟩)
        · exact Or.inl h1
        · exact Or.inr ⟨m, List.mem_cons_self _ _, h, h1.1.symm, h1.2⟩
        · exact Or.inr ⟨m1, List.mem_cons_of_mem _ hm1, h1⟩
      · rintro (h1 | ⟨m1, hm1, h1⟩)
        · exact Or.inl (Or.inl h1)
        · rcases List.mem_cons.mp hm1 with rfl | hm1
          · exact Or.inl (Or.inr ⟨h1.2.1.symm, h1.2.2⟩)
          · exact Or.inr ⟨m1, hm1, h1⟩
    · rw [if_neg h, ih]
      constructor
      · rintro (h1 | ⟨m1, hm1, h1⟩)
        · exact Or.inl h1
        · exact Or.inr ⟨m1, List.mem_cons_of_mem _ hm1, h1⟩
      · rintro (h1 | ⟨m1, hm1, h1⟩)
        · exact Or.inl h1
        · rcases List.mem_cons.mp hm1 with rfl | hm1
          · exact absurd h1.1 h
          · exact Or.inr ⟨m1, hm1, h1⟩

theorem watcher_triples_length (monitors : List RegistryMonitor) :
    (watcher_triples monitors).length
      = ((monitors.filter (fun m => m.isActive)).map (fun m => m.values.length)).sum := by
  induction monitors with
  | nil => rfl
  | cons m rest ih =>
    rw [watcher_triples_cons, List.length_append, ih]
    by_cases h : m.isActive = true
    · simp [List.filter_cons, h]
    · simp [List.filter_cons, h]

/-- C18: for every list of registry targets, start-up starts the watchers of the active
targets, one per target and configured value, in order, so their number is the sum of the
sizes of the value lists of the active targets. For the targets of `get_registry_monitors`
these are six watchers, no two for the same (root, subkey, value) triple, and a target
without values (the `Run` and `RunOnce` keys) gets no watcher and no entry in
`previousRegistryStates`. -/
theorem one_watcher_per_configured_value (reg : Registry) :
    (∀ monitors : List RegistryMonitor,
      (start_registry_monitoring reg monitors
          { previousRegistryStates := [], registry_threads := [] }).registry_threads
        = watcher_triples monitors
      ∧ (start_registry_monitoring reg monitors
          { previousRegistryStates := [], registry_threads := [] }).registry_threads.length
        = ((monitors.filter (fun m => m.isActive)).map (fun m => m.values.length)).sum)
    ∧ (start_registry_monitoring reg get_registry_monitors
          { previousRegistryStates := [], registry_threads := [] }).registry_threads.length = 6
    ∧ (start_registry_monitoring reg get_registry_monitors
          { previousRegistryStates := [], registry_threads := [] }).registry_threads.Nodup
    ∧ ∀ m ∈ get_registry_monitors, m.values = [] →
        map_find (start_registry_monitoring reg get_registry_monitors
          { previousRegistryStates := [], registry_threads := [] }).previousRegistryStates
          m.subkey = none
        ∧ ∀ t ∈ (start_registry_monitoring reg get_registry_monitors
            { previousRegistryStates := [], registry_threads := [] }).registry_threads,
            t.subKey ≠ m.subkey := by
  have hthreads : ∀ monitors : List RegistryMonitor,
      (start_registry_monitoring reg monitors
          { previousRegistryStates := [], registry_threads := [] }).registry_threads
        = watcher_triples monitors := by
    intro monitors
    rw [start_registry_monitoring_threads, List.nil_append]
  refine ⟨fun monitors => ⟨hthreads monitors, ?_⟩, ?_, ?_, ?_⟩
  · rw [hthreads, watcher_triples_length]
  · rw [hthreads]
    decide
  · rw [hthreads]
    decide
  · intro m hm hvalues
    constructor
    · rw [map_find_eq_none, start_registry_monitoring_keys]
      rintro (h | ⟨m1, hm1, _, hsub, hne⟩)
      · simp [map_keys] at h
      · revert m1 m
        decide
    · rw [hthreads]
      revert m
      decide

theorem one_watcher_per_configured_value_witness :
    ({ root := .HKEY_LOCAL_MACHINE,
       subkey := "SOFTWARE\\Microsoft\\Windows\\CurrentVersion\\Run", values := [],
       isActive := true } : RegistryMonitor) ∈ get_registry_monitors
    ∧ map_find (start_registry_monitoring demo_registry get_registry_monitors
        { previousRegistryStates := [], registry_threads := [] }).previousRegistryStates
        "SOFTWARE\\Microsoft\\Windows\\CurrentVersion\\Run" = none :=
  ⟨by decide,
   ((one_watcher_per_configured_value demo_registry).2.2.2
      { root := .HKEY_LOCAL_MACHINE,
        subkey := "SOFTWARE\\Microsoft\\Windows\\CurrentVersion\\Run", values := [],
        isActive := true } (by decide) rfl).1⟩


/-! ## Runs of the key watcher -/

theorem watcher_loop_succ (env : WatcherEnv) (args : WatcherArgs) (fuel i : Nat) :
    watcher_loop env args (fuel + 1) i
      = if env.active i = true then
          if env.notify_result i ≠ 0 then
            ([.notify i (env.notify_result i), .log (.notify_failed (env.notify_result i))],
              true)
          else
            (watcher_iteration env args i ++ (watcher_loop env args fuel (i + 1)).1,
              (watcher_loop env args fuel (i + 1)).2)
        else ([], true) := rfl

theorem waits_from_iteration (env : WatcherEnv) (args : WatcherArgs) (i j : Nat) :
    waits_from j (watcher_iteration env args i) = if j ≤ i then 1 else 0 := by
  unfold waits_from watcher_iteration
  by_cases hw : env.wait_result i = WAIT_OBJECT_0 <;> by_cases hj : j ≤ i <;>
    simp [hw, hj, List.countP_cons]

theorem alert_calls_iteration (env : WatcherEnv) (args : WatcherArgs) (i : Nat) :
    alert_calls (watcher_iteration env args i) = 0 := by
  unfold alert_calls watcher_iteration
  by_cases hw : env.wait_result i = WAIT_OBJECT_0 <;> simp [hw, List.countP_cons]

theorem signaled_waits_iteration (env : WatcherEnv) (args : WatcherArgs) (i : Nat) :
    signaled_waits (watcher_iteration env args i)
      = if env.wait_result i = WAIT_OBJECT_0 then 1 else 0 := by
  unfold signaled_waits watcher_iteration
  by_cases hw : env.wait_result i = WAIT_OBJECT_0 <;> simp [hw, List.countP_cons]

theorem change_records_iteration (env : WatcherEnv) (args : WatcherArgs) (i : Nat) :
    change_records (watcher_iteration env args i)
      = if env.wait_result i = WAIT_OBJECT_0 then 1 else 0 := by
  unfold change_records watcher_iteration
  by_cases hw : env.wait_result i = WAIT_OBJECT_0 <;> simp [hw, List.countP_cons]

theorem watcher_loop_returns (env : WatcherEnv) (args : WatcherArgs) (c : Nat)
    (hc : env.active c = false) :
    ∀ (fuel i : Nat), i ≤ c → c < i + fuel → (watcher_loop env args fuel i).2 = true
  | 0, i, h1, h2 => by omega
  | fuel + 1, i, h1, h2 => by
    rw [watcher_loop_succ]
    by_cases hact : env.active i = true
    · rw [if_pos hact]
      by_cases hn : env.notify_result i ≠ 0
      · rw [if_pos hn]
      · rw [if_neg hn]
        have hne : i ≠ c := by
          intro h
          rw [h, hc] at hact
          exact Bool.noConfusion hact
        exact watcher_loop_returns env args c hc fuel (i + 1) (by omega) (by omega)
    · rw [if_neg hact]

theorem watcher_loop_waits (env : WatcherEnv) (args : WatcherArgs) (c : Nat)
    (hc : env.active c = false) :
    ∀ (fuel i : Nat), i ≤ c →
      (∀ k w, WatcherEvent.wait k w ∈ (watcher_loop env args fuel i).1 → k < c)
      ∧ ∀ j, waits_from j (watcher_loop env args fuel i).1 ≤ c - max i j
  | 0, i, _ => by
    constructor
    · intro k w h
      simp [watcher_loop] at h
    · intro j
      simp [watcher_loop, waits_from]
  | fuel + 1, i, h1 => by
    rw [watcher_loop_succ]
    by_cases hact : env.active i = true
    · rw [if_pos hact]
      have hne : i ≠ c := by
        intro h
        rw [h, hc] at hact
        exact Bool.noConfusion hact
      by_cases hn : env.notify_result i ≠ 0
      · rw [if_pos hn]
        constructor
        · intro k w h
          simp at h
        · intro j
          simp [waits_from, List.countP_cons]
      · rw [if_neg hn]
        obtain ⟨ih1, ih2⟩ := watcher_loop_waits env args c hc fuel (i + 1) (by omega)
        constructor
        · intro k w h
          rcases List.mem_append.mp h with h | h
          · have hk : k = i := by
              unfold watcher_iteration at h
              by_cases hw : env.wait_result i = WAIT_OBJECT_0 <;> simp [hw] at h <;>
                exact h.1
            omega
          · exact ih1 k w h
        · intro j
          have hsplit : waits_from j
              (watcher_iteration env args i ++ (watcher_loop env args fuel (i + 1)).1)
              = waits_from j (watcher_iteration env args i)
                + waits_from j (watcher_loop env args fuel (i + 1)).1 := by
            simp [waits_from, List.countP_append]
          rw [hsplit, waits_from_iteration]
          have := ih2 j
          by_cases hj : j ≤ i
          · rw [if_pos hj]
            omega
          · rw [if_neg hj]
            omega
    · rw [if_neg hact]
      constructor
      · intro k w h
        simp at h
      · intro j
        simp [waits_from]

theorem watcher_loop_counts (env : WatcherEnv) (args : WatcherArgs) :
    ∀ (fuel i : Nat),
      alert_calls (watcher_loop env args fuel i).1 = 0
      ∧ change_records (watcher_loop env args fuel i).1
          = signaled_waits (watcher_loop env args fuel i).1
  | 0, i => by simp [watcher_loop, alert_calls, change_records, signaled_waits]
  | fuel + 1, i => by
    rw [watcher_loop_succ]
    by_cases hact : env.active i = true
    · rw [if_pos hact]
      by_cases hn : env.notify_result i ≠ 0
      · rw [if_pos hn]
        simp [alert_calls, change_records, signaled_waits, List.countP_cons]
      · rw [if_neg hn]
        obtain ⟨ih1, ih2⟩ := watcher_loop_counts env args fuel (i + 1)
        have h1 : alert_calls
            (watcher_iteration env args i ++ (watcher_loop env args fuel (i + 1)).1)
            = alert_calls (watcher_iteration env args i)
              + alert_calls (watcher_loop env args fuel (i + 1)).1 := by
          simp [alert_calls, List.countP_append]
        have h2 : change_records
            (watcher_iteration env args i ++ (watcher_loop env args fuel (i + 1)).1)
            = change_records (watcher_iteration env args i)
              + change_records (watcher_loop env args fuel (i + 1)).1 := by
          simp [change_records, List.countP_append]
        have h3 : signaled_waits
            (watcher_iteration env args i ++ (watcher_loop env args fuel (i + 1)).1)
            = signaled_waits (watcher_iteration env args i)
              + signaled_waits (watcher_loop env args fuel (i + 1)).1 := by
          simp [signaled_waits, List.countP_append]
        constructor
        · rw [h1, alert_calls_iteration, ih1]
        · rw [h2, h3, change_records_iteration, signaled_waits_iteration, ih2]
    · rw [if_neg hact]
      simp [alert_calls, change_records, signaled_waits]

theorem watcher_loop_idle (env : WatcherEnv) (args : WatcherArgs)
    (hidle : ∀ i, env.wait_result i ≠ WAIT_OBJECT_0) :
    ∀ (fuel i : Nat), signaled_waits (watcher_loop env args fuel i).1 = 0
  | 0, i => by simp [watcher_loop, signaled_waits]
  | fuel + 1, i => by
    rw [watcher_loop_succ]
    by_cases hact : env.active i = true
    · rw [if_pos hact]
      by_cases hn : env.notify_result i ≠ 0
      · rw [if_pos hn]
        simp [signaled_waits, List.countP_cons]
      · rw [if_neg hn]
        have h3 : signaled_waits
            (watcher_iteration env args i ++ (watcher_loop env args fuel (i + 1)).1)
            = signaled_waits (watcher_iteration env args i)
              + signaled_waits (watcher_loop env args fuel (i + 1)).1 := by
          simp [signaled_waits, List.countP_append]
        rw [h3, signaled_waits_iteration, if_neg (hidle i),
          watcher_loop_idle env args hidle fuel (i + 1)]
    · rw [if_neg hact]
      simp [signaled_waits]

theorem monitor_counts (env : WatcherEnv) (args : WatcherArgs) (fuel : Nat) :
    alert_calls (monitor_registry_changes env args fuel).events = 0
    ∧ change_records (monitor_registry_changes env args fuel).events
        = signaled_waits (monitor_registry_changes env args fuel).events := by
  unfold monitor_registry_changes
  by_cases hopen : env.open_result ≠ 0
  · rw [if_pos hopen]
    simp [alert_calls, change_records, signaled_waits, List.countP_cons]
  · rw [if_neg hopen]
    by_cases hev : env.event_created = false
    · rw [if_pos hev]
      simp [alert_calls, change_records, signaled_waits, List.countP_cons]
    · rw [if_neg hev]
      obtain ⟨h1, h2⟩ := watcher_loop_counts env args fuel 0
      simp only [alert_calls, change_records, signaled_waits, List.countP_append] at h1 h2 ⊢
      cases (watcher_loop env args fuel 0).2 <;>
        simp [List.countP_cons, h1, h2]


/-- C12: for every run of `monitor_registry_changes`. (a) When no wait returns signaled,
the run writes no change line and calls no alert. (b) When the key was opened and the event
created and `c` is the first loop iteration at whose head the flag `g_monitoring_active` is
read as cleared, a run of more than `c` iterations has returned, its last two events are
the release of the event handle and of the key handle, every wait it performed belongs to
an iteration before `c`, and at most one wait belongs to iteration `c - 1` or later: the
waits of the earlier iterations had returned before the head of iteration `c - 1`, where
the flag was still set. -/
theorem idle_watcher_is_silent_and_stops (env : WatcherEnv) (args : WatcherArgs) :
    (∀ fuel, (∀ i, env.wait_result i ≠ WAIT_OBJECT_0) →
      change_records (monitor_registry_changes env args fuel).events = 0
        ∧ alert_calls (monitor_registry_changes env args fuel).events = 0)
    ∧ (∀ c fuel, env.open_result = 0 → env.event_created = true →
        (∀ i, i < c → env.active i = true) → env.active c = false → c < fuel →
        (monitor_registry_changes env args fuel).returned = true
        ∧ (∃ before, (monitor_registry_changes env args fuel).events
            = before ++ [.close_event, .close_key])
        ∧ (∀ k w, WatcherEvent.wait k w ∈ (monitor_registry_changes env args fuel).events →
            k < c)
        ∧ waits_from (c - 1) (monitor_registry_changes env args fuel).events ≤ 1) := by
  constructor
  · intro fuel hidle
    obtain ⟨h1, h2⟩ := monitor_counts env args fuel
    refine ⟨?_, h1⟩
    rw [h2]
    unfold monitor_registry_changes
    by_cases hopen : env.open_result ≠ 0
    · rw [if_pos hopen]
      simp [signaled_waits, List.countP_cons]
    · rw [if_neg hopen]
      by_cases hev : env.event_created = false
      · rw [if_pos hev]
        simp [signaled_waits, List.countP_cons]
      · rw [if_neg hev]
        have := watcher_loop_idle env args hidle fuel 0
        simp only [signaled_waits, List.countP_append] at this ⊢
        cases (watcher_loop env args fuel 0).2 <;> simp [List.countP_cons, this]
  · intro c fuel hopen hev _ hc hfuel
    have hret := watcher_loop_returns env args c hc fuel 0 (Nat.zero_le c) (by omega)
    obtain ⟨hw1, hw2⟩ := watcher_loop_waits env args c hc fuel 0 (Nat.zero_le c)
    have hrun : monitor_registry_changes env args fuel
        = { events := (watcher_loop env args fuel 0).1 ++ [.close_event, .close_key]
            returned := true } := by
      unfold monitor_registry_changes
      rw [if_neg (by simp [hopen]), if_neg (by simp [hev])]
      simp only [hret, if_true]
    rw [hrun]
    refine ⟨rfl, ⟨_, rfl⟩, ?_, ?_⟩
    · intro k w h
      rcases List.mem_append.mp h with h | h
      · exact hw1 k w h
      · simp at h
    · have hsplit : waits_from (c - 1)
          ((watcher_loop env args fuel 0).1 ++ [.close_event, .close_key])
          = waits_from (c - 1) (watcher_loop env args fuel 0).1 := by
        simp [waits_from, List.countP_append, List.countP_cons]
      simp only [hsplit]
      have := hw2 (c - 1)
      omega

theorem idle_watcher_is_silent_and_stops_witness :
    ((∀ i, demo_watcher_idle.wait_result i ≠ WAIT_OBJECT_0)
      ∧ change_records
          (monitor_registry_changes demo_watcher_idle demo_watcher_args 5).events = 0)
    ∧ (demo_watcher_idle.open_result = 0 ∧ demo_watcher_idle.event_created = true
      ∧ (∀ i, i < 2 → demo_watcher_idle.active i = true)
      ∧ demo_watcher_idle.active 2 = false
      ∧ (monitor_registry_changes demo_watcher_idle demo_watcher_args 5).returned = true
      ∧ waits_from 1 (monitor_registry_changes demo_watcher_idle demo_watcher_args 5).events
          ≤ 1)
    ∧ monitor_registry_changes demo_watcher_idle demo_watcher_args 5
        = { events := [.notify 0 0, .wait 0 258, .notify 1 0, .wait 1 258, .close_event,
                       .close_key]
            returned := true } :=
  ⟨⟨fun _ => by simp [demo_watcher_idle, WAIT_OBJECT_0],
    ((idle_watcher_is_silent_and_stops demo_watcher_idle demo_watcher_args).1 5
      (fun _ => by simp [demo_watcher_idle, WAIT_OBJECT_0])).1⟩,
   ⟨rfl, rfl, fun i hi => by simp [demo_watcher_idle, hi], by decide,
    ((idle_watcher_is_silent_and_stops demo_watcher_idle demo_watcher_args).2 2 5 rfl rfl
      (fun i hi => by simp [demo_watcher_idle, hi]) (by decide) (by decide)).1,
    ((idle_watcher_is_silent_and_stops demo_watcher_idle demo_watcher_args).2 2 5 rfl rfl
      (fun i hi => by simp [demo_watcher_idle, hi]) (by decide) (by decide)).2.2.2⟩,
   by decide⟩

/-- C13 (counterexample): a run with exactly one signaled wait. The watcher writes one
change line to the log file and makes no call of `show_alert`: the number of events handed
to the alert dispatcher is zero, not the number of signaled waits. -/
theorem signaled_wait_reaches_no_dispatcher :
    signaled_waits (monitor_registry_changes demo_watcher demo_watcher_args 5).events = 1
    ∧ alert_calls (monitor_registry_changes demo_watcher demo_watcher_args 5).events = 0
    ∧ alert_calls (monitor_registry_changes demo_watcher demo_watcher_args 5).events
        ≠ signaled_waits (monitor_registry_changes demo_watcher demo_watcher_args 5).events := by
  refine ⟨?_, ?_, ?_⟩ <;> decide


theorem watcher_loop_split (env : WatcherEnv) (args : WatcherArgs) :
    ∀ (fuel i0 i w : Nat), WatcherEvent.wait i w ∈ (watcher_loop env args fuel i0).1 →
      w = env.wait_result i
      ∧ ∃ before fuel1, (watcher_loop env args fuel i0).1
            = before ++ watcher_iteration env args i
                ++ (watcher_loop env args fuel1 (i + 1)).1
          ∧ (watcher_loop env args fuel i0).2 = (watcher_loop env args fuel1 (i + 1)).2
  | 0, i0, i, w, h => by simp [watcher_loop] at h
  | fuel + 1, i0, i, w, h => by
    rw [watcher_loop_succ] at h ⊢
    by_cases hact : env.active i0 = true
    · rw [if_pos hact] at h ⊢
      by_cases hn : env.notify_result i0 ≠ 0
      · rw [if_pos hn] at h
        simp at h
      · rw [if_neg hn] at h ⊢
        rcases List.mem_append.mp h with h | h
        · have hk : i = i0 ∧ w = env.wait_result i0 := by
            unfold watcher_iteration at h
            by_cases hw : env.wait_result i0 = WAIT_OBJECT_0
            · rw [if_pos hw] at h
              simp at h
              exact h
            · rw [if_neg hw] at h
              simp at h
              exact h
          obtain ⟨rfl, rfl⟩ := hk
          exact ⟨rfl, [], fuel, by simp, rfl⟩
        · obtain ⟨hw, before, fuel1, h1, h2⟩ := watcher_loop_split env args fuel (i0 + 1) i w h
          refine ⟨hw, watcher_iteration env args i0 ++ before, fuel1, ?_, h2⟩
          simp only [h1, List.append_assoc]
    · rw [if_neg hact] at h
      simp at h

theorem watcher_loop_head (env : WatcherEnv) (args : WatcherArgs) (fuel i : Nat) :
    (watcher_loop env args fuel i = ([], false))
    ∨ (watcher_loop env args fuel i = ([], true))
    ∨ ∃ rest, (watcher_loop env args fuel i).1
        = .notify i (env.notify_result i) :: rest := by
  cases fuel with
  | zero => exact Or.inl rfl
  | succ fuel =>
    rw [watcher_loop_succ]
    by_cases hact : env.active i = true
    · rw [if_pos hact]
      by_cases hn : env.notify_result i ≠ 0
      · rw [if_pos hn]
        exact Or.inr (Or.inr ⟨_, rfl⟩)
      · rw [if_neg hn]
        have hzero : env.notify_result i = 0 := by simpa using hn
        refine Or.inr (Or.inr
          ⟨(.wait i (env.wait_result i) :: (watcher_iteration env args i).drop 2)
            ++ (watcher_loop env args fuel (i + 1)).1, ?_⟩)
        simp [watcher_iteration, hzero]
    · rw [if_neg hact]
      exact Or.inr (Or.inl rfl)

/-- C13 (amended): for every run of `monitor_registry_changes`, each wait that returns
signaled is followed at once by the re-read of the watched value, by exactly one change
line with the re-read value written to the log file, and by the reset of the wait handle;
after that the watcher goes back to the head of its loop, so that the next event, if the
run has one, is the next request for a notification or, the flag being cleared, the release
of the handles. The number of change lines in the log equals the number of signaled waits,
and the watcher hands nothing to the alert dispatcher: it never calls `show_alert`. -/
theorem signaled_wait_writes_one_change_line (env : WatcherEnv) (args : WatcherArgs)
    (fuel : Nat) :
    alert_calls (monitor_registry_changes env args fuel).events = 0
    ∧ change_records (monitor_registry_changes env args fuel).events
        = signaled_waits (monitor_registry_changes env args fuel).events
    ∧ ∀ i, WatcherEvent.wait i WAIT_OBJECT_0 ∈ (monitor_registry_changes env args fuel).events →
        ∃ before after, (monitor_registry_changes env args fuel).events
            = before
              ++ [.wait i WAIT_OBJECT_0,
                  .read (read_registry_value
                    (env.registry i args.root args.subKey args.valueName)),
                  .log (.change_detected args.subKey args.valueName
                    (read_registry_value
                      (env.registry i args.root args.subKey args.valueName))),
                  .reset_event]
              ++ after
          ∧ (after = [] ∨ after = [.close_event, .close_key]
              ∨ ∃ rest, after = .notify (i + 1) (env.notify_result (i + 1)) :: rest) := by
  obtain ⟨h1, h2⟩ := monitor_counts env args fuel
  refine ⟨h1, h2, ?_⟩
  intro i hmem
  unfold monitor_registry_changes at hmem ⊢
  by_cases hopen : env.open_result ≠ 0
  · rw [if_pos hopen] at hmem
    simp at hmem
  · rw [if_neg hopen] at hmem ⊢
    by_cases hev : env.event_created = false
    · rw [if_pos hev] at hmem
      simp at hmem
    · rw [if_neg hev] at hmem ⊢
      simp only at hmem ⊢
      have hloop : WatcherEvent.wait i WAIT_OBJECT_0 ∈ (watcher_loop env args fuel 0).1 := by
        rcases List.mem_append.mp hmem with h | h
        · exact h
        · split at h <;> simp at h
      obtain ⟨hw, before, fuel1, hsplit, hret⟩ :=
        watcher_loop_split env args fuel 0 i WAIT_OBJECT_0 hloop
      have hblock : watcher_iteration env args i
          = [.notify i 0, .wait i WAIT_OBJECT_0,
              .read (read_registry_value
                (env.registry i args.root args.subKey args.valueName)),
              .log (.change_detected args.subKey args.valueName
                (read_registry_value
                  (env.registry i args.root args.subKey args.valueName))),
              .reset_event] := by
        simp [watcher_iteration, ← hw]
      refine ⟨before ++ [.notify i 0],
        (watcher_loop env args fuel1 (i + 1)).1
          ++ (if (watcher_loop env args fuel1 (i + 1)).2 = true
              then [.close_event, .close_key] else []), ?_, ?_⟩
      · rw [hsplit, hret, hblock]
        simp [List.append_assoc]
      · rcases watcher_loop_head env args fuel1 (i + 1) with h | h | ⟨rest, h⟩
        · left
          simp [h]
        · right; left
          simp [h]
        · right; right
          exact ⟨_, by rw [h]; rfl⟩

theorem signaled_wait_writes_one_change_line_witness :
    WatcherEvent.wait 1 WAIT_OBJECT_0
        ∈ (monitor_registry_changes demo_watcher demo_watcher_args 5).events
    ∧ change_records (monitor_registry_changes demo_watcher demo_watcher_args 5).events = 1
    ∧ ∃ before after, (monitor_registry_changes demo_watcher demo_watcher_args 5).events
        = before
          ++ [.wait 1 WAIT_OBJECT_0,
              .read (read_registry_value
                (demo_watcher.registry 1 demo_watcher_args.root demo_watcher_args.subKey
                  demo_watcher_args.valueName)),
              .log (.change_detected demo_watcher_args.subKey demo_watcher_args.valueName
                (read_registry_value
                  (demo_watcher.registry 1 demo_watcher_args.root demo_watcher_args.subKey
                    demo_watcher_args.valueName))),
              .reset_event]
          ++ after
        ∧ (after = [] ∨ after = [.close_event, .close_key]
            ∨ ∃ rest, after = .notify (1 + 1) (demo_watcher.notify_result (1 + 1)) :: rest) :=
  ⟨by decide, by decide,
   (signaled_wait_writes_one_change_line demo_watcher demo_watcher_args 5).2.2 1
     (by decide)⟩

/-! ## Building the report -/

theorem json_assign_container (key : String) (v : Json) (j : Json) (h : JsonContainer j) :
    json_assign key v j = .ok (.object (map_assign key v j.members)) := by
  rcases h with rfl | ⟨members, rfl⟩ <;> rfl

theorem json_member_container (key : String) (j : Json) (h : JsonContainer j) :
    json_member key j = .ok (j.get key) := by
  rcases h with rfl | ⟨members, rfl⟩ <;> rfl

theorem json_assign_nested_container (outer inner : String) (v : Json) (j : Json)
    (h : JsonContainer j) (hchild : JsonContainer (j.get outer)) :
    json_assign_nested outer inner v j
      = .ok (.object (map_assign outer
          (.object (map_assign inner v (j.get outer).members)) j.members)) := by
  unfold json_assign_nested
  rw [json_member_container outer j h]
  simp only [json_assign_container inner v _ hchild, json_assign_container outer _ j h]

theorem jsonContainer_object (members : StdMap Json) : JsonContainer (.object members) :=
  Or.inr ⟨members, rfl⟩

theorem jsonContainer_null : JsonContainer .null := Or.inl rfl

theorem json_get_eq (j : Json) (key : String) (v : Json)
    (h : map_find j.members key = some v) : j.get key = v := by
  simp [Json.get, h]

theorem json_assign_all_spec (l : List (String × Json)) (j : Json) (h : JsonContainer j) :
    ∃ j1, json_assign_all l j = .ok j1 ∧ JsonContainer j1
      ∧ (∀ k, k ∉ l.map Prod.fst → map_find j1.members k = map_find j.members k)
      ∧ (∀ k, k ∈ l.map Prod.fst → k ∈ map_keys j1.members)
      ∧ (∀ k v, (k, v) ∈ l → (∀ v1, (k, v1) ∈ l → v1 = v) →
          map_find j1.members k = some v) := by
  induction l generalizing j with
  | nil => exact ⟨j, rfl, h, fun _ _ => rfl, by simp, by simp⟩
  | cons e rest ih =>
    obtain ⟨k0, v0⟩ := e
    obtain ⟨j1, hj1, hc1, hold, hkeys, hnew⟩ :=
      ih (.object (map_assign k0 v0 j.members)) (jsonContainer_object _)
    refine ⟨j1, ?_, hc1, ?_, ?_, ?_⟩
    · simp only [json_assign_all, json_assign_container k0 v0 j h, hj1]
    · intro k hk
      simp only [List.map_cons, List.mem_cons, not_or] at hk
      rw [hold k hk.2]
      simp only [Json.members, map_find_assign, if_neg hk.1]
    · intro k hk
      simp only [List.map_cons, List.mem_cons] at hk
      by_cases hrest : k ∈ rest.map Prod.fst
      · exact hkeys k hrest
      · rcases hk with hk | hk
        · rw [mem_map_keys_iff_find, hold k hrest]
          simp only [Json.members, map_find_assign, hk, if_true]
          exact ⟨_, rfl⟩
        · exact absurd hk hrest
    · intro k v hmem hfun
      by_cases hrest : k ∈ rest.map Prod.fst
      · obtain ⟨⟨k1, v1⟩, he, hk1⟩ := List.mem_map.mp hrest
        simp only at hk1
        subst hk1
        have hv1 : v1 = v := hfun v1 (List.mem_cons_of_mem _ he)
        subst hv1
        exact hnew k1 v1 he (fun v2 h2 => hfun v2 (List.mem_cons_of_mem _ h2))
      · rcases List.mem_cons.mp hmem with heq | hmem
        · simp only [Prod.mk.injEq] at heq
          rw [hold k hrest]
          simp only [Json.members, map_find_assign, heq.1, heq.2, if_true]
        · exact absurd (List.mem_map.mpr ⟨(k, v), hmem, rfl⟩) hrest

theorem map_find_of_mem {V : Type} (m : StdMap V) (hnd : (map_keys m).Nodup) (k : String)
    (v : V) : map_find m k = some v ↔ (k, v) ∈ m := by
  induction m with
  | nil => simp [map_find]
  | cons e rest ih =>
    obtain ⟨k0, v0⟩ := e
    simp only [map_keys, List.map_cons, List.nodup_cons] at hnd
    simp only [map_find, List.mem_cons, Prod.mk.injEq]
    by_cases hk : k0 = k
    · subst hk
      simp only [if_true, Option.some.injEq, true_and]
      constructor
      · intro h
        exact Or.inl h.symm
      · rintro (h | h)
        · exact h.symm
        · exact absurd (List.mem_map.mpr ⟨(k0, v), h, rfl⟩) hnd.1
    · rw [if_neg hk, ih hnd.2]
      constructor
      · exact Or.inr
      · rintro (h | h)
        · exact absurd h.1.symm hk
        · exact h

/-- The `folderData` of a well-formed snapshot: no exception, a member for exactly the keys
of the snapshot, each the object built from the record of the key. -/
theorem folder_data_spec (snapshot : Snapshot) (hord : MapOrdered snapshot) :
    ∃ fd, folder_data snapshot = .ok fd ∧ JsonContainer fd
      ∧ (∀ p, p ∈ map_keys fd.members ↔ p ∈ map_keys snapshot)
      ∧ ∀ p info, map_find snapshot p = some info →
          map_find fd.members p = some (file_record_json info) := by
  obtain ⟨fd, hfd, hc, hold, hkeys, hnew⟩ :=
    json_assign_all_spec (snapshot.map (fun file => (file.1, file_record_json file.2)))
      .null jsonContainer_null
  have hfst : (snapshot.map (fun file => (file.1, file_record_json file.2))).map Prod.fst
      = map_keys snapshot := by
    simp [map_keys, Function.comp_def]
  rw [hfst] at hold hkeys
  have hnd : (map_keys snapshot).Nodup := SetOrdered.nodup hord
  refine ⟨fd, hfd, hc, ?_, ?_⟩
  · intro p
    constructor
    · intro hp
      by_contra hnot
      rw [mem_map_keys_iff_find, hold p hnot] at hp
      simp [Json.members, map_find] at hp
    · exact hkeys p
  · intro p info hfind
    have hmem := (map_find_of_mem snapshot hnd p info).mp hfind
    apply hnew p (file_record_json info) (List.mem_map.mpr ⟨(p, info), hmem, rfl⟩)
    intro v1 hv1
    obtain ⟨⟨p1, info1⟩, he, heq⟩ := List.mem_map.mp hv1
    simp only [Prod.mk.injEq] at heq
    obtain ⟨hp1, hv⟩ := heq
    subst hp1
    have := (map_find_of_mem snapshot hnd p1 info1).mpr he
    rw [hfind, Option.some.injEq] at this
    rw [← hv, this]


theorem folder_data_ok (snapshot : Snapshot) :
    ∃ fd, folder_data snapshot = .ok fd ∧ JsonContainer fd := by
  obtain ⟨fd, hfd, hc, _⟩ :=
    json_assign_all_spec (snapshot.map (fun file => (file.1, file_record_json file.2)))
      .null jsonContainer_null
  exact ⟨fd, hfd, hc⟩

theorem json_get_assign (outer : String) (child : Json) (members : StdMap Json)
    (key : String) :
    (Json.object (map_assign outer child members)).get key
      = if key = outer then child else (Json.object members).get key := by
  simp only [Json.get, Json.members, map_find_assign]
  by_cases h : key = outer <;> simp [h]

theorem add_file_information_spec (store : Store) (fs : List MonitorFolder) (report : Json)
    (hc : JsonContainer report) (hfiles : JsonContainer (report.get "files")) :
    ∃ r1, add_file_information store fs report = .ok r1 ∧ JsonContainer r1
      ∧ JsonContainer (r1.get "files")
      ∧ (∀ key, key ≠ "files" → r1.get key = report.get key)
      ∧ (∀ path, (¬ ∃ f ∈ fs, f.isActive = true ∧ f.path = path) →
          map_find (r1.get "files").members path
            = map_find (report.get "files").members path)
      ∧ (∀ f ∈ fs, f.isActive = true →
          ∃ fd, folder_data (store_at store f.path) = .ok fd
            ∧ map_find (r1.get "files").members f.path = some fd) := by
  induction fs generalizing report with
  | nil =>
    exact ⟨report, rfl, hc, hfiles, fun _ _ => rfl, fun _ _ => rfl, by simp⟩
  | cons f0 rest ih =>
    by_cases hact : f0.isActive = true
    · obtain ⟨fd0, hfd0, _⟩ := folder_data_ok (store_at store f0.path)
      have hnested := json_assign_nested_container "files" f0.path fd0 report hc hfiles
      obtain ⟨r1, hr1, hc1, hf1, hother, hold, hnew⟩ :=
        ih (.object (map_assign "files"
            (.object (map_assign f0.path fd0 (report.get "files").members)) report.members))
          (jsonContainer_object _)
          (by rw [json_get_assign, if_pos rfl]; exact jsonContainer_object _)
      have hrep : (Json.object report.members).get = report.get := by
        funext key
        simp [Json.get, Json.members]
      refine ⟨r1, ?_, hc1, hf1, ?_, ?_, ?_⟩
      · simp only [add_file_information, if_pos hact, hfd0, hnested, hr1]
      · intro key hkey
        rw [hother key hkey, json_get_assign, if_neg hkey, hrep]
      · intro path hpath
        have hrest : ¬ ∃ f ∈ rest, f.isActive = true ∧ f.path = path := by
          rintro ⟨f, hf, h⟩
          exact hpath ⟨f, List.mem_cons_of_mem _ hf, h⟩
        have hne : path ≠ f0.path := by
          intro h
          exact hpath ⟨f0, List.mem_cons_self _ _, hact, h.symm⟩
        rw [hold path hrest, json_get_assign, if_pos rfl]
        simp only [Json.members, map_find_assign, if_neg hne]
      · intro f hf hfact
        by_cases hrest : ∃ f1 ∈ rest, f1.isActive = true ∧ f1.path = f.path
        · obtain ⟨f1, hf1mem, hf1act, hf1path⟩ := hrest
          obtain ⟨fd, hfd, hfind⟩ := hnew f1 hf1mem hf1act
          rw [hf1path] at hfd hfind
          exact ⟨fd, hfd, hfind⟩
        · have hf0 : f = f0 := by
            rcases List.mem_cons.mp hf with h | h
            · exact h
            · exact absurd ⟨f, h, hfact, rfl⟩ hrest
          subst hf0
          refine ⟨fd0, hfd0, ?_⟩
          rw [hold f.path hrest, json_get_assign, if_pos rfl]
          simp only [Json.members, map_find_assign, if_true]
    · obtain ⟨r1, hr1, hc1, hf1, hother, hold, hnew⟩ := ih report hc hfiles
      refine ⟨r1, ?_, hc1, hf1, hother, ?_, ?_⟩
      · simp only [add_file_information, if_neg hact, hr1]
      · intro path hpath
        apply hold path
        rintro ⟨f, hf, h⟩
        exact hpath ⟨f, List.mem_cons_of_mem _ hf, h⟩
      · intro f hf hfact
        rcases List.mem_cons.mp hf with h | h
        · rw [h] at hfact
          exact absurd hfact hact
        · exact hnew f h hfact

theorem registry_data_spec (reg : Registry) (m : RegistryMonitor) :
    ∃ rd, registry_data reg m = .ok rd ∧ JsonContainer rd
      ∧ ∀ v ∈ m.values,
          map_find rd.members v
            = some (.string (read_registry_value (reg m.root m.subkey v))) := by
  obtain ⟨rd, hrd, hc, _, _, hnew⟩ :=
    json_assign_all_spec
      (m.values.map (fun value =>
        (value, Json.string (read_registry_value (reg m.root m.subkey value)))))
      .null jsonContainer_null
  refine ⟨rd, hrd, hc, ?_⟩
  intro v hv
  apply hnew v _ (List.mem_map.mpr ⟨v, hv, rfl⟩)
  intro v1 hv1
  obtain ⟨v2, _, heq⟩ := List.mem_map.mp hv1
  simp only [Prod.mk.injEq] at heq
  rw [← heq.2, heq.1]

theorem add_registry_information_spec (reg : Registry) (ms : List RegistryMonitor)
    (report : Json) (hc : JsonContainer report)
    (hreg : JsonContainer (report.get "registry")) :
    ∃ r1, add_registry_information reg ms report = .ok r1 ∧ JsonContainer r1
      ∧ JsonContainer (r1.get "registry")
      ∧ (∀ key, key ≠ "registry" → r1.get key = report.get key)
      ∧ (∀ k, (¬ ∃ m ∈ ms, m.isActive = true ∧ m.subkey = k) →
          map_find (r1.get "registry").members k
            = map_find (report.get "registry").members k)
      ∧ (∀ k, (∃ m ∈ ms, m.isActive = true ∧ m.subkey = k) →
          k ∈ map_keys (r1.get "registry").members)
      ∧ (∀ m ∈ ms, m.isActive = true →
          (∀ m1 ∈ ms, m1.isActive = true → m1.subkey = m.subkey → m1 = m) →
          ∃ rd, registry_data reg m = .ok rd
            ∧ map_find (r1.get "registry").members m.subkey = some rd) := by
  induction ms generalizing report with
  | nil =>
    exact ⟨report, rfl, hc, hreg, fun _ _ => rfl, fun _ _ => rfl, by simp, by simp⟩
  | cons m0 rest ih =>
    by_cases hact : m0.isActive = true
    · obtain ⟨rd0, hrd0, _⟩ := registry_data_spec reg m0
      have hnested := json_assign_nested_container "registry" m0.subkey rd0 report hc hreg
      obtain ⟨r1, hr1, hc1, hg1, hother, hold, hkeys, hnew⟩ :=
        ih (.object (map_assign "registry"
            (.object (map_assign m0.subkey rd0 (report.get "registry").members))
            report.members))
          (jsonContainer_object _)
          (by rw [json_get_assign, if_pos rfl]; exact jsonContainer_object _)
      have hrep : (Json.object report.members).get = report.get := by
        funext key
        simp [Json.get, Json.members]
      have hkeep : ∀ k, (¬ ∃ m ∈ rest, m.isActive = true ∧ m.subkey = k) →
          map_find (r1.get "registry").members k
            = if k = m0.subkey then some rd0
              else map_find (report.get "registry").members k := by
        intro k hk
        rw [hold k hk, json_get_assign, if_pos rfl]
        simp only [Json.members, map_find_assign]
      refine ⟨r1, ?_, hc1, hg1, ?_, ?_, ?_, ?_⟩
      · simp only [add_registry_information, if_pos hact, hrd0, hnested, hr1]
      · intro key hkey
        rw [hother key hkey, json_get_assign, if_neg hkey, hrep]
      · intro k hk
        have hrest : ¬ ∃ m ∈ rest, m.isActive = true ∧ m.subkey = k := by
          rintro ⟨m, hm, h⟩
          exact hk ⟨m, List.mem_cons_of_mem _ hm, h⟩
        have hne : k ≠ m0.subkey := by
          intro h
          exact hk ⟨m0, List.mem_cons_self _ _, hact, h.symm⟩
        rw [hkeep k hrest, if_neg hne]
      · rintro k ⟨m, hm, hmact, hsub⟩
        by_cases hrest : ∃ m1 ∈ rest, m1.isActive = true ∧ m1.subkey = k
        · exact hkeys k hrest
        · have hm0 : m = m0 := by
            rcases List.mem_cons.mp hm with h | h
            · exact h
            · exact absurd ⟨m, h, hmact, hsub⟩ hrest
          rw [mem_map_keys_iff_find, hkeep k hrest, ← hsub, hm0, if_pos rfl]
          exact ⟨_, rfl⟩
      · intro m hm hmact huniq
        rcases List.mem_cons.mp hm with h | h
        · subst h
          by_cases hrest : ∃ m1 ∈ rest, m1.isActive = true ∧ m1.subkey = m.subkey
          · obtain ⟨m1, hm1, hm1act, hm1sub⟩ := hrest
            have heq := huniq m1 (List.mem_cons_of_mem _ hm1) hm1act hm1sub
            subst heq
            exact hnew m1 hm1 hm1act
              (fun m2 hm2 h2 h3 => huniq m2 (List.mem_cons_of_mem _ hm2) h2 h3)
          · exact ⟨rd0, hrd0, by rw [hkeep m.subkey hrest, if_pos rfl]⟩
        · exact hnew m h hmact
            (fun m2 hm2 h2 h3 => huniq m2 (List.mem_cons_of_mem _ hm2) h2 h3)
    · obtain ⟨r1, hr1, hc1, hg1, hother, hold, hkeys, hnew⟩ := ih report hc hreg
      refine ⟨r1, ?_, hc1, hg1, hother, ?_, ?_, ?_⟩
      · simp only [add_registry_information, if_neg hact, hr1]
      · intro k hk
        apply hold k
        rintro ⟨m, hm, h⟩
        exact hk ⟨m, List.mem_cons_of_mem _ hm, h⟩
      · rintro k ⟨m, hm, hmact, hsub⟩
        rcases List.mem_cons.mp hm with h | h
        · rw [h] at hmact
          exact absurd hmact hact
        · exact hkeys k ⟨m, h, hmact, hsub⟩
      · intro m hm hmact huniq
        rcases List.mem_cons.mp hm with h | h
        · rw [h] at hmact
          exact absurd hmact hact
        · exact hnew m h hmact
            (fun m2 hm2 h2 h3 => huniq m2 (List.mem_cons_of_mem _ hm2) h2 h3)


theorem file_record_json_eq (info : FileInfo) :
    file_record_json info
      = .object [("exists", .boolean info.exists_), ("hash", .string info.hash),
                 ("last_modified", .string info.lastModified)] := rfl

theorem generate_report_spec (timestamp : String) (reg : Registry) (state : MainState) :
    ∃ report, generate_report timestamp reg state = .ok report
      ∧ (∀ f ∈ state.folders, f.isActive = true →
          ∃ fd, folder_data (store_at state.previousFileStates f.path) = .ok fd
            ∧ (report.get "files").get f.path = fd)
      ∧ (∀ k, k ∈ map_keys (report.get "registry").members
          ↔ ∃ m ∈ state.registryMonitors, m.isActive = true ∧ m.subkey = k)
      ∧ (∀ m ∈ state.registryMonitors, m.isActive = true →
          (∀ m1 ∈ state.registryMonitors, m1.isActive = true → m1.subkey = m.subkey →
            m1 = m) →
          ∃ rd, registry_data reg m = .ok rd
            ∧ (report.get "registry").get m.subkey = rd) := by
  have hstart : ∀ key, key ≠ "monitor_status" → key ≠ "timestamp" →
      (Json.object (map_assign "monitor_status" (.string "active")
        [("timestamp", .string timestamp)])).get key = .null := by
    intro key h1 h2
    have h3 : ¬ "timestamp" = key := fun h => h2 h.symm
    have h4 : ¬ "monitor_status" = key := fun h => h1 h.symm
    simp [Json.get, Json.members, map_find_assign, map_find, h1, h3, h4]
  obtain ⟨r3, hr3, hc3, _, hother3, _, hnew3⟩ :=
    add_file_information_spec state.previousFileStates state.folders
      (.object (map_assign "monitor_status" (.string "active")
        [("timestamp", .string timestamp)]))
      (jsonContainer_object _)
      (by rw [hstart "files" (by decide) (by decide)]; exact jsonContainer_null)
  have hreg3 : r3.get "registry" = .null := by
    rw [hother3 "registry" (by decide), hstart "registry" (by decide) (by decide)]
  obtain ⟨report, hrep, _, _, hother, hold, hkeys, hnew⟩ :=
    add_registry_information_spec reg state.registryMonitors r3 hc3
      (by rw [hreg3]; exact jsonContainer_null)
  refine ⟨report, ?_, ?_, ?_, ?_⟩
  · simp only [generate_report, json_assign, hr3, hrep]
  · intro f hf hact
    obtain ⟨fd, hfd, hfind⟩ := hnew3 f hf hact
    refine ⟨fd, hfd, ?_⟩
    rw [hother "files" (by decide)]
    exact json_get_eq _ _ _ hfind
  · intro k
    constructor
    · intro hk
      by_contra hnone
      rw [mem_map_keys_iff_find, hold k hnone, hreg3] at hk
      simp [Json.members, map_find] at hk
    · exact hkeys k
  · intro m hm hact huniq
    obtain ⟨rd, hrd, hfind⟩ := hnew m hm hact huniq
    exact ⟨rd, hrd, json_get_eq _ _ _ hfind⟩

/-- C14 (counterexample): in the report for a folder holding `a.txt`, the object of
`C:\t\a.txt` has the members `exists`, `hash` and `last_modified`; it has no member
`fingerprint`. -/
theorem report_record_has_no_fingerprint_member :
    (generate_report "2024-01-01 10:00:01" demo_registry demo_state).toOption.map
        (fun report =>
          map_keys (((report.get "files").get "C:\\t").get "C:\\t\\a.txt").members)
      = some ["exists", "hash", "last_modified"]
    ∧ "fingerprint" ∉ ["exists", "hash", "last_modified"] := by
  constructor <;> decide

/-- C14 (amended): the report of a poll cycle is built without an exception, and for every
active target whose snapshot is a well-formed map the member of `files` for the target has
exactly the keys of the snapshot, each path holding an object with exactly the members
`exists`, `hash` and `last_modified`, which carry the `exists`, `hash` and `lastModified`
of the record of that path. -/
theorem report_files_mirror_snapshots (timestamp : String) (reg : Registry)
    (state : MainState) :
    ∃ report, generate_report timestamp reg state = .ok report
      ∧ ∀ f ∈ state.folders, f.isActive = true →
          MapOrdered (store_at state.previousFileStates f.path) →
          (∀ p, p ∈ map_keys ((report.get "files").get f.path).members
              ↔ p ∈ map_keys (store_at state.previousFileStates f.path))
          ∧ ∀ p info, map_find (store_at state.previousFileStates f.path) p = some info →
              ((report.get "files").get f.path).get p
                = .object [("exists", .boolean info.exists_), ("hash", .string info.hash),
                           ("last_modified", .string info.lastModified)] := by
  obtain ⟨report, hrep, hfiles, _, _⟩ := generate_report_spec timestamp reg state
  refine ⟨report, hrep, ?_⟩
  intro f hf hact hord
  obtain ⟨fd, hfd, hget⟩ := hfiles f hf hact
  obtain ⟨fd1, hfd1, _, hkeys, hrec⟩ :=
    folder_data_spec (store_at state.previousFileStates f.path) hord
  rw [hfd, Except.ok.injEq] at hfd1
  subst hfd1
  rw [hget]
  refine ⟨hkeys, ?_⟩
  intro p info hfind
  rw [json_get_eq _ _ _ (hrec p info hfind), file_record_json_eq]


theorem report_files_mirror_snapshots_witness :
    MapOrdered (store_at demo_state.previousFileStates "C:\\t")
    ∧ ∃ report, generate_report "2024-01-01 10:00:01" demo_registry demo_state = .ok report
        ∧ ∀ p, p ∈ map_keys ((report.get "files").get "C:\\t").members
            ↔ p ∈ map_keys (store_at demo_state.previousFileStates "C:\\t") :=
  ⟨by unfold MapOrdered SetOrdered; decide,
   (report_files_mirror_snapshots "2024-01-01 10:00:01" demo_registry demo_state).elim
     (fun report h =>
       ⟨report, h.1,
        (h.2 { path := "C:\\t", description := "Desktop", isActive := true } (by decide) rfl
          (by unfold MapOrdered SetOrdered; decide)).1⟩)⟩

theorem map_keys_map_assign {V : Type} (k : String) (v : V) (m : StdMap V) :
    map_keys (map_assign k v m) = set_insert k (map_keys m) := by
  induction m with
  | nil => rfl
  | cons e rest ih =>
    obtain ⟨k0, v0⟩ := e
    simp only [map_assign, map_keys, List.map_cons, set_insert] at ih ⊢
    by_cases h1 : str_lt k k0 = true
    · simp [h1, map_keys]
    · by_cases h2 : str_lt k0 k = true
      · simp [h1, h2, ih]
      · simp [h1, h2]

/-- The assignment `m[k] = v` keeps a map well-formed, so every snapshot that `main` builds
from the empty map is well-formed. -/
theorem mapOrdered_map_assign {V : Type} (k : String) (v : V) (m : StdMap V)
    (h : MapOrdered m) : MapOrdered (map_assign k v m) := by
  unfold MapOrdered at h ⊢
  rw [map_keys_map_assign]
  exact setOrdered_set_insert h

theorem read_registry_value_failed (q : RegQuery)
    (h : q.open_result ≠ 0 ∨ q.info_result ≠ 0 ∨ q.read_result ≠ 0) :
    read_registry_value q = "N/A" := by
  unfold read_registry_value
  by_cases ht : q.throws = true
  · rw [if_pos ht]
  · rw [if_neg ht]
    by_cases h1 : q.open_result ≠ 0
    · rw [if_pos h1]
    · rw [if_neg h1]
      by_cases h2 : q.info_result ≠ 0
      · rw [if_pos h2]
      · rw [if_neg h2]
        by_cases h3 : q.read_result ≠ 0
        · rw [if_pos h3]
        · rcases h with h | h | h
          · exact absurd h h1
          · exact absurd h h2
          · exact absurd h h3

/-- C15: the report of a poll cycle is built without an exception, whatever the map
`previousRegistryStates` of start-up holds. Its member `registry` has an entry for exactly
the subkeys of the active targets, so an inactive target adds none; and for an active
target that is the only active one with its subkey, as every target of
`get_registry_monitors` is, each configured value name holds the string that
`read_registry_value` returns when the report is generated, which is `N/A` when the key
cannot be opened or the value cannot be queried. -/
theorem report_registry_is_read_live (timestamp : String) (reg : Registry)
    (state : MainState) :
    (∃ report, generate_report timestamp reg state = .ok report
      ∧ (∀ k, k ∈ map_keys (report.get "registry").members
          ↔ ∃ m ∈ state.registryMonitors, m.isActive = true ∧ m.subkey = k)
      ∧ ∀ m ∈ state.registryMonitors, m.isActive = true →
          (∀ m1 ∈ state.registryMonitors, m1.isActive = true → m1.subkey = m.subkey →
            m1 = m) →
          ∀ v ∈ m.values,
            ((report.get "registry").get m.subkey).get v
              = .string (read_registry_value (reg m.root m.subkey v)))
    ∧ (∀ m ∈ get_registry_monitors, ∀ m1 ∈ get_registry_monitors,
        m1.subkey = m.subkey → m1 = m)
    ∧ ∀ q : RegQuery, q.open_result ≠ 0 ∨ q.info_result ≠ 0 ∨ q.read_result ≠ 0 →
        read_registry_value q = "N/A" := by
  refine ⟨?_, by decide, read_registry_value_failed⟩
  obtain ⟨report, hrep, _, hkeys, hreg⟩ := generate_report_spec timestamp reg state
  refine ⟨report, hrep, hkeys, ?_⟩
  intro m hm hact huniq v hv
  obtain ⟨rd, hrd, hget⟩ := hreg m hm hact huniq
  obtain ⟨rd1, hrd1, _, hvals⟩ := registry_data_spec reg m
  rw [hrd, Except.ok.injEq] at hrd1
  subst hrd1
  rw [hget]
  exact json_get_eq _ _ _ (hvals v hv)

theorem report_registry_is_read_live_witness :
    map_find (registry_states_at demo_state.previousRegistryStates "Software\\EDRTest")
        "TestValue" = some "N/A"
    ∧ ∃ report, generate_report "2024-01-01 10:00:01" demo_registry demo_state = .ok report
        ∧ ((report.get "registry").get "Software\\EDRTest").get "TestValue"
            = .string "v1\x00" :=
  ⟨by decide,
   (report_registry_is_read_live "2024-01-01 10:00:01" demo_registry demo_state).1.elim
     (fun report h =>
       ⟨report, h.1,
        h.2.2 { root := .HKEY_CURRENT_USER, subkey := "Software\\EDRTest",
                values := ["TestValue"], isActive := true }
          (by decide) rfl (by decide) "TestValue" (by decide)⟩)⟩

end EDR
